import Mathlib

/-!
# vimix: Source, MixingGroup and Mixer

A shallow embedding of parts of `Source.cpp`, `MixingGroup.cpp` and `Mixer.cpp`.

* C++ `float` is idealised as `ℝ`.
* Objects live on heaps indexed by addresses (`SourcePtr`, `SessionPtr`); a nullable pointer
  is an `Option`.
* A function whose C++ body dereferences a null or dangling pointer returns `none`.
* Scene-graph attachment, logging, the undo history and rendering are outside the embedded state.
-/

namespace Vimix

/-! ## glm vectors -/

/-- The type `glm::vec2`. -/
@[ext] structure vec2 where
  x : ℝ
  y : ℝ

/-- The type `glm::vec3`. -/
@[ext] structure vec3 where
  x : ℝ
  y : ℝ
  z : ℝ

namespace vec2

instance : Zero vec2 := ⟨⟨0, 0⟩⟩
instance : Add vec2 := ⟨fun a b => ⟨a.x + b.x, a.y + b.y⟩⟩
instance : Sub vec2 := ⟨fun a b => ⟨a.x - b.x, a.y - b.y⟩⟩
/-- Componentwise product with a scalar, `v * s`. -/
instance : HMul vec2 ℝ vec2 := ⟨fun a s => ⟨a.x * s, a.y * s⟩⟩
/-- Componentwise quotient by a scalar, `v / s`. -/
noncomputable instance : HDiv vec2 ℝ vec2 := ⟨fun a s => ⟨a.x / s, a.y / s⟩⟩

end vec2

instance : Sub vec3 := ⟨fun a b => ⟨a.x - b.x, a.y - b.y, a.z - b.z⟩⟩

/-- The conversion `glm::vec2(v)` of a `glm::vec3`: the first two components. -/
def vec3.xy (v : vec3) : vec2 := ⟨v.x, v.y⟩

/-! ## Views and scene nodes -/

/-- The enumeration `View::Mode`. -/
inductive View
  | RENDERING | MIXING | GEOMETRY | LAYER | APPEARANCE | TRANSITION | INVALID
  deriving DecidableEq, Repr

/-- The transform and visibility of a scene `Group` node owned by a source. -/
structure Node where
  visible_ : Bool := false
  translation_ : vec3 := ⟨0, 0, 0⟩
  scale_ : vec3 := ⟨1, 1, 1⟩
  rotation_ : vec3 := ⟨0, 0, 0⟩

/-! ## Source -/

/-- The enumeration `Source::Mode`, in declaration order. -/
inductive SourceMode
  | UNINITIALIZED | VISIBLE | SELECTED | CURRENT
  deriving DecidableEq, Repr

/-- The integer value of a `Source::Mode` enumerator. -/
def SourceMode.toNat : SourceMode → Nat
  | UNINITIALIZED => 0
  | VISIBLE => 1
  | SELECTED => 2
  | CURRENT => 3

/-- Address of a `Source` object. -/
abbrev SourcePtr := Nat

/-- The state of a `Source` object. `groups_` is total on `View`; the C++ map has the keys
RENDERING, MIXING, GEOMETRY, LAYER, APPEARANCE and TRANSITION. `frames_` records the active child
of each `Switch` and `overlays_` the `visible_` flag of each overlay group (keys MIXING, GEOMETRY,
LAYER, APPEARANCE). `clones_` lists the addresses of the clones, `locker_visible_` is
`locker_->visible_`, `renderbuffer_`, `mixingsurface_` and `maskbuffer_` tell whether the pointer
of that name is non-null, and `blending_alpha_` and `mixing_alpha_` are the alpha components of
`blendingshader_->color` and `mixingshader_->color`. `origin_` is `none` for a source that is
not a `CloneSource`, and for a clone it holds the pointer `origin_`. -/
structure Source where
  id_ : Nat := 0
  name_ : String := "Source"
  initials_ : Char × Char := ('_', '_')
  mode_ : SourceMode := SourceMode.UNINITIALIZED
  active_ : Bool := true
  locked_ : Bool := false
  need_update_ : Bool := true
  groups_ : View → Node := fun _ => {}
  frames_ : View → Nat := fun _ => 0
  overlays_ : View → Bool := fun _ => false
  mixinggroup_ : Option Nat := none
  dt_ : ℝ := 0
  clones_ : List SourcePtr := []
  locker_visible_ : Bool := false
  renderbuffer_ : Bool := false
  mixingsurface_ : Bool := false
  maskbuffer_ : Bool := false
  mask_need_update_ : Bool := false
  blending_alpha_ : ℝ := 1
  mixing_alpha_ : ℝ := 1
  origin_ : Option (Option SourcePtr) := none

/-- The call `std::toupper(c, std::locale("C"))`. -/
def toupperC (c : Char) : Char := c.toUpper

/-- The method `Source::setName`; `transliterate` stands for `SystemToolkit::transliterate`. -/
def Source.setName (transliterate : String → String) (s : Source) (name : String) : Source :=
  let n := transliterate name
  { s with name_ := n, initials_ := (toupperC n.front, toupperC n.back) }

/-- The method `Source::touch`. -/
def Source.touch (s : Source) : Source := { s with need_update_ := true }

/-- The method `Source::locked`. -/
def Source.locked (s : Source) : Bool := s.locked_

/-- Whether a view is a key of the maps `frames_` and `overlays_`. -/
def View.hasFrame : View → Bool
  | MIXING | GEOMETRY | LAYER | APPEARANCE => true
  | _ => false

/-- Whether a view is a key of the map `groups_`. -/
def View.hasGroup : View → Bool
  | INVALID => false
  | _ => true

/-- The method `Source::setMode`. -/
def Source.setMode (s : Source) (m : SourceMode) : Source :=
  -- make visible on first time
  let g1 : View → Node :=
    if s.mode_ = SourceMode.UNINITIALIZED then
      fun v => if v.hasGroup then { s.groups_ v with visible_ := true } else s.groups_ v
    else s.groups_
  -- choose frame 0 if visible, 1 if selected
  let index_frame : Nat := if m = SourceMode.VISIBLE then 0 else 1
  -- show overlay if current
  let current : Bool := decide (SourceMode.CURRENT.toNat ≤ m.toNat)
  -- show in appearance view if current
  let g2 : View → Node :=
    Function.update g1 View.APPEARANCE
      { g1 View.APPEARANCE with visible_ := decide (SourceMode.VISIBLE.toNat < m.toNat) }
  { s with
    groups_ := g2
    frames_ := fun v => if v.hasFrame then index_frame else s.frames_ v
    overlays_ := fun v => if v.hasFrame then current else s.overlays_ v
    mode_ := m }

/-! ## Session and Selection -/

/-- Address of a `Session` object. -/
abbrev SessionPtr := Nat

/-- Modelled from the spec: class `Session` (Session.cpp) is not under src. A session is an
ordered list of sources, a current fading scalar and a filename. -/
structure Session where
  sources_ : List SourcePtr := []
  fading_ : ℝ := 0
  filename_ : String := ""

/-- Modelled from the spec: `Session::setFading` is not under src; it stores the fading scalar. -/
def Session.setFading (s : Session) (f : ℝ) : Session := { s with fading_ := f }

/-! ## Mixer -/

/-- The state of the `Mixer` singleton, with the heaps of the `Source` and `Session` objects it
reaches. An iterator into the list of the live session is the source it points to, `none` being
`session_->end()`. `selection_` is the list held by `Mixer::selection()`. `current_view_` tells
which view `current_view_` points to. The static vectors `sessionLoaders_` and
`sessionImporters_` hold the pending tasks, each given by the file it loads, and
`sessionSourceToImport_` the session sources to import. `deleted_` records, in order, the
sessions on which `delete` was called. -/
structure Mixer where
  sources : SourcePtr → Source
  sessions : SessionPtr → Session
  session_ : Option SessionPtr
  back_session_ : Option SessionPtr := none
  garbage_ : List SessionPtr := []
  sessionSwapRequested_ : Bool := false
  current_source_ : Option SourcePtr := none
  current_source_index_ : Int := -1
  selection_ : List SourcePtr := []
  candidate_sources_ : List SourcePtr := []
  current_view_ : Option View := none
  sessionLoaders_ : List String := []
  sessionImporters_ : List String := []
  sessionSourceToImport_ : List (Option SourcePtr) := []
  deleted_ : List SessionPtr := []

/-- One iteration of the loop of `Mixer::renameSource`: `acc` is `(tentativename, count)`. -/
def renameStep (sources : SourcePtr → Source) (s : SourcePtr) (basename : String)
    (acc : String × Nat) (it : SourcePtr) : String × Nat :=
  if (sources s).id_ ≠ (sources it).id_ ∧ (sources it).name_ = acc.1 then
    (basename ++ toString (acc.2 + 1), acc.2 + 1)
  else acc

/-- The name chosen by `Mixer::renameSource` for source `s` over the session list `l`. -/
def renameTentative (sources : SourcePtr → Source) (l : List SourcePtr) (s : SourcePtr)
    (newname : String) : String :=
  -- refuse to rename to an empty name
  let tentativename := if newname.isEmpty then "source" else newname
  (l.foldl (renameStep sources s tentativename) (tentativename, 1)).1

/-- The method `Mixer::renameSource`; `transliterate` stands for
`SystemToolkit::transliterate`. -/
def Mixer.renameSource (transliterate : String → String) (m : Mixer) (s : Option SourcePtr)
    (newname : String) : Option Mixer :=
  match s with
  | none => some m
  | some p =>
    match m.session_ with
    | none => none
    | some sp =>
      let tentativename := renameTentative m.sources (m.sessions sp).sources_ p newname
      -- ok to rename
      some { m with
        sources := Function.update m.sources p ((m.sources p).setName transliterate tentativename) }

/-- A heap with source 1 named `base2`, source 2 named `base` and every other source named
`clip`, each with its address as id. -/
def renameHeap : SourcePtr → Source := fun p =>
  if p = 1 then { id_ := 1, name_ := "base2" }
  else if p = 2 then { id_ := 2, name_ := "base" }
  else { id_ := p, name_ := "clip" }

/-- A mixer whose live session is the list of sources 1, 2, 3 of `renameHeap`. -/
def renameMixer : Mixer :=
  { sources := renameHeap
    sessions := fun _ => { sources_ := [1, 2, 3] }
    session_ := some 0 }

/-- Modelled from the spec: class `Selection` (Selection.cpp) is not under src. The call
`selection().remove(s)` takes `s` out of the selection list. -/
def Selection.remove (sel : List SourcePtr) (s : SourcePtr) : List SourcePtr := sel.erase s

/-- Modelled from the spec: class `Selection` (Selection.cpp) is not under src. The call
`selection().clear()` empties the selection list. -/
def Selection.clear (_sel : List SourcePtr) : List SourcePtr := []

/-- Modelled from the spec: the macro `MAX` is not under src; `MAX(a, b)` is the larger of `a`
and `b`. -/
noncomputable def MAX (a b : ℝ) : ℝ := if a > b then a else b

/-- The method `Mixer::unsetCurrentSource`. -/
def Mixer.unsetCurrentSource (m : Mixer) : Option Mixer :=
  match m.session_ with
  | none => none
  | some _ =>
    match m.current_source_ with
    | none => some m
    | some c =>
      let m1 : Mixer :=
        -- current source is part of a selection, just change status
        if m.selection_.length > 1 then
          { m with sources := Function.update m.sources c ((m.sources c).setMode SourceMode.SELECTED) }
        -- current source is the only selected source, unselect too
        else
          { m with selection_ := Selection.remove m.selection_ c }
      -- deselect current source
      some { m1 with current_source_ := none, current_source_index_ := -1 }

/-- The method `Mixer::attach`. -/
def Mixer.attach (m : Mixer) (s : Option SourcePtr) : Mixer :=
  match s with
  | none => m
  | some p => { m with sources := Function.update m.sources p (m.sources p).touch }

/-- The method `Mixer::detach`. -/
def Mixer.detach (m : Mixer) (s : Option SourcePtr) : Option Mixer :=
  match s with
  | none => some m
  | some p =>
    -- in case it was the current source...
    match m.unsetCurrentSource with
    | none => none
    | some m1 =>
      -- in case it was selected..
      some { m1 with selection_ := Selection.remove m1.selection_ p }

/-- The loop of `Mixer::swap` that detaches the sources of the list `l`. -/
def Mixer.detachAll (m : Mixer) : List SourcePtr → Option Mixer
  | [] => some m
  | it :: l =>
    match m.detach (some it) with
    | none => none
    | some m1 => m1.detachAll l

/-- The loop of `Mixer::swap` that attaches the sources of the list `l`. -/
def Mixer.attachAll (m : Mixer) (l : List SourcePtr) : Mixer :=
  l.foldl (fun mm it => mm.attach (some it)) m

/-- The method `Mixer::swap`. -/
noncomputable def Mixer.swap (m : Mixer) : Option Mixer :=
  match m.back_session_ with
  | none => some m
  | some b =>
    let cleared : Option Mixer :=
      match m.session_ with
      | some a =>
        -- clear selection, detatch current session's nodes from views
        { m with selection_ := Selection.clear m.selection_ }.detachAll (m.sessions a).sources_
      | none => some m
    match cleared with
    | none => none
    | some m1 =>
      -- swap back and front
      let tmp := m1.session_
      let m2 : Mixer := { m1 with session_ := some b, back_session_ := tmp }
      -- attach new session's nodes to views
      let m3 : Mixer := m2.attachAll (m2.sessions b).sources_
      match m3.back_session_ with
      | none => none
      | some old =>
        -- transfer fading
        let f := MAX (m3.sessions old).fading_ (m3.sessions b).fading_
        some { m3 with
          sessions := Function.update m3.sessions b ((m3.sessions b).setFading f)
          -- no current source
          current_source_ := none
          current_source_index_ := -1
          -- delete back (former front session)
          garbage_ := m3.garbage_ ++ [old]
          back_session_ := none }

/-- A mixer with live session 0 (sources 5 and 6), staged back session 1 (source 7), and
source 5 current and selected. -/
def swapMixer : Mixer :=
  { sources := fun p => { id_ := p }
    sessions := fun a => if a = 0 then { sources_ := [5, 6] } else { sources_ := [7] }
    session_ := some 0
    back_session_ := some 1
    current_source_ := some 5
    current_source_index_ := 0
    selection_ := [5] }

/-! ## Transfer function -/

/-- Modelled from the spec: the macro `CLAMP` (defines.h) is not under src; `CLAMP(x, lo, hi)` is
`x` limited to the interval from `lo` to `hi`. -/
noncomputable def CLAMP (x low high : ℝ) : ℝ := min (max x low) high

/-- The function `sin_quad` of Source.cpp; `M_PI` is `Real.pi`. -/
noncomputable def sin_quad (x y : ℝ) : ℝ :=
  0.5 + 0.5 * Real.cos (Real.pi * CLAMP ((x * x) + (y * y)) 0 1)

/-! ## glm functions -/

/-- The function `glm::dot` on `vec2`. -/
def glm.dot (a b : vec2) : ℝ := a.x * b.x + a.y * b.y

/-- The function `glm::length` on `vec2`: `sqrt(dot(v, v))`. -/
noncomputable def glm.length (v : vec2) : ℝ := Real.sqrt (glm.dot v v)

/-- The function `glm::normalize` on `vec2`: `v * inversesqrt(dot(v, v))`. -/
noncomputable def glm.normalize (v : vec2) : vec2 := v * (1 / Real.sqrt (glm.dot v v))

/-- The function `glm::clamp` on scalars: `min(max(x, lo), hi)`. -/
noncomputable def glm.clamp (x lo hi : ℝ) : ℝ := min (max x lo) hi

/-- The function `glm::orientedAngle` of `glm/gtx/vector_angle` on `vec2`. -/
noncomputable def glm.orientedAngle (x y : vec2) : ℝ :=
  let Angle := Real.arccos (glm.clamp (glm.dot x y) (-1) 1)
  let partialCross := x.x * y.y - y.x * x.y
  if partialCross > 0 then Angle else -Angle

/-- The function `glm::rotate` of `glm/gtx/rotate_vector` on `vec2`. -/
noncomputable def glm.rotate (v : vec2) (angle : ℝ) : vec2 :=
  ⟨v.x * Real.cos angle - v.y * Real.sin angle, v.x * Real.sin angle + v.y * Real.cos angle⟩

/-! ## MixingGroup -/

/-- The heap of `Source` objects. -/
abbrev SourceHeap := SourcePtr → Source

/-- The expression `glm::vec2(s->group(View::MIXING)->translation_)`. -/
def Source.mixingPos (s : Source) : vec2 := (s.groups_ View.MIXING).translation_.xy

/-- The assignments of `v.x` and `v.y` to the `x` and `y` of
`s->group(View::MIXING)->translation_`. -/
def Source.setMixingXY (s : Source) (v : vec2) : Source :=
  { s with
    groups_ := Function.update s.groups_ View.MIXING
      { s.groups_ View.MIXING with
        translation_ := ⟨v.x, v.y, (s.groups_ View.MIXING).translation_.z⟩ } }

/-- The enumeration `MixingGroup::Action`. -/
inductive Action
  | ACTION_NONE | ACTION_GRAB_ALL | ACTION_GRAB_ONE | ACTION_ROTATE_ALL
  deriving DecidableEq, Repr

/-- Modelled from the spec: class `LineLoop` (Primitives.cpp) is not under src. A closed polygon
path through the given points; `alpha` is `shader()->color.a`. -/
structure LineLoop where
  path_ : List vec2
  alpha : ℝ := 0.96

/-- Modelled from the spec: `LineLoop::path` is not under src; it returns the points. -/
def LineLoop.path (l : LineLoop) : List vec2 := l.path_

/-- Modelled from the spec: `LineLoop::changePath` is not under src; it replaces the points. -/
def LineLoop.changePath (l : LineLoop) (p : List vec2) : LineLoop := { l with path_ := p }

/-- Modelled from the spec: `LineLoop::editPath` is not under src; it replaces the point at
`index`. -/
def LineLoop.editPath (l : LineLoop) (index : Nat) (position : vec2) : LineLoop :=
  { l with path_ := l.path_.set index position }

/-- The pointer `lines_`: null, pointing to a live `LineLoop`, or left dangling by `delete`. -/
inductive LinesPtr
  | null
  | live (l : LineLoop)
  | dangling

/-- The map `index_points_`, a `std::map<Source *, uint>`. -/
abbrev IndexMap := SourcePtr → Option Nat

/-- The value of `m[s]` (`std::map::operator[]`): `0` for an absent key. -/
def IndexMap.at (m : IndexMap) (s : SourcePtr) : Nat := (m s).getD 0

/-- The map after evaluating `m[s]`: an absent key is inserted with value `0`. -/
def IndexMap.touch (m : IndexMap) (s : SourcePtr) : IndexMap :=
  if (m s).isSome then m else Function.update m s (some 0)

/-- The state of a `MixingGroup`. `center_` is the node of the centre symbol. An index into the
`std::vector` of path points is read with default `0` and written only when in range. -/
structure MixingGroup where
  sources_ : List SourcePtr
  center_pos_ : vec2
  active_ : Bool
  update_action_ : Action
  updated_source_ : Option SourcePtr
  lines_ : LinesPtr
  center_ : Node
  index_points_ : IndexMap

/-- The loop of `MixingGroup::createLineStrip`: `acc` is `(index_points_, path)`. -/
def linkStep (h : SourceHeap) (acc : IndexMap × List vec2) (it : SourcePtr) :
    IndexMap × List vec2 :=
  (Function.update acc.1 it (some acc.2.length), acc.2 ++ [(h it).mixingPos])

/-- The method `MixingGroup::createLineStrip`. -/
def MixingGroup.createLineStrip (g : MixingGroup) (h : SourceHeap) : Option MixingGroup :=
  let deleted : Option LinesPtr :=
    match g.lines_ with
    | LinesPtr.null => some LinesPtr.null
    | LinesPtr.live _ => some LinesPtr.dangling
    | LinesPtr.dangling => none
  match deleted with
  | none => none
  | some lines =>
    if g.sources_.length > 1 then
      let r := g.sources_.foldl (linkStep h) (fun _ => none, [])
      some { g with index_points_ := r.1, lines_ := LinesPtr.live { path_ := r.2, alpha := 0.96 } }
    else
      some { g with index_points_ := fun _ => none, lines_ := lines }

/-- The comparator `clockwise_centered` with member `center`. -/
noncomputable def clockwise_centered (h : SourceHeap) (center : vec2)
    (first second : SourcePtr) : Prop :=
  let pos_first := (h first).mixingPos - center
  let angle_first := glm.orientedAngle (glm.normalize pos_first) ⟨1, 0⟩
  let pos_second := (h second).mixingPos - center
  let angle_second := glm.orientedAngle (glm.normalize pos_second) ⟨1, 0⟩
  angle_first < angle_second

noncomputable instance (h : SourceHeap) (center : vec2) :
    DecidableRel (clockwise_centered h center) :=
  fun _ _ => Classical.dec _

/-- The call `std::sort(first, last, comp)` for a strict comparator `comp`: an ordering of the
elements in which no element is `comp`-before an earlier one, here the one obtained by insertion
from the back. -/
def stdSort {α : Type} (comp : α → α → Prop) [DecidableRel comp] (l : List α) : List α :=
  l.insertionSort (fun a b => ¬ comp b a)

/-- The barycenter loop of `MixingGroup::update`: the sum of the MIXING positions of the members
divided by `sources_.size()`. -/
noncomputable def barycenter (h : SourceHeap) (l : List SourcePtr) : vec2 :=
  (l.foldl (fun c it => c + (h it).mixingPos) ⟨0, 0⟩) / (l.length : ℝ)

/-- The state of the constructor loop: the heap, `sources_` and `center_pos_`. -/
structure CtorState where
  heap : SourceHeap
  sources_ : List SourcePtr
  center_pos_ : vec2

/-- One iteration of the loop of the constructor of `MixingGroup`. -/
def ctorStep (this : Nat) (st : CtorState) (it : SourcePtr) : CtorState :=
  let h1 := Function.update st.heap it { st.heap it with mixinggroup_ := some this }
  { heap := h1
    sources_ := st.sources_ ++ [it]
    -- compute barycenter (1)
    center_pos_ := st.center_pos_ + (h1 it).mixingPos }

/-- The object built by the constructor of `MixingGroup` before its call of `createLineStrip`:
the sorted members `sorted`, the centre `center_pos`, no path yet and the centre symbol placed. -/
def MixingGroup.unlinked (sorted : List SourcePtr) (center_pos : vec2) (action0 : Action)
    (updated0 : Option SourcePtr) : MixingGroup :=
  { sources_ := sorted
    center_pos_ := center_pos
    active_ := true
    update_action_ := action0
    updated_source_ := updated0
    lines_ := LinesPtr.null
    center_ := { visible_ := false, scale_ := ⟨0.6, 0.6, 1⟩,
                 translation_ := ⟨center_pos.x, center_pos.y, 0⟩ }
    index_points_ := fun _ => none }

/-- The constructor `MixingGroup::MixingGroup (SourceList sources)` for the object at address
`this`. The members `update_action_` and `updated_source_` are not initialised by it and keep
the given values. -/
noncomputable def MixingGroup.new (this : Nat) (sources : List SourcePtr) (h : SourceHeap)
    (action0 : Action) (updated0 : Option SourcePtr) : Option (MixingGroup × SourceHeap) :=
  -- fill the vector of sources with the given list
  let st := sources.foldl (ctorStep this) { heap := h, sources_ := [], center_pos_ := ⟨0, 0⟩ }
  -- compute barycenter (2)
  let center_pos := st.center_pos_ / (st.sources_.length : ℝ)
  -- sort the vector of sources in clockwise order around the center pos_
  let sorted := stdSort (clockwise_centered st.heap center_pos) st.sources_
  ((MixingGroup.unlinked sorted center_pos action0 updated0).createLineStrip st.heap).map
    (fun g1 => (g1, st.heap))

/-- The method `MixingGroup::setActive`. -/
noncomputable def MixingGroup.setActive (g : MixingGroup) (on_ : Bool) : Option MixingGroup :=
  match g.lines_ with
  | LinesPtr.live l =>
    some { g with
      active_ := on_
      lines_ := LinesPtr.live { l with alpha := if on_ then 0.96 else 0.5 }
      center_ := { g.center_ with visible_ := decide (g.update_action_ ≠ Action.ACTION_NONE) } }
  | _ => none

/-- The method `MixingGroup::move`. -/
def MixingGroup.move (g : MixingGroup) (h : SourceHeap) (s : SourcePtr) : Option MixingGroup :=
  if s ∈ g.sources_ then
    match g.lines_ with
    | LinesPtr.null => some g
    | LinesPtr.live l =>
      -- modify one point in the path
      some { g with
        index_points_ := g.index_points_.touch s
        lines_ := LinesPtr.live (l.editPath (g.index_points_.at s) (h s).mixingPos) }
    | LinesPtr.dangling => none
  else some g

/-- The method `MixingGroup::detach`. -/
def MixingGroup.detach (g : MixingGroup) (h : SourceHeap) (s : SourcePtr) :
    Option MixingGroup :=
  if s ∈ g.sources_ then
    -- erase the source from the list
    { g with sources_ := g.sources_.erase s }.createLineStrip h
  else some g

/-- The state of the member loops of `MixingGroup::update`: the heap, the local copy `p` of the
path, `index_points_` and `center_pos_`. -/
structure LoopState where
  heap : SourceHeap
  p : List vec2
  index_points_ : IndexMap
  center_pos_ : vec2

/-- One iteration of the loop of the `ACTION_GRAB_ALL` branch of `MixingGroup::update`. -/
def grabAllStep (updated_source_ : SourcePtr) (displacement : vec2) (st : LoopState)
    (it : SourcePtr) : LoopState :=
  -- modify all but the already updated source
  let h1 : SourceHeap :=
    if it ≠ updated_source_ ∧ (st.heap it).locked = false then
      Function.update st.heap it
        ((st.heap it).setMixingXY
          ⟨(st.heap it).mixingPos.x + displacement.x,
           (st.heap it).mixingPos.y + displacement.y⟩).touch
    else st.heap
  { heap := h1
    -- update point
    p := st.p.set (st.index_points_.at it) (h1 it).mixingPos
    index_points_ := st.index_points_.touch it
    -- compute barycenter (1)
    center_pos_ := st.center_pos_ + (h1 it).mixingPos }

/-- One iteration of the loop of the `ACTION_ROTATE_ALL` branch of `MixingGroup::update`. -/
noncomputable def rotateAllStep (updated_source_ : SourcePtr) (angle dist : ℝ) (st : LoopState)
    (it : SourcePtr) : LoopState :=
  -- modify all but the already updated source
  let h1 : SourceHeap :=
    if it ≠ updated_source_ ∧ (st.heap it).locked = false then
      let vec := (st.heap it).mixingPos - st.center_pos_
      let vec := glm.rotate vec (-angle) * dist
      let vec := vec + st.center_pos_
      Function.update st.heap it ((st.heap it).setMixingXY vec).touch
    else st.heap
  { heap := h1
    -- update point
    p := st.p.set (st.index_points_.at it) (h1 it).mixingPos
    index_points_ := st.index_points_.touch it
    center_pos_ := st.center_pos_ }

/-- The `ACTION_GRAB_ONE` branch of `MixingGroup::update`, for the moved source `u`. -/
noncomputable def MixingGroup.grabOne (g : MixingGroup) (h : SourceHeap) (u : SourcePtr) :
    Option (MixingGroup × SourceHeap) :=
  -- update path
  match g.move h u with
  | none => none
  | some g2 =>
    let c := barycenter h g2.sources_
    some ({ g2 with
            center_pos_ := c
            center_ := { g2.center_ with translation_ := ⟨c.x, c.y, 0⟩ } }, h)

/-- The `ACTION_GRAB_ALL` branch of `MixingGroup::update`, for the moved source `u`; `l` is the
object `lines_` points to. -/
noncomputable def MixingGroup.grabAll (g : MixingGroup) (l : LineLoop) (h : SourceHeap)
    (u : SourcePtr) : MixingGroup × SourceHeap :=
  let p := l.path
  let displacement := (h u).mixingPos - p.getD (g.index_points_.at u) 0
  let st := g.sources_.foldl (grabAllStep u displacement)
    { heap := h, p := p, index_points_ := g.index_points_.touch u,
      -- compute barycenter (0)
      center_pos_ := ⟨0, 0⟩ }
  -- compute barycenter (2)
  let c := st.center_pos_ / (g.sources_.length : ℝ)
  ({ g with
     center_pos_ := c
     center_ := { g.center_ with translation_ := ⟨c.x, c.y, 0⟩ }
     index_points_ := st.index_points_
     -- update path
     lines_ := LinesPtr.live (l.changePath st.p) }, st.heap)

/-- The angle computed by the `ACTION_ROTATE_ALL` branch from the current position `pos` of the
moved source, its recorded path point `vertex` and the centre. -/
noncomputable def rotateAngle (pos vertex center : vec2) : ℝ :=
  let pos_first := pos - center
  let angle := glm.orientedAngle (glm.normalize pos_first) ⟨1, 0⟩
  let pos_second := vertex - center
  angle - glm.orientedAngle (glm.normalize pos_second) ⟨1, 0⟩

/-- The distance ratio computed by the `ACTION_ROTATE_ALL` branch. -/
noncomputable def rotateDist (pos vertex center : vec2) : ℝ :=
  let pos_first := pos - center
  let dist := glm.length pos_first
  let pos_second := vertex - center
  dist / glm.length pos_second

/-- The `ACTION_ROTATE_ALL` branch of `MixingGroup::update`, for the moved source `u`; `l` is
the object `lines_` points to. -/
noncomputable def MixingGroup.rotateAll (g : MixingGroup) (l : LineLoop) (h : SourceHeap)
    (u : SourcePtr) : MixingGroup × SourceHeap :=
  let p := l.path
  -- get angle rotation and distance scaling
  let vertex := p.getD (g.index_points_.at u) 0
  let angle := rotateAngle (h u).mixingPos vertex g.center_pos_
  let dist := rotateDist (h u).mixingPos vertex g.center_pos_
  let st := g.sources_.foldl (rotateAllStep u angle dist)
    { heap := h, p := p, index_points_ := g.index_points_.touch u,
      center_pos_ := g.center_pos_ }
  ({ g with
     index_points_ := st.index_points_
     -- update path
     lines_ := LinesPtr.live (l.changePath st.p) }, st.heap)

/-- The end of the action block of `MixingGroup::update`: `updated_source_ = nullptr`. -/
def MixingGroup.done (r : MixingGroup × SourceHeap) : MixingGroup × SourceHeap :=
  ({ r.1 with updated_source_ := none }, r.2)

/-- The method `MixingGroup::update`; `current` is `Mixer::manager().currentSource()`. The
argument `dt` is not used by the body. -/
noncomputable def MixingGroup.update (g : MixingGroup) (h : SourceHeap)
    (current : Option SourcePtr) : Option (MixingGroup × SourceHeap) :=
  -- active if current source in the group
  let found : Bool := match current with
    | some c => decide (c ∈ g.sources_)
    | none => false
  match g.setActive found with
  | none => none
  | some g1 =>
    match g1.lines_, g1.updated_source_ with
    | LinesPtr.live l, some u =>
      -- perform action
      match g1.update_action_ with
      | Action.ACTION_NONE => some (g1, h)
      | Action.ACTION_GRAB_ONE => (g1.grabOne h u).map MixingGroup.done
      | Action.ACTION_GRAB_ALL => some (MixingGroup.done (g1.grabAll l h u))
      | Action.ACTION_ROTATE_ALL => some (MixingGroup.done (g1.rotateAll l h u))
    | LinesPtr.live _, none => some (g1, h)
    | _, _ => none

/-! ## Source activity and update -/

/-- The method `Source::active`. -/
def Source.active (s : Source) : Bool := s.active_

/-- One iteration of the loop of `Source::setActive` for the source at `p`. -/
def setActiveStep (p : SourcePtr) (h : SourceHeap) (clone : SourcePtr) : SourceHeap :=
  if (h clone).active then Function.update h p { h p with active_ := true } else h

/-- The method `Source::setActive` for the source at `p`. -/
def Source.setActive (h : SourceHeap) (p : SourcePtr) (on_ : Bool) : SourceHeap :=
  let h0 : SourceHeap := Function.update h p { h p with active_ := on_ }
  -- do not disactivate if a clone depends on it
  let h1 : SourceHeap := (h p).clones_.foldl (setActiveStep p) h0
  -- an inactive source is visible only in the MIXING view
  let a := (h1 p).active_
  let g := (h1 p).groups_
  let g := Function.update g View.RENDERING { g View.RENDERING with visible_ := a }
  let g := Function.update g View.GEOMETRY { g View.GEOMETRY with visible_ := a }
  let g := Function.update g View.LAYER { g View.LAYER with visible_ := a }
  Function.update h1 p { h1 p with groups_ := g }

/-- The method `Source::setLocked`. -/
def Source.setLocked (s : Source) (on_ : Bool) : Source :=
  { s with
    locked_ := on_
    -- the lock icon is visible when locked
    locker_visible_ := on_
    -- a locked source is not visible in the GEOMETRY view
    groups_ := Function.update s.groups_ View.GEOMETRY
      { s.groups_ View.GEOMETRY with visible_ := !on_ } }

/-- The constants and the macro of defines.h that `Source::update` uses; defines.h is not under
src, so they are parameters. -/
structure Defines where
  MIXING_LIMBO_SCALE : ℝ
  MIXING_ICON_SCALE : vec3
  FOREGROUND_DEPTH : ℝ
  BACKGROUND_DEPTH : ℝ
  LAYER_PERSPECTIVE : ℝ
  CLAMP_SCALE : ℝ → ℝ

/-- The part of the body of `Source::update` after the call of `setActive`, on the source
object; `a` is the local variable of that name and `fill` the result of `maskbuffer_->fill`.
The projection area, the surfaces, the texture transform and the mask drawing are outside the
embedded state. -/
noncomputable def Source.updateNodes (D : Defines) (a fill : Bool) (s : Source) : Source :=
  -- adjust scale of mixing icon : smaller if not active
  let g := s.groups_
  let g := Function.update g View.MIXING
    { g View.MIXING with
      scale_ := D.MIXING_ICON_SCALE - (if a then ⟨0, 0, 0⟩ else ⟨0.03, 0.03, 0⟩) }
  -- MODIFY geometry based on GEOMETRY node
  let g := Function.update g View.RENDERING
    { g View.RENDERING with
      translation_ := (g View.GEOMETRY).translation_
      rotation_ := (g View.GEOMETRY).rotation_ }
  -- avoid any null scale
  let sc : vec3 :=
    ⟨D.CLAMP_SCALE (g View.GEOMETRY).scale_.x, D.CLAMP_SCALE (g View.GEOMETRY).scale_.y, 1⟩
  let g := Function.update g View.GEOMETRY { g View.GEOMETRY with scale_ := sc }
  let g := Function.update g View.RENDERING { g View.RENDERING with scale_ := sc }
  -- Layers icons are displayed in Perspective (diagonal)
  let lt := (g View.LAYER).translation_
  let g := Function.update g View.LAYER
    { g View.LAYER with translation_ := ⟨lt.x, lt.x / D.LAYER_PERSPECTIVE, lt.z⟩ }
  -- CHANGE lock based on range of layers stage
  let l : Bool := decide ((g View.LAYER).translation_.x < -D.FOREGROUND_DEPTH ∨
    (g View.LAYER).translation_.x > -D.BACKGROUND_DEPTH)
  let s1 : Source := Source.setLocked { s with groups_ := g } l
  let g := s1.groups_
  -- adjust position of layer icon: step up when on stage
  let lt := (g View.LAYER).translation_
  let g :=
    if lt.x < -D.FOREGROUND_DEPTH then
      Function.update g View.LAYER { g View.LAYER with translation_ := ⟨lt.x, lt.y - 0.3, lt.z⟩ }
    else if lt.x < -D.BACKGROUND_DEPTH then
      Function.update g View.LAYER { g View.LAYER with translation_ := ⟨lt.x, lt.y - 0.15, lt.z⟩ }
    else g
  -- MODIFY depth based on LAYER node
  let z := (g View.LAYER).translation_.z
  let g := Function.update g View.MIXING
    { g View.MIXING with
      translation_ := ⟨(g View.MIXING).translation_.x, (g View.MIXING).translation_.y, z⟩ }
  let g := Function.update g View.GEOMETRY
    { g View.GEOMETRY with
      translation_ := ⟨(g View.GEOMETRY).translation_.x, (g View.GEOMETRY).translation_.y, z⟩ }
  let g := Function.update g View.RENDERING
    { g View.RENDERING with
      translation_ := ⟨(g View.RENDERING).translation_.x, (g View.RENDERING).translation_.y, z⟩ }
  { s1 with
    groups_ := g
    -- if a mask image was given to be updated, fill the mask buffer (once)
    mask_need_update_ := if s1.mask_need_update_ then !fill else false
    -- do not update next frame
    need_update_ := false }

/-- The body of the conditional of `Source::update` for the source at `p`: the pass that runs
when the buffers are there and `need_update_` is set. -/
noncomputable def Source.updatePass (D : Defines) (h : SourceHeap) (p : SourcePtr)
    (fill : Bool) : SourceHeap :=
  -- ADJUST alpha based on MIXING node
  let dist := (h p).mixingPos
  let h1 : SourceHeap := Function.update h p
    { h p with
      blending_alpha_ := sin_quad dist.x dist.y
      mixing_alpha_ := sin_quad dist.x dist.y }
  -- CHANGE update status based on limbo
  let a : Bool := decide (glm.length dist < D.MIXING_LIMBO_SCALE)
  let h2 : SourceHeap := Source.setActive h1 p a
  Function.update h2 p (Source.updateNodes D a fill (h2 p))

/-- The method `Source::update` for the source at `p`; `fill` is the result of
`maskbuffer_->fill`, were it called. -/
noncomputable def Source.update (D : Defines) (h : SourceHeap) (p : SourcePtr) (dt : ℝ)
    (fill : Bool) : SourceHeap :=
  -- keep delta-t
  let h0 : SourceHeap := Function.update h p { h p with dt_ := dt }
  -- update nodes if needed
  if (h0 p).renderbuffer_ ∧ (h0 p).mixingsurface_ ∧ (h0 p).maskbuffer_ ∧ (h0 p).need_update_ then
    Source.updatePass D h0 p fill
  else h0

/-- Sample values for the constants of defines.h: limbo radius `1.3`, icon scale
`(0.15, 0.15, 1)`, stage between the depths `2` and `10`, perspective divisor `2`, and a
scale clamp that keeps the magnitude between `0.01` and `10`. -/
noncomputable def sampleDefines : Defines :=
  { MIXING_LIMBO_SCALE := 1.3
    MIXING_ICON_SCALE := ⟨0.15, 0.15, 1⟩
    FOREGROUND_DEPTH := 10
    BACKGROUND_DEPTH := 2
    LAYER_PERSPECTIVE := 2
    CLAMP_SCALE := fun x => (if x < 0 then -1 else 1) * min (max |x| 0.01) 10 }

/-- A heap whose every source has its buffers attached, needs an update, has no clone, sits at
`(2, 0)` in the MIXING view and at depth `x = -5` in the LAYER view. -/
def limboHeap : SourceHeap := fun _ =>
  { renderbuffer_ := true, mixingsurface_ := true, maskbuffer_ := true, need_update_ := true
    mode_ := SourceMode.VISIBLE
    groups_ := fun v =>
      if v = View.MIXING then { visible_ := true, translation_ := ⟨2, 0, 0⟩ }
      else if v = View.LAYER then { visible_ := true, translation_ := ⟨-5, 0, 0⟩ }
      else { visible_ := true } }

/-- A heap with an origin at address 1 whose only clone, at address 2, is active. -/
def cloneHeap : SourceHeap := fun p =>
  if p = 1 then { active_ := true, clones_ := [2] } else { active_ := true }

/-! ## Image processing -/

/-- The type `glm::vec4`. -/
@[ext] structure vec4 where
  x : ℝ
  y : ℝ
  z : ℝ
  w : ℝ

/-- The parameter values of an `ImageProcessingShader`, the class not being under src: the
uniforms that `SessionLoader::visit (ImageProcessingShader&)` reads. -/
@[ext] structure ImageProcessingShader where
  brightness : ℝ
  contrast : ℝ
  saturation : ℝ
  hueshift : ℝ
  threshold : ℝ
  lumakey : ℝ
  nbColors : Int
  invert : Int
  chromadelta : ℝ
  filterid : Int
  gamma : vec4
  levels : vec4
  chromakey : vec4

/-- Address of a `Shader` object. -/
abbrev ShaderPtr := Nat

/-- The shaders of a `Source`: the heap of the `ImageProcessingShader` objects, the pointers
`renderingshader_` and `processingshader_`, the shader attached to `texturesurface_`, and the
shaders deleted so far, in order. An `ImageShader` has no embedded state. -/
structure SourceShaders where
  processing : ShaderPtr → ImageProcessingShader
  renderingshader_ : ShaderPtr
  processingshader_ : ShaderPtr
  surface_ : ShaderPtr
  deleted_ : List ShaderPtr := []

/-- The method `Source::imageProcessingEnabled`. -/
def Source.imageProcessingEnabled (s : SourceShaders) : Bool :=
  decide (s.renderingshader_ = s.processingshader_)

/-- Modelled from the spec: `Primitive::replaceShader` is not under src. It attaches the given
shader and deletes the previously attached one. -/
def SourceShaders.replaceShader (s : SourceShaders) (newshader : ShaderPtr) : SourceShaders :=
  { s with surface_ := newshader, deleted_ := s.deleted_ ++ [s.surface_] }

/-- The method `Source::setImageProcessingEnabled`; `copy` is the copy constructor of
`ImageProcessingShader`, which is not under src, and `fresh1` and `fresh2` are the addresses
that `new ImageProcessingShader` and `new ImageShader` return. -/
def Source.setImageProcessingEnabled (copy : ImageProcessingShader → ImageProcessingShader)
    (fresh1 fresh2 : ShaderPtr) (s : SourceShaders) (on_ : Bool) : SourceShaders :=
  -- avoid repeating
  if on_ = Source.imageProcessingEnabled s then s
  else
    -- set pointer
    let s1 : SourceShaders :=
      if on_ then
        -- set the current rendering shader to be the (previously prepared) processing shader
        { s with renderingshader_ := s.processingshader_ }
      else
        -- clone the current Image processing shader and keep it for later
        { s with
          processing := Function.update s.processing fresh1 (copy (s.processing s.processingshader_))
          processingshader_ := fresh1
          -- set the current rendering shader to a simple one
          renderingshader_ := fresh2 }
    -- apply to nodes in subclasses
    s1.replaceShader s1.renderingshader_

/-- A source with image processing enabled: its processing shader, at address 1, has
brightness `0.5` and 4 colours. -/
def tunedShaders : SourceShaders :=
  { processing := fun _ =>
      { brightness := 0.5, contrast := 0, saturation := 0, hueshift := 0, threshold := 0,
        lumakey := 0, nbColors := 4, invert := 0, chromadelta := 0, filterid := 0,
        gamma := ⟨1, 1, 1, 1⟩, levels := ⟨0, 1, 0, 1⟩, chromakey := ⟨0, 1, 0, 0⟩ }
    renderingshader_ := 1
    processingshader_ := 1
    surface_ := 1 }

/-! ## Mixer: sources, views and sessions -/

/-- What the collaborators of the Mixer that are not under src answer during one call:
`transliterate` is `SystemToolkit::transliterate`; `canSelect v s` is `canSelect(s)` of the view
`v`; `setDepth` and `setAlpha` are what `layer_.setDepth` and `mixing_.setAlpha` do to a
source; `transitionSession` is the result of `transition_.detach()`; `importerReady` and
`loaderReady` tell whether the pending task has finished, `imported` is the loaded session as
the list of the sources `popSource` takes from it (`none` for a null session) and `loaded` the
address of the loaded session; `sourceSession` lists the sources popped from the session that a
session source gives away and `place` is the placement of such a source relative to the session
source; `sessionUpdate` is the effect of `Session::update` on the source objects; `failed` is the
result of `failedSource()`, `failedIsRender` the outcome of its cast to `RenderSource` and
`replacement` the source that `recreateSource` obtains from the loader. -/
structure Frame where
  transliterate : String → String := id
  canSelect : View → SourcePtr → Bool := fun _ _ => true
  setDepth : Source → Source := id
  setAlpha : Source → Source := id
  transitionSession : Option SessionPtr := none
  importerReady : Bool := false
  imported : Option (List SourcePtr) := none
  loaderReady : Bool := false
  loaded : Option SessionPtr := none
  sourceSession : List SourcePtr := []
  place : Source → Source → Source := fun s _ => s
  sessionUpdate : SourceHeap → SourceHeap := id
  failed : Option SourcePtr := none
  failedIsRender : Bool := false
  replacement : Option SourcePtr := none

/-- A loop over the list `l` whose body `f` may fail. -/
def Mixer.forEach {α : Type} (f : Mixer → α → Option Mixer) (m : Mixer) :
    List α → Option Mixer
  | [] => some m
  | x :: l =>
    match f m x with
    | none => none
    | some m1 => Mixer.forEach f m1 l

/-- Modelled from the spec: `Session::addSource` is not under src. It adds the source to the
ordered list unless it is already in. -/
def Session.addSource (s : Session) (p : SourcePtr) : Session :=
  if p ∈ s.sources_ then s else { s with sources_ := s.sources_ ++ [p] }

/-- Modelled from the spec: `Session::deleteSource` is not under src. It removes the source from
the list. -/
def Session.deleteSource (s : Session) (p : SourcePtr) : Session :=
  { s with sources_ := s.sources_.erase p }

/-- Modelled from the spec: `Session::index` is not under src. It gives the rank of the source an
iterator points to, `-1` when there is none. -/
def Session.index (s : Session) (it : Option SourcePtr) : Int :=
  match it with
  | some p => if p ∈ s.sources_ then (s.sources_.indexOf p : Int) else -1
  | none => -1

/-- Modelled from the spec: class `Selection` (Selection.cpp) is not under src. The call
`selection().set(s)` makes `s` the only selected source. -/
def Selection.set (_sel : List SourcePtr) (s : SourcePtr) : List SourcePtr := [s]

/-- Modelled from the spec: class `Selection` (Selection.cpp) is not under src. The call
`selection().contains(s)` tells whether `s` is selected. -/
def Selection.contains (sel : List SourcePtr) (s : SourcePtr) : Bool := decide (s ∈ sel)

/-- The method `Mixer::currentSource`. -/
def Mixer.currentSource (m : Mixer) : Option (Option SourcePtr) :=
  match m.session_ with
  | none => none
  | some _ => some m.current_source_

/-- The method `Mixer::set`. -/
def Mixer.set (m : Mixer) (s : Option SessionPtr) : Mixer :=
  match s with
  | none => m
  | some p =>
    { m with
      -- delete previous back session if needed
      garbage_ := match m.back_session_ with
        | some b => m.garbage_ ++ [b]
        | none => m.garbage_
      -- set to new given session
      back_session_ := some p
      -- swap current with given session
      sessionSwapRequested_ := true }

/-- The method `Mixer::clear`; `fresh` is the address that `new Session` returns. -/
def Mixer.clear (m : Mixer) (fresh : SessionPtr) : Mixer :=
  { m with
    -- delete previous back session if needed
    garbage_ := match m.back_session_ with
      | some b => m.garbage_ ++ [b]
      | none => m.garbage_
    -- create empty session
    sessions := Function.update m.sessions fresh {}
    back_session_ := some fresh
    -- swap current with empty
    sessionSwapRequested_ := true }

/-- The method `Mixer::deselect` for a non-null source `s`. The value `*current_source_` of the
end iterator is taken to be no source. -/
def Mixer.deselect (m : Mixer) (s : SourcePtr) : Option Mixer :=
  let unset : Option Mixer :=
    if m.current_source_ = some s then m.unsetCurrentSource else some m
  match unset with
  | none => none
  | some m1 => some { m1 with selection_ := Selection.remove m1.selection_ s }

/-- The pointer that `Mixer::setView` stores in `current_view_` for the mode `v`. -/
def viewFor : View → View
  | View.TRANSITION => View.TRANSITION
  | View.GEOMETRY => View.GEOMETRY
  | View.LAYER => View.LAYER
  | View.APPEARANCE => View.APPEARANCE
  | _ => View.MIXING

/-- The method `Mixer::setView`. -/
def Mixer.setView (W : Frame) (m : Mixer) (v : View) : Option Mixer :=
  -- special case when leaving transition view
  let m1 : Mixer :=
    if m.current_view_ = some View.TRANSITION then m.set W.transitionSession else m
  let m2 : Mixer := { m1 with current_view_ := some (viewFor v) }
  -- selection might have to change
  match m2.session_ with
  | none => none
  | some a =>
    Mixer.forEach
      (fun mm sit => if W.canSelect (viewFor v) sit then some mm else mm.deselect sit)
      m2 (m2.sessions a).sources_

/-- The method `Mixer::setCurrentSource (SourceList::iterator it)`. -/
def Mixer.setCurrentSource (m : Mixer) (it : Option SourcePtr) : Option Mixer :=
  -- nothing to do if already current
  if m.current_source_ = it then some m
  else
    -- clear current (even if 'it' is invalid)
    match m.unsetCurrentSource with
    | none => none
    | some m1 =>
      match m1.session_, it with
      | none, _ => none
      | some _, none => some m1
      | some a, some p =>
        -- set selection for this only source if not already part of a selection
        let sel := if Selection.contains m1.selection_ p then m1.selection_
          else Selection.set m1.selection_ p
        some { m1 with
          current_source_ := some p
          current_source_index_ := (m1.sessions a).index (some p)
          selection_ := sel
          -- show status as current
          sources := Function.update m1.sources p ((m1.sources p).setMode SourceMode.CURRENT) }

/-- The method `Mixer::insertSource`. -/
def Mixer.insertSource (W : Frame) (m : Mixer) (s : Option SourcePtr) (v : View) :
    Option Mixer :=
  match s with
  | none => some m
  | some p =>
    -- avoid duplicate name
    match m.renameSource W.transliterate (some p) (m.sources p).name_ with
    | none => none
    | some m1 =>
      match m1.session_ with
      | none => none
      | some a =>
        -- Add source to Session (ignored if source already in)
        let m2 : Mixer :=
          { m1 with sessions := Function.update m1.sessions a ((m1.sessions a).addSource p) }
        -- set a default depth and a default alpha to the new source
        let m3 : Mixer :=
          { m2 with
            sources := Function.update m2.sources p (W.setAlpha (W.setDepth (m2.sources p))) }
        -- add sources Nodes to all views
        let m4 : Mixer := m3.attach (some p)
        -- if requested to show the source in a given view
        if v ≠ View.INVALID then
          -- switch to this view to show source created
          match m4.setView W v with
          | none => none
          | some m5 =>
            match m5.current_view_ with
            | none => none
            -- set this new source as current
            | some _ => m5.setCurrentSource (some p)
        else some m4

/-- The method `Mixer::deleteSource`. After `transition_.attach(nullptr)` the transition view
has no session to give away. -/
def Mixer.deleteSource (W : Frame) (m : Mixer) (s : Option SourcePtr) : Option Mixer :=
  let removed : Option Mixer :=
    match s with
    | none => some m
    | some p =>
      -- remove source Nodes from all views
      match m.detach (some p) with
      | none => none
      | some m1 =>
        -- delete source
        match m1.session_ with
        | none => none
        | some a =>
          some { m1 with
            sessions := Function.update m1.sessions a ((m1.sessions a).deleteSource p) }
  match removed with
  | none => none
  | some m2 =>
    -- cancel transition source in TRANSITION view: cancel attachment, revert to mixing view
    if m2.current_view_ = some View.TRANSITION then
      m2.setView { W with transitionSession := none } View.MIXING
    else some m2

/-- The body of the loop of `Mixer::merge (Session *)` for the popped source `p`. -/
def Mixer.mergeStep (W : Frame) (m : Mixer) (p : SourcePtr) : Option Mixer :=
  -- avoid name duplicates
  match m.renameSource W.transliterate (some p) (m.sources p).name_ with
  | none => none
  | some m1 =>
    match m1.session_ with
    | none => none
    | some a =>
      -- Add source to Session, attach source to Mixer
      some ({ m1 with
        sessions := Function.update m1.sessions a ((m1.sessions a).addSource p) }.attach (some p))

/-- The method `Mixer::merge (Session *)`; the session is given by the sources `popSource` takes
from it, `none` being a null session. -/
def Mixer.merge (W : Frame) (m : Mixer) (session : Option (List SourcePtr)) : Option Mixer :=
  match session with
  | none => some m
  | some l =>
    -- import every sources
    match Mixer.forEach (Mixer.mergeStep W) m l with
    | none => none
    | some m1 =>
      -- avoid display issues
      match m1.current_view_ with
      | none => none
      | some _ => some m1

/-- The body of the loop of `Mixer::merge (SessionSource *)` for the popped source `p` and the
session source at `src`. -/
def Mixer.mergeSourceStep (W : Frame) (src : SourcePtr) (m : Mixer) (p : SourcePtr) :
    Option Mixer :=
  -- avoid name duplicates
  match m.renameSource W.transliterate (some p) (m.sources p).name_ with
  | none => none
  | some m1 =>
    -- scale alpha, set depth, set location
    let m2 : Mixer :=
      { m1 with sources := Function.update m1.sources p (W.place (m1.sources p) (m1.sources src)) }
    match m2.session_ with
    | none => none
    | some a =>
      -- Add source to Session, attach source to Mixer
      some ({ m2 with
        sessions := Function.update m2.sessions a ((m2.sessions a).addSource p) }.attach (some p))

/-- The method `Mixer::merge (SessionSource *)`. -/
def Mixer.mergeSource (W : Frame) (m : Mixer) (source : Option SourcePtr) : Option Mixer :=
  match source with
  | none => some m
  | some src =>
    -- import every sources
    match Mixer.forEach (Mixer.mergeSourceStep W src) m W.sourceSession with
    | none => none
    | some m1 =>
      -- avoid display issues
      match m1.current_view_ with
      | none => none
      | some _ => some m1

/-- Modelled from the spec: `Node::copyTransform` (Scene.cpp) is not under src. It copies the
translation, the rotation and the scale of the other node. -/
def Node.copyTransform (n other : Node) : Node :=
  { n with
    translation_ := other.translation_
    rotation_ := other.rotation_
    scale_ := other.scale_ }

/-- The statement `to->group(v)->copyTransform( from->group(v) )` on the heap `h`. -/
def copyGroup (h : SourcePtr → Source) (src to_ : SourcePtr) (v : View) : SourcePtr → Source :=
  Function.update h to_
    { h to_ with
      groups_ := Function.update (h to_).groups_ v
        (((h to_).groups_ v).copyTransform ((h src).groups_ v)) }

/-- The method `Mixer::replaceSource`, with the flag it returns; `src` and `to_` are the
arguments `from` and `to`. -/
def Mixer.replaceSource (W : Frame) (m : Mixer) (src to_ : Option SourcePtr) :
    Option (Mixer × Bool) :=
  match src, to_ with
  | some f, some t =>
    -- rename
    match m.renameSource W.transliterate (some t) (m.sources f).name_ with
    | none => none
    | some m1 =>
      -- remove source Nodes from all views
      match m1.detach (some f) with
      | none => none
      | some m2 =>
        -- copy all transforms
        let h := copyGroup m2.sources f t View.MIXING
        let h := copyGroup h f t View.GEOMETRY
        let h := copyGroup h f t View.LAYER
        let h := copyGroup h f t View.MIXING
        -- add source Nodes to all views
        let m3 : Mixer := Mixer.attach { m2 with sources := h } (some t)
        match m3.session_ with
        | none => none
        | some a =>
          some ({ m3 with
            sessions := Function.update m3.sessions a
              -- add source, delete source
              (((m3.sessions a).addSource t).deleteSource f) }, true)
  | _, _ => some (m, false)

/-- The method `Mixer::recreateSource` for a non-null source `s`, with the flag it returns;
`W.replacement` is the source created from the description of `s`, `none` when the description
is not well formed or no source could be created. -/
def Mixer.recreateSource (W : Frame) (m : Mixer) (s : SourcePtr) : Option (Mixer × Bool) :=
  match W.replacement with
  | none => some (m, false)
  | some r =>
    -- remove source Nodes from all views
    match m.detach (some s) with
    | none => none
    | some m1 =>
      match m1.session_ with
      | none => none
      | some a =>
        -- delete source
        let m2 : Mixer :=
          { m1 with sessions := Function.update m1.sessions a ((m1.sessions a).deleteSource s) }
        -- add sources Nodes to all views
        let m3 : Mixer := m2.attach (some r)
        -- add source
        some ({ m3 with
          sessions := Function.update m3.sessions a ((m3.sessions a).addSource r) }, true)

/-- The method `Mixer::load`. -/
def Mixer.load (m : Mixer) (filename : String) : Mixer :=
  if filename.isEmpty then m
  -- load only one at a time
  else if m.sessionLoaders_.isEmpty then
    { m with sessionLoaders_ := m.sessionLoaders_ ++ [filename] }
  else m

/-- The method `Mixer::import (const std::string&)`. -/
def Mixer.import (m : Mixer) (filename : String) : Mixer :=
  -- import only one at a time
  if m.sessionImporters_.isEmpty then
    { m with sessionImporters_ := m.sessionImporters_ ++ [filename] }
  else m

/-- The constructor `Mixer::Mixer`, over the heaps `sources` and `sessions`; `fresh` and
`fresh2` are the addresses that the two `new Session` return, `autoload` is the file that the
settings ask to load at start, if any, and `view` the view of the settings. -/
def Mixer.new (W : Frame) (sources : SourcePtr → Source) (sessions : SessionPtr → Session)
    (fresh fresh2 : SessionPtr) (autoload : Option String) (view : View) : Option Mixer :=
  -- unsused initial empty session
  let m0 : Mixer :=
    { sources := sources
      sessions := Function.update sessions fresh {}
      session_ := some fresh
      back_session_ := none
      current_view_ := none
      current_source_ := none
      current_source_index_ := -1 }
  let m1 : Mixer :=
    match autoload with
    -- auto load if Settings ask to
    | some filename => m0.load filename
    -- initializes with a new empty session
    | none => m0.clear fresh2
  -- this initializes with the current view
  m1.setView W view

/-! ## Mixer: the per-frame update -/

/-- The first block of `Mixer::update`: the sort-of garbage collector. -/
def Mixer.updateGarbage (m : Mixer) : Mixer :=
  match m.garbage_.getLast? with
  | some g => { m with deleted_ := m.deleted_ ++ [g], garbage_ := m.garbage_.dropLast }
  | none => m

/-- The block of `Mixer::update` that polls the pending session importer. -/
def Mixer.updateImporters (W : Frame) (m : Mixer) : Option Mixer :=
  if m.sessionImporters_.isEmpty then some m
  -- check status of loader: did it finish ?
  else if W.importerReady then
    -- get the session loaded by this loader
    match m.merge W W.imported with
    | none => none
    -- done with this session loader
    | some m1 => some { m1 with sessionImporters_ := m1.sessionImporters_.dropLast }
  else some m

/-- The block of `Mixer::update` that polls the pending session loader. -/
def Mixer.updateLoaders (W : Frame) (m : Mixer) : Mixer :=
  if m.sessionLoaders_.isEmpty then m
  -- check status of loader: did it finish ?
  else if W.loaderReady then
    -- get the session loaded by this loader, done with this session loader
    let m1 := m.set W.loaded
    { m1 with sessionLoaders_ := m1.sessionLoaders_.dropLast }
  else m

/-- The block of `Mixer::update` that imports a session source. -/
def Mixer.updateSourceImport (W : Frame) (m : Mixer) : Option Mixer :=
  match m.sessionSourceToImport_.getLast? with
  | none => some m
  | some source =>
    -- merge the session inside this session source
    match m.mergeSource W source with
    | none => none
    | some m1 =>
      -- important: delete the sessionsource itself
      match m1.deleteSource W source with
      | none => none
      -- done with this session source
      | some m2 => some { m2 with sessionSourceToImport_ := m2.sessionSourceToImport_.dropLast }

/-- The blocks of `Mixer::update` before the change of session: garbage, importer, loader and
session source. -/
def Mixer.updateQueues (W : Frame) (m : Mixer) : Option Mixer :=
  match m.updateGarbage.updateImporters W with
  | none => none
  | some m1 => (m1.updateLoaders W).updateSourceImport W

/-- The block of `Mixer::update` that changes the session when requested. -/
noncomputable def Mixer.updateSwap (m : Mixer) : Option Mixer :=
  if m.sessionSwapRequested_ then
    let m1 : Mixer := { m with sessionSwapRequested_ := false }
    -- sanity check
    match m1.back_session_ with
    -- swap front and back sessions
    | some _ =>
      match m1.swap with
      | none => none
      | some m2 =>
        -- set session filename
        match m2.session_ with
        | none => none
        | some _ => some m2
    | none => some m1
  else some m

/-- The block of `Mixer::update` that inserts a source candidate. -/
def Mixer.updateCandidates (W : Frame) (m : Mixer) : Option Mixer :=
  match m.candidate_sources_ with
  | [] => some m
  | front :: rest =>
    -- NB: only make the last candidate the current source in Mixing view
    match m.insertSource W (some front) (if rest.length + 1 > 1 then View.INVALID else View.MIXING)
    with
    | none => none
    | some m1 => some { m1 with candidate_sources_ := m1.candidate_sources_.tail }

/-- The end of `Mixer::update`: the update of the session and its sources and the removal of a
source that failed. The timer, the frame grabbing and the update of the views are outside the
embedded state. -/
def Mixer.updateSession (W : Frame) (m : Mixer) : Option Mixer :=
  match m.session_ with
  | none => none
  | some _ =>
    -- update session and associated sources
    let m1 : Mixer := { m with sources := W.sessionUpdate m.sources }
    -- delete sources which failed update (one by one)
    match W.failed with
    | none => some m1
    | some f =>
      if W.failedIsRender then
        -- failed Render loopback: replace it with one matching the current session
        match m1.recreateSource W f with
        | none => none
        | some (m2, true) => m2.deleteSource W none
        | some (m2, false) => m2.deleteSource W (some f)
      else m1.deleteSource W (some f)

/-- The method `Mixer::update`. -/
noncomputable def Mixer.update (W : Frame) (m : Mixer) : Option Mixer :=
  match m.updateQueues W with
  | none => none
  | some m1 =>
    match m1.updateSwap with
    | none => none
    | some m2 =>
      match m2.updateCandidates W with
      | none => none
      | some m3 => m3.updateSession W

/-- A call of one of the methods `clear`, `set`, `swap`, `update`, `load` and `import`. -/
inductive Request
  | clear (fresh : SessionPtr)
  | set (s : Option SessionPtr)
  | swap
  | update (W : Frame)
  | load (filename : String)
  | import_ (filename : String)

/-- The call `r` on the mixer `m`. -/
noncomputable def Mixer.call (m : Mixer) : Request → Option Mixer
  | Request.clear fresh => some (m.clear fresh)
  | Request.set s => some (m.set s)
  | Request.swap => m.swap
  | Request.update W => m.update W
  | Request.load filename => some (m.load filename)
  | Request.import_ filename => some (m.import filename)

/-- The calls `rs` made one after the other on the mixer `m`. -/
noncomputable def Mixer.run (m : Mixer) : List Request → Option Mixer
  | [] => some m
  | r :: rs =>
    match m.call r with
    | none => none
    | some m1 => m1.run rs

/-! ## SessionLoader and SessionCreator -/

/-- What the loader reads of one child element of the session node: the attribute `id` (0 when
absent, the initial value of `id__`), the attributes `type` and `name` (`none` when absent), the
attribute `locked` and the text of the child element `origin`, if there is one. -/
structure XMLSource where
  id : Nat := 0
  type_ : Option String := none
  name : Option String := none
  locked : Bool := false
  origin : Option String := none

/-- What `SessionCreator::load` reads of the file: `loadError` is `XMLResultError` of the result
of `LoadFile`, `header` holds the attributes `major` and `minor` of the first element named
APP_NAME (`none` when there is no such element), `session` the child elements of the element
`Session` from its first `Source` child on (`none` when there is no element `Session`) and
`views` tells whether there is an element `Views`. -/
structure XMLDocument where
  loadError : Bool := false
  header : Option (Int × Int) := none
  session : Option (List XMLSource) := none
  views : Bool := false

/-- What `new` and `GlmToolkit::uniqueId` answer during a load: `session` is the address of the
session created, `source i` and `id i` the address and the id of the source created for the
`i`-th element walked by the first loop, `clone i` and `cloneId i` those of the clone created
for the `i`-th element walked by the second loop; `depth` is the nesting of calls of `clone`
that the stack allows. -/
structure Fresh where
  session : SessionPtr := 0
  source : Nat → SourcePtr := fun i => 2 * i
  id : Nat → Nat := fun i => 2 * i
  clone : Nat → SourcePtr := fun i => 2 * i + 1
  cloneId : Nat → Nat := fun i => 2 * i + 1
  depth : Nat := 64

/-- The state of a `SessionLoader` with the heaps it reaches. -/
structure SessionLoader where
  sources : SourcePtr → Source
  sessions : SessionPtr → Session
  session_ : Option SessionPtr := none
  sources_id_ : List Nat := []

/-- Modelled from the spec: `Session::find (uint64_t)` is not under src. It gives the first
source of the list with the given id, `none` standing for `end()`. -/
def Session.findId (h : SourcePtr → Source) (s : Session) (id : Nat) : Option SourcePtr :=
  s.sources_.find? (fun p => decide ((h p).id_ = id))

/-- Modelled from the spec: `Session::find (std::string)` is not under src. It gives the first
source of the list with the given name, `none` standing for `end()`. -/
def Session.findName (h : SourcePtr → Source) (s : Session) (name : String) :
    Option SourcePtr :=
  s.sources_.find? (fun p => decide ((h p).name_ = name))

/-- Modelled from the spec: `Session::setFilename` is not under src; it stores the filename. -/
def Session.setFilename (s : Session) (filename : String) : Session :=
  { s with filename_ := filename }

/-- The type names for which the first loop of `SessionLoader::load` creates a source. -/
def SessionLoader.sourceTypes : List String :=
  ["MediaSource", "SessionSource", "RenderSource", "PatternSource", "DeviceSource",
   "NetworkSource"]

/-- The statements `load_source->accept(*this); load_source->touch();
sources_id_.push_back(load_source->id())` for the source at `p` and the element `e`. Of
`SessionLoader::visit (Source&)` the name and the lock are embedded; the nodes, shaders and mask
read from the element, and the visit of the derived class, are outside the embedded state. A
missing attribute `name` makes `setName` build a string from a null pointer. -/
def SessionLoader.configure (t : String → String) (L : SessionLoader) (p : SourcePtr)
    (e : XMLSource) : Option SessionLoader :=
  match e.name with
  | none => none
  | some n =>
    let s := (((L.sources p).setName t n).setLocked e.locked).touch
    some { L with
      sources := Function.update L.sources p s
      -- remember
      sources_id_ := L.sources_id_ ++ [s.id_] }

/-- The body of the first loop of `SessionLoader::load` for the `i`-th element `e`, loading into
the session at `a`. -/
def SessionLoader.loadSource (F : Fresh) (t : String → String) (L : SessionLoader)
    (a : SessionPtr) (i : Nat) (e : XMLSource) : Option SessionLoader :=
  -- check if a source with the given id exists in the session
  match (L.sessions a).findId L.sources e.id with
  -- no source with this id exists
  | none =>
    match e.type_ with
    | none => some L
    | some pType =>
      -- create a new source depending on type
      if pType ∈ SessionLoader.sourceTypes then
        let p := F.source i
        -- add source to session
        let L1 : SessionLoader :=
          { L with
            sources := Function.update L.sources p { id_ := F.id i }
            sessions := Function.update L.sessions a ((L.sessions a).addSource p) }
        -- apply config to source
        L1.configure t p e
      -- skip failed (including clones)
      else some L
  -- get reference to the existing source
  | some p => L.configure t p e

/-- The method `Source::clone` of the base class on the object at `o`: `new CloneSource(this)`
gives the address `c` and the id `cid`, and the clone is pushed on `clones_` of `o`. The result
is the heap and the pointer returned. -/
def Source.clone (h : SourcePtr → Source) (o c : SourcePtr) (cid : Nat) :
    (SourcePtr → Source) × Option SourcePtr :=
  let h1 := Function.update h c { id_ := cid, origin_ := some (some o) }
  (Function.update h1 o { h1 o with clones_ := (h1 o).clones_ ++ [c] }, some c)

/-- The method `CloneSource::clone` on the clone at `this`. Its call `origin_->clone()` is
virtual: it runs `Source::clone` when the origin is not a clone and `CloneSource::clone` again
when it is one. `depth` bounds the nesting of these calls, `none` being returned when it is
exceeded. -/
def CloneSource.clone (h : SourcePtr → Source) (c : SourcePtr) (cid : Nat) :
    Nat → SourcePtr → Option ((SourcePtr → Source) × Option SourcePtr)
  | 0, _ => none
  | depth + 1, this =>
    match (h this).origin_ with
    -- do not clone a clone : clone the original instead
    | some (some q) =>
      match (h q).origin_ with
      | none => some (Source.clone h q c cid)
      | some _ => CloneSource.clone h c cid depth q
    | _ => some (h, none)

/-- The virtual call `o->clone()` through a pointer to `Source`. -/
def Source.virtualClone (h : SourcePtr → Source) (c : SourcePtr) (cid : Nat) (depth : Nat)
    (o : SourcePtr) : Option ((SourcePtr → Source) × Option SourcePtr) :=
  match (h o).origin_ with
  | none => some (Source.clone h o c cid)
  | some _ => CloneSource.clone h c cid depth o

/-- The body of the second loop of `SessionLoader::load` for the `i`-th element `e`. -/
def SessionLoader.loadClone (F : Fresh) (t : String → String) (L : SessionLoader)
    (a : SessionPtr) (i : Nat) (e : XMLSource) : Option SessionLoader :=
  -- verify type of node
  if e.type_ = some "CloneSource" then
    -- check if a source with same id exists
    match (L.sessions a).findId L.sources e.id with
    | some _ => some L
    -- no source clone with this id exists
    | none =>
      -- clone from given origin
      match e.origin with
      | none => some L
      | some sourcename =>
        match (L.sessions a).findName L.sources sourcename with
        | none => some L
        -- found the orign source
        | some o =>
          -- create a new source of type Clone
          match Source.virtualClone L.sources (F.clone i) (F.cloneId i) F.depth o with
          | none => none
          | some (_, none) => none
          | some (h1, some c) =>
            -- add source to session, apply config to source
            SessionLoader.configure t
              { L with
                sources := h1
                sessions := Function.update L.sessions a ((L.sessions a).addSource c) }
              c e
  else some L

/-- A loop of `SessionLoader::load` over the elements `l`, the first of which has rank `i`. -/
def SessionLoader.forEach (f : SessionLoader → Nat → XMLSource → Option SessionLoader) :
    Nat → List XMLSource → SessionLoader → Option SessionLoader
  | _, [], L => some L
  | i, e :: l, L =>
    match f L i e with
    | none => none
    | some L1 => SessionLoader.forEach f (i + 1) l L1

/-- The call `std::list::unique`: of each run of equal consecutive elements the first is kept. -/
def unique : List Nat → List Nat
  | [] => []
  | [x] => [x]
  | x :: y :: l => if x = y then unique (y :: l) else x :: unique (y :: l)

/-- The method `SessionLoader::load` on the session node `sessionNode`. -/
def SessionLoader.load (F : Fresh) (t : String → String) (L : SessionLoader)
    (sessionNode : Option (List XMLSource)) : Option SessionLoader :=
  let L0 : SessionLoader := { L with sources_id_ := [] }
  match sessionNode, L0.session_ with
  | some l, some a =>
    match SessionLoader.forEach (fun L i e => L.loadSource F t a i e) 0 l L0 with
    | none => none
    | some L1 =>
      -- create clones after all sources, to be able to clone a source created above
      match SessionLoader.forEach (fun L i e => L.loadClone F t a i e) 0 l L1 with
      | none => none
      -- make sure no duplicate
      | some L2 => some { L2 with sources_id_ := unique L2.sources_id_ }
  | _, _ => some L0

/-- The constructor `SessionCreator::SessionCreator`, over the heaps `sources` and `sessions`. -/
def SessionCreator.new (sources : SourcePtr → Source) (sessions : SessionPtr → Session) :
    SessionLoader :=
  { sources := sources, sessions := sessions, session_ := none }

/-- The method `SessionCreator::load` on the file read as `doc`; the configuration of the views
that `loadConfig` reads is outside the embedded state. -/
def SessionCreator.load (F : Fresh) (t : String → String) (C : SessionLoader)
    (doc : XMLDocument) (filename : String) : Option SessionLoader :=
  if doc.loadError then some C
  else
    match doc.header with
    | none => some C
    | some _ =>
      -- session file seems legit, create a session
      let C1 : SessionLoader :=
        { C with
          session_ := some F.session
          sessions := Function.update C.sessions F.session {} }
      -- ready to read sources
      match C1.load F t doc.session with
      | none => none
      | some C2 =>
        match C2.session_ with
        | none => none
        -- all good
        | some a =>
          some { C2 with
            sessions := Function.update C2.sessions a ((C2.sessions a).setFilename filename) }

/-- A file that cannot be read as XML. -/
def brokenDocument : XMLDocument := { loadError := true }

/-- A well-formed file with a header and a session of one media source named `clip`. -/
def clipDocument : XMLDocument :=
  { header := some (0, 1)
    session := some [{ id := 7, type_ := some "MediaSource", name := some "clip" }] }

/-! ## Specification vocabulary for the Mixer -/

/-- What every operation of the Mixer other than the queue blocks of `update` keeps: a live
session and a current view stay there, the three queues of pending work, the candidate sources
and the record of deleted sessions are unchanged, and the garbage list only grows at its end. -/
structure Mixer.Ext (m m1 : Mixer) : Prop where
  live : m.session_.isSome → m1.session_.isSome
  view : m.current_view_.isSome → m1.current_view_.isSome
  loaders : m1.sessionLoaders_ = m.sessionLoaders_
  importers : m1.sessionImporters_ = m.sessionImporters_
  toImport : m1.sessionSourceToImport_ = m.sessionSourceToImport_
  candidates : m1.candidate_sources_ = m.candidate_sources_
  deleted : m1.deleted_ = m.deleted_
  garbage : ∃ l, m1.garbage_ = m.garbage_ ++ l

/-- The two mixers differ at most in the heaps of source and session objects. -/
structure Mixer.Same (m m1 : Mixer) : Prop where
  session_ : m1.session_ = m.session_
  back_session_ : m1.back_session_ = m.back_session_
  garbage_ : m1.garbage_ = m.garbage_
  swapRequested : m1.sessionSwapRequested_ = m.sessionSwapRequested_
  current_source_ : m1.current_source_ = m.current_source_
  current_source_index_ : m1.current_source_index_ = m.current_source_index_
  selection_ : m1.selection_ = m.selection_
  candidates : m1.candidate_sources_ = m.candidate_sources_
  current_view_ : m1.current_view_ = m.current_view_
  loaders : m1.sessionLoaders_ = m.sessionLoaders_
  importers : m1.sessionImporters_ = m.sessionImporters_
  toImport : m1.sessionSourceToImport_ = m.sessionSourceToImport_
  deleted : m1.deleted_ = m.deleted_

/-- The step from `m` to `m1` keeps what `Mixer.Ext` says and moreover the live session pointer,
the current view, the heap of session objects, the back session, the garbage list and the swap
request. -/
structure Mixer.Quiet (m m1 : Mixer) : Prop where
  ext : Mixer.Ext m m1
  session_ : m1.session_ = m.session_
  current_view_ : m1.current_view_ = m.current_view_
  sessions : m1.sessions = m.sessions
  back_session_ : m1.back_session_ = m.back_session_
  garbage_ : m1.garbage_ = m.garbage_
  swapRequested : m1.sessionSwapRequested_ = m.sessionSwapRequested_

/-- What every block of `Mixer::update` after the garbage collector keeps: a live session and a
current view stay there, no session is deleted, the garbage list only grows at its end and no
loader or importer is added. -/
structure Mixer.Grow (m m1 : Mixer) : Prop where
  live : m.session_.isSome → m1.session_.isSome
  view : m.current_view_.isSome → m1.current_view_.isSome
  deleted : m1.deleted_ = m.deleted_
  garbage : ∃ l, m1.garbage_ = m.garbage_ ++ l
  loaders : m1.sessionLoaders_.length ≤ m.sessionLoaders_.length
  importers : m1.sessionImporters_.length ≤ m.sessionImporters_.length

/-- No clone has a clone as origin. -/
def NoChain (h : SourcePtr → Source) : Prop :=
  ∀ p o, (h p).origin_ = some (some o) → (h o).origin_ = none

/-- The mixer has a live session and a current view, as the constructor leaves it. -/
def Mixer.Good (m : Mixer) : Prop := m.session_.isSome ∧ m.current_view_.isSome

/-! ## Concrete mixers -/

/-- A mixer in the MIXING view with live session 0 listing the sources 5 and 6, source 5 current
and selected, the sources 8 and 9 waiting as candidates, session 3 on the garbage list, one
loader and one importer pending. -/
def queueMixer : Mixer :=
  { sources := fun p => { id_ := p }
    sessions := fun _ => { sources_ := [5, 6] }
    session_ := some 0
    garbage_ := [3]
    current_source_ := some 5
    current_source_index_ := 0
    selection_ := [5]
    candidate_sources_ := [8, 9]
    current_view_ := some View.MIXING
    sessionLoaders_ := ["a.mix"]
    sessionImporters_ := ["b.mix"] }

/-- The mixer `queueMixer` with a swap requested and no back session staged. -/
def requestMixer : Mixer := { queueMixer with sessionSwapRequested_ := true }

/-- The mixer `queueMixer` with a swap requested and the back session 1 staged. -/
def stagedMixer : Mixer :=
  { queueMixer with back_session_ := some 1, sessionSwapRequested_ := true }

/-! ## Concrete sources -/

/-- A heap with the origin 1, which is not a clone, and its clone 2; no other source is a
clone. -/
def chainHeap : SourcePtr → Source := fun p =>
  if p = 2 then { id_ := 2, origin_ := some (some 1) }
  else if p = 1 then { id_ := 1, clones_ := [2] }
  else { id_ := p }

/-- The heap `limboHeap` in which the source 1 has the clone 2: the origin 1 lies beyond the
limbo radius and its clone is active. -/
def originHeap : SourcePtr → Source := fun p =>
  if p = 1 then { limboHeap 1 with clones_ := [2] } else limboHeap p

/-- A mixer in the MIXING view whose live session lists the source 5, every group of which is
translated by `(1, 2, 0)` and scaled by `(3, 3, 1)`; the source 6 is new. -/
def replaceMixer : Mixer :=
  { sources := fun p =>
      if p = 5 then
        { id_ := 5, name_ := "old"
          groups_ := fun _ => { translation_ := ⟨1, 2, 0⟩, scale_ := ⟨3, 3, 1⟩ } }
      else { id_ := p, name_ := "new" }
    sessions := fun _ => { sources_ := [5] }
    session_ := some 0
    current_view_ := some View.MIXING }

/-- A loader on the session 0 that holds the sources 1 and 2, each with its address as id. -/
def dupLoader : SessionLoader :=
  { sources := fun p => { id_ := p }
    sessions := fun _ => { sources_ := [1, 2] }
    session_ := some 0 }

/-- A session node whose elements give the ids 1, 2 and 1 again. -/
def dupNode : List XMLSource :=
  [{ id := 1, type_ := some "MediaSource", name := some "a" },
   { id := 2, type_ := some "MediaSource", name := some "b" },
   { id := 1, type_ := some "MediaSource", name := some "a" }]

/-! ## Concrete groups -/

/-- A source with MIXING translation `(x, y, 0)` and the given lock flag. -/
def sourceAt (x y : ℝ) (locked : Bool) : Source :=
  { locked_ := locked
    groups_ := fun v => if v = View.MIXING then { translation_ := ⟨x, y, 0⟩ } else {} }

/-- The group of the sources 1 and 2 as built while they were at `(0, 0)` and `(2, 0)`: centre
`(1, 0)`, path through both points, with action `a` requested for the moved source 1. -/
def pairGroup (a : Action) : MixingGroup :=
  { sources_ := [1, 2]
    center_pos_ := ⟨1, 0⟩
    active_ := true
    update_action_ := a
    updated_source_ := some 1
    lines_ := LinesPtr.live { path_ := [⟨0, 0⟩, ⟨2, 0⟩] }
    center_ := { visible_ := false, scale_ := ⟨0.6, 0.6, 1⟩, translation_ := ⟨1, 0, 0⟩ }
    index_points_ := fun s => if s = 1 then some 0 else if s = 2 then some 1 else none }

/-- The heap with source 1 at `(0, 0)` and source 2 at `(2, 0)`, both unlocked. -/
def pairHeap : SourceHeap := fun p =>
  if p = 1 then sourceAt 0 0 false else if p = 2 then sourceAt 2 0 false else {}

/-- The heap after source 1 was dragged to `(0, 1)`: source 2 is still at `(2, 0)` and is locked
iff `lock2`. -/
def movedHeap (lock2 : Bool) : SourceHeap := fun p =>
  if p = 1 then sourceAt 0 1 false else if p = 2 then sourceAt 2 0 lock2 else {}

/-- The heap with source 1 at `(-1, 0)`, source 2 at `(0, 0)` and every other source at
`(1, 0)`. -/
def lineHeap : SourceHeap := fun p =>
  if p = 1 then sourceAt (-1) 0 false else if p = 2 then sourceAt 0 0 false
  else sourceAt 1 0 false

/-- The group of the sources 1, 2 and 3 of `lineHeap`, in that order, with centre `(0, 0)` and
no action requested. -/
def tripleGroup : MixingGroup :=
  { sources_ := [1, 2, 3]
    center_pos_ := ⟨0, 0⟩
    active_ := true
    update_action_ := Action.ACTION_NONE
    updated_source_ := none
    lines_ := LinesPtr.live { path_ := [⟨-1, 0⟩, ⟨0, 0⟩, ⟨1, 0⟩] }
    center_ := { visible_ := false, scale_ := ⟨0.6, 0.6, 1⟩, translation_ := ⟨0, 0, 0⟩ }
    index_points_ := fun s =>
      if s = 1 then some 0 else if s = 2 then some 1 else if s = 3 then some 2 else none }

/-! ## Specification vocabulary for the member loops -/

/-- What the member loops of `MixingGroup::update` do to the member `it` holding `src`, for a
map `f` of positions: the moved source `u` and locked members are left as they are, another
member is placed at `f` of its position and touched. -/
def movedSource (f : vec2 → vec2) (u it : SourcePtr) (src : Source) : Source :=
  if it ≠ u ∧ src.locked = false then (src.setMixingXY (f src.mixingPos)).touch else src

/-- A loop body that moves the other unlocked members by `f`, records the position of each
member in the path and evaluates `index_points_[it]`, while keeping `Inv`. -/
structure StepSpec (step : LoopState → SourcePtr → LoopState) (f : vec2 → vec2) (u : SourcePtr)
    (Inv : LoopState → Prop) : Prop where
  inv : ∀ st it, Inv st → Inv (step st it)
  heap : ∀ st it, Inv st →
    (step st it).heap = Function.update st.heap it (movedSource f u it (st.heap it))
  p : ∀ st it, Inv st →
    (step st it).p = st.p.set (st.index_points_.at it) ((step st it).heap it).mixingPos
  index : ∀ st it, Inv st → (step st it).index_points_ = st.index_points_.touch it

/-- The arithmetic mean of the MIXING positions of the members `l` in the heap `h`. -/
noncomputable def meanPos (h : SourceHeap) (l : List SourcePtr) : vec2 :=
  ⟨(l.map (fun s => (h s).mixingPos.x)).sum / (l.length : ℝ),
   (l.map (fun s => (h s).mixingPos.y)).sum / (l.length : ℝ)⟩

/-- The angle by which `clockwise_centered` orders the source `s`: the oriented angle of its
normalized offset from `center` against the axis `(1, 0)`. -/
noncomputable def clockAngle (h : SourceHeap) (center : vec2) (s : SourcePtr) : ℝ :=
  glm.orientedAngle (glm.normalize ((h s).mixingPos - center)) ⟨1, 0⟩

/-- The path and the index of a group agree with its members: the members are distinct, the path
has one point per member and `index_points_` maps each member to its rank in `sources_`. This is
the state left by `MixingGroup::createLineStrip` on two or more distinct sources. -/
structure MixingGroup.Linked (g : MixingGroup) (l : LineLoop) : Prop where
  nodup : g.sources_.Nodup
  lines : g.lines_ = LinesPtr.live l
  length : l.path_.length = g.sources_.length
  index : ∀ s ∈ g.sources_, g.index_points_ s = some (g.sources_.indexOf s)

/-! # Theorems -/

/-! ## Vector components -/

@[simp] theorem vec2.zero_x : (0 : vec2).x = 0 := rfl
@[simp] theorem vec2.zero_y : (0 : vec2).y = 0 := rfl
@[simp] theorem vec2.add_x (a b : vec2) : (a + b).x = a.x + b.x := rfl
@[simp] theorem vec2.add_y (a b : vec2) : (a + b).y = a.y + b.y := rfl
@[simp] theorem vec2.sub_x (a b : vec2) : (a - b).x = a.x - b.x := rfl
@[simp] theorem vec2.sub_y (a b : vec2) : (a - b).y = a.y - b.y := rfl
@[simp] theorem vec2.mul_x (a : vec2) (s : ℝ) : (a * s).x = a.x * s := rfl
@[simp] theorem vec2.mul_y (a : vec2) (s : ℝ) : (a * s).y = a.y * s := rfl
@[simp] theorem vec2.div_x (a : vec2) (s : ℝ) : (a / s).x = a.x / s := rfl
@[simp] theorem vec2.div_y (a : vec2) (s : ℝ) : (a / s).y = a.y / s := rfl
@[simp] theorem vec3.xy_x (v : vec3) : v.xy.x = v.x := rfl
@[simp] theorem vec3.xy_y (v : vec3) : v.xy.y = v.y := rfl

/-! ## Renaming -/

/-- C1, the code at the failing input: in the session listing source 1 (`base2`), source 2
(`base`) and source 3, renaming source 3 to `base` returns with source 3 named `base2`, the name
of source 1, a member of the session with another id. -/
theorem renameSource_collides :
    ∃ m, renameMixer.renameSource id (some 3) "base" = some m ∧
      m.session_ = some 0 ∧ 1 ∈ (m.sessions 0).sources_ ∧ 3 ∈ (m.sessions 0).sources_ ∧
      (m.sources 1).id_ ≠ (m.sources 3).id_ ∧
      (m.sources 3).name_ = "base2" ∧ (m.sources 1).name_ = (m.sources 3).name_ := by
  refine ⟨_, rfl, rfl, ?_, ?_, ?_, ?_, ?_⟩ <;> decide

/-! ## Transfer function -/

theorem CLAMP_mem (x : ℝ) : 0 ≤ CLAMP x 0 1 ∧ CLAMP x 0 1 ≤ 1 := by
  unfold CLAMP
  exact ⟨le_min (le_max_right _ _) zero_le_one, min_le_right _ _⟩

theorem CLAMP_mono {a b : ℝ} (h : a ≤ b) : CLAMP a 0 1 ≤ CLAMP b 0 1 := by
  unfold CLAMP
  exact min_le_min (max_le_max h le_rfl) le_rfl

theorem CLAMP_of_one_le {a : ℝ} (h : 1 ≤ a) : CLAMP a 0 1 = 1 := by
  unfold CLAMP
  rw [max_eq_left (by linarith), min_eq_right h]

/-- C5: `sin_quad` is `1` at the origin and `0` at every point with `x² + y² ≥ 1`. -/
theorem sin_quad_endpoints :
    sin_quad 0 0 = 1 ∧ ∀ x y : ℝ, 1 ≤ x ^ 2 + y ^ 2 → sin_quad x y = 0 := by
  constructor
  · simp [sin_quad, CLAMP]
    norm_num
  · intro x y h
    have h1 : CLAMP (x * x + y * y) 0 1 = 1 := CLAMP_of_one_le (by nlinarith)
    simp [sin_quad, h1]

/-- C5 at the point `(1, 0)` of the unit circle. -/
theorem sin_quad_endpoints_witness : (1 : ℝ) ≤ 1 ^ 2 + 0 ^ 2 ∧ sin_quad 1 0 = 0 :=
  ⟨by norm_num, sin_quad_endpoints.2 1 0 (by norm_num)⟩

/-- C6: `sin_quad` is continuous, does not increase when the radius `sqrt (x² + y²)` grows, and
takes its values between `0` and `1`. -/
theorem sin_quad_continuous_antitone_bounded :
    Continuous (fun p : ℝ × ℝ => sin_quad p.1 p.2) ∧
    (∀ x₁ y₁ x₂ y₂ : ℝ, Real.sqrt (x₁ ^ 2 + y₁ ^ 2) ≤ Real.sqrt (x₂ ^ 2 + y₂ ^ 2) →
      sin_quad x₂ y₂ ≤ sin_quad x₁ y₁) ∧
    ∀ x y : ℝ, 0 ≤ sin_quad x y ∧ sin_quad x y ≤ 1 := by
  refine ⟨?_, ?_, ?_⟩
  · unfold sin_quad CLAMP
    fun_prop
  · intro x₁ y₁ x₂ y₂ h
    have h2 : x₁ * x₁ + y₁ * y₁ ≤ x₂ * x₂ + y₂ * y₂ := by
      have := (Real.sqrt_le_sqrt_iff (by positivity)).1 h
      nlinarith
    have hc := CLAMP_mono h2
    have ha := CLAMP_mem (x₁ * x₁ + y₁ * y₁)
    have hb := CLAMP_mem (x₂ * x₂ + y₂ * y₂)
    have hcos : Real.cos (Real.pi * CLAMP (x₂ * x₂ + y₂ * y₂) 0 1) ≤
        Real.cos (Real.pi * CLAMP (x₁ * x₁ + y₁ * y₁) 0 1) := by
      apply Real.cos_le_cos_of_nonneg_of_le_pi
      · exact mul_nonneg Real.pi_pos.le ha.1
      · have := mul_le_mul_of_nonneg_left hb.2 Real.pi_pos.le
        linarith
      · exact mul_le_mul_of_nonneg_left hc Real.pi_pos.le
    unfold sin_quad
    linarith
  · intro x y
    have h1 := Real.neg_one_le_cos (Real.pi * CLAMP (x * x + y * y) 0 1)
    have h2 := Real.cos_le_one (Real.pi * CLAMP (x * x + y * y) 0 1)
    unfold sin_quad
    constructor <;> linarith

/-- C6 at the points `(0, 0)` and `(1, 0)`. -/
theorem sin_quad_continuous_antitone_bounded_witness :
    Real.sqrt ((0 : ℝ) ^ 2 + 0 ^ 2) ≤ Real.sqrt (1 ^ 2 + 0 ^ 2) ∧ sin_quad 1 0 ≤ sin_quad 0 0 :=
  ⟨by norm_num, sin_quad_continuous_antitone_bounded.2.1 0 0 1 0 (by norm_num)⟩

/-! ## Session swap -/

/-- What `Mixer::detach` keeps: the session pointers, the session heap, the garbage list and an
empty selection. -/
structure Mixer.Kept (m m1 : Mixer) : Prop where
  session_ : m1.session_ = m.session_
  back_session_ : m1.back_session_ = m.back_session_
  garbage_ : m1.garbage_ = m.garbage_
  sessions : m1.sessions = m.sessions
  swapRequested : m1.sessionSwapRequested_ = m.sessionSwapRequested_
  selection_ : m.selection_ = [] → m1.selection_ = []

theorem Mixer.Kept.refl (m : Mixer) : Mixer.Kept m m :=
  ⟨rfl, rfl, rfl, rfl, rfl, fun h => h⟩

theorem Mixer.Kept.trans {m m1 m2 : Mixer} (h1 : Mixer.Kept m m1) (h2 : Mixer.Kept m1 m2) :
    Mixer.Kept m m2 :=
  ⟨h2.session_.trans h1.session_, h2.back_session_.trans h1.back_session_,
   h2.garbage_.trans h1.garbage_, h2.sessions.trans h1.sessions,
   h2.swapRequested.trans h1.swapRequested, fun h => h2.selection_ (h1.selection_ h)⟩

theorem Mixer.unsetCurrentSource_some (m : Mixer) (a : SessionPtr) (ha : m.session_ = some a) :
    ∃ m1, m.unsetCurrentSource = some m1 ∧ Mixer.Kept m m1 := by
  rcases hc : m.current_source_ with _ | c
  · exact ⟨m, by simp [Mixer.unsetCurrentSource, ha, hc], Mixer.Kept.refl m⟩
  · by_cases hsel : m.selection_.length > 1
    · refine ⟨{ m with
          sources := Function.update m.sources c ((m.sources c).setMode SourceMode.SELECTED)
          current_source_ := none, current_source_index_ := -1 }, ?_, ?_⟩
      · simp [Mixer.unsetCurrentSource, ha, hc, hsel]
      · exact ⟨rfl, rfl, rfl, rfl, rfl, fun h => h⟩
    · refine ⟨{ m with
          selection_ := Selection.remove m.selection_ c
          current_source_ := none, current_source_index_ := -1 }, ?_, ?_⟩
      · simp [Mixer.unsetCurrentSource, ha, hc, hsel]
      · exact ⟨rfl, rfl, rfl, rfl, rfl, fun h => by simp [h, Selection.remove]⟩

theorem Mixer.detach_kept (m : Mixer) (a : SessionPtr) (ha : m.session_ = some a)
    (s : Option SourcePtr) : ∃ m1, m.detach s = some m1 ∧ Mixer.Kept m m1 := by
  cases s with
  | none => exact ⟨m, rfl, Mixer.Kept.refl m⟩
  | some p =>
    obtain ⟨m1, h1, k1⟩ := Mixer.unsetCurrentSource_some m a ha
    refine ⟨{ m1 with selection_ := Selection.remove m1.selection_ p }, ?_, ?_⟩
    · simp [Mixer.detach, h1]
    · exact ⟨k1.session_, k1.back_session_, k1.garbage_, k1.sessions, k1.swapRequested,
        fun h => by simp [k1.selection_ h, Selection.remove]⟩

theorem Mixer.detachAll_kept (l : List SourcePtr) (m : Mixer) (a : SessionPtr)
    (ha : m.session_ = some a) : ∃ m1, m.detachAll l = some m1 ∧ Mixer.Kept m m1 := by
  induction l generalizing m with
  | nil => exact ⟨m, rfl, Mixer.Kept.refl m⟩
  | cons it l ih =>
    obtain ⟨m1, h1, k1⟩ := Mixer.detach_kept m a ha (some it)
    obtain ⟨m2, h2, k2⟩ := ih m1 (k1.session_.trans ha)
    exact ⟨m2, by simp [Mixer.detachAll, h1, h2], k1.trans k2⟩

theorem Mixer.attachAll_fields (l : List SourcePtr) (m : Mixer) :
    (m.attachAll l).session_ = m.session_ ∧ (m.attachAll l).back_session_ = m.back_session_ ∧
    (m.attachAll l).garbage_ = m.garbage_ ∧ (m.attachAll l).selection_ = m.selection_ ∧
    (m.attachAll l).sessions = m.sessions := by
  unfold Mixer.attachAll
  induction l generalizing m with
  | nil => simp
  | cons it l ih =>
    have := ih (m.attach (some it))
    simpa [Mixer.attach] using this

/-- C10: with a live session `a` and a staged back session `b`, `Mixer::swap` returns with `b`
live, no back session, `a` appended to the garbage list, an empty selection and no current source
(iterator at end, index -1); with no staged back session it returns the mixer unchanged. -/
theorem Mixer.swap_staged_or_not (m : Mixer) :
    (∀ a b, m.session_ = some a → m.back_session_ = some b →
      ∃ m1, m.swap = some m1 ∧ m1.session_ = some b ∧ m1.back_session_ = none ∧
        m1.garbage_ = m.garbage_ ++ [a] ∧ m1.selection_ = [] ∧
        m1.current_source_ = none ∧ m1.current_source_index_ = -1) ∧
    (m.back_session_ = none → m.swap = some m) := by
  constructor
  · intro a b ha hb
    obtain ⟨m1, h1, k1⟩ := Mixer.detachAll_kept (m.sessions a).sources_
      { m with selection_ := Selection.clear m.selection_ } a ha
    have hsel : m1.selection_ = [] := k1.selection_ rfl
    have hback : m1.session_ = some a := k1.session_.trans ha
    have hgarb : m1.garbage_ = m.garbage_ := k1.garbage_
    obtain ⟨f1, f2, f3, f4, -⟩ := Mixer.attachAll_fields (m1.sessions b).sources_
      { m1 with session_ := some b, back_session_ := m1.session_ }
    unfold Mixer.swap
    simp only [hb, ha] at h1 ⊢
    simp only [h1]
    simp only [hback] at f1 f2 f3 f4 ⊢
    generalize Mixer.attachAll _ _ = m3 at f1 f2 f3 f4 ⊢
    simp only [f2]
    exact ⟨_, rfl, f1, rfl, by simp [f3, hgarb], by simp [f4, hsel], rfl, rfl⟩
  · intro hb
    simp [Mixer.swap, hb]

/-- C10 on a mixer with live session 0, staged session 1 and source 5 current and selected. -/
theorem Mixer.swap_staged_or_not_witness :
    ∃ m1, swapMixer.swap = some m1 ∧ m1.session_ = some 1 ∧ m1.back_session_ = none ∧
      m1.garbage_ = [0] ∧ m1.selection_ = [] ∧
      m1.current_source_ = none ∧ m1.current_source_index_ = -1 :=
  (Mixer.swap_staged_or_not swapMixer).1 0 1 rfl rfl

/-! ## Sources and index maps -/

@[simp] theorem Source.mixingPos_setMixingXY (s : Source) (v : vec2) :
    (s.setMixingXY v).mixingPos = v := by
  simp [Source.mixingPos, Source.setMixingXY, vec3.xy]

@[simp] theorem Source.mixingPos_touch (s : Source) : s.touch.mixingPos = s.mixingPos := rfl

@[simp] theorem Source.locked_touch (s : Source) : s.touch.locked = s.locked := rfl

@[simp] theorem Source.locked_setMixingXY (s : Source) (v : vec2) :
    (s.setMixingXY v).locked = s.locked := rfl

@[simp] theorem IndexMap.at_touch (m : IndexMap) (s t : SourcePtr) :
    (m.touch s).at t = m.at t := by
  unfold IndexMap.touch IndexMap.at
  by_cases h : (m s).isSome
  · simp [h]
  · by_cases hts : t = s
    · subst hts
      have : m t = none := by simpa using h
      simp [h, this]
    · simp [h, Function.update_noteq hts]

theorem IndexMap.touch_of_isSome (m : IndexMap) (s : SourcePtr) (h : (m s).isSome) :
    m.touch s = m := by
  simp [IndexMap.touch, h]

theorem movedSource_of_moved (f : vec2 → vec2) (u : SourcePtr) (src : Source) :
    movedSource f u u src = src := by
  simp [movedSource]

theorem movedSource_of_locked (f : vec2 → vec2) (u it : SourcePtr) (src : Source)
    (h : src.locked = true) : movedSource f u it src = src := by
  simp [movedSource, h]

theorem movedSource_mixingPos (f : vec2 → vec2) (u it : SourcePtr) (src : Source)
    (h1 : it ≠ u) (h2 : src.locked = false) :
    (movedSource f u it src).mixingPos = f src.mixingPos := by
  simp [movedSource, h1, h2]

/-! ## The member loops -/

theorem StepSpec.foldl_inv {step f u Inv} (hs : StepSpec step f u Inv) (l : List SourcePtr)
    (st : LoopState) (hI : Inv st) : Inv (l.foldl step st) := by
  induction l generalizing st with
  | nil => exact hI
  | cons it l ih => exact ih _ (hs.inv st it hI)

theorem StepSpec.foldl_heap {step f u Inv} (hs : StepSpec step f u Inv) (l : List SourcePtr)
    (hl : l.Nodup) (st : LoopState) (hI : Inv st) (s : SourcePtr) :
    (l.foldl step st).heap s = if s ∈ l then movedSource f u s (st.heap s) else st.heap s := by
  induction l generalizing st with
  | nil => simp
  | cons it l ih =>
    have hit : it ∉ l := (List.nodup_cons.1 hl).1
    rw [List.foldl_cons, ih (List.nodup_cons.1 hl).2 _ (hs.inv st it hI), hs.heap st it hI]
    by_cases hsi : s = it
    · subst hsi
      simp [hit]
    · simp [hsi, Function.update_noteq hsi]

theorem StepSpec.foldl_at {step f u Inv} (hs : StepSpec step f u Inv) (l : List SourcePtr)
    (st : LoopState) (hI : Inv st) (t : SourcePtr) :
    (l.foldl step st).index_points_.at t = st.index_points_.at t := by
  induction l generalizing st with
  | nil => rfl
  | cons it l ih =>
    rw [List.foldl_cons, ih _ (hs.inv st it hI), hs.index st it hI, IndexMap.at_touch]

theorem StepSpec.foldl_index {step f u Inv} (hs : StepSpec step f u Inv) (l : List SourcePtr)
    (st : LoopState) (hI : Inv st) (hk : ∀ s ∈ l, (st.index_points_ s).isSome) :
    (l.foldl step st).index_points_ = st.index_points_ := by
  induction l generalizing st with
  | nil => rfl
  | cons it l ih =>
    have e : (step st it).index_points_ = st.index_points_ := by
      rw [hs.index st it hI, IndexMap.touch_of_isSome _ _ (hk it (List.mem_cons_self _ _))]
    rw [List.foldl_cons, ih _ (hs.inv st it hI), e]
    intro s hsl
    rw [e]
    exact hk s (List.mem_cons_of_mem _ hsl)

theorem StepSpec.foldl_length {step f u Inv} (hs : StepSpec step f u Inv) (l : List SourcePtr)
    (st : LoopState) (hI : Inv st) : (l.foldl step st).p.length = st.p.length := by
  induction l generalizing st with
  | nil => rfl
  | cons it l ih =>
    rw [List.foldl_cons, ih _ (hs.inv st it hI), hs.p st it hI, List.length_set]

theorem StepSpec.foldl_p_other {step f u Inv} (hs : StepSpec step f u Inv) (l : List SourcePtr)
    (st : LoopState) (hI : Inv st) (j : Nat) (hj : ∀ t ∈ l, st.index_points_.at t ≠ j) :
    (l.foldl step st).p[j]? = st.p[j]? := by
  induction l generalizing st with
  | nil => rfl
  | cons it l ih =>
    have hat : ∀ t, (step st it).index_points_.at t = st.index_points_.at t := by
      intro t
      rw [hs.index st it hI, IndexMap.at_touch]
    rw [List.foldl_cons, ih _ (hs.inv st it hI), hs.p st it hI]
    · exact List.getElem?_set_ne (hj it (List.mem_cons_self _ _))
    · intro t ht
      rw [hat]
      exact hj t (List.mem_cons_of_mem _ ht)

theorem StepSpec.foldl_p {step f u Inv} (hs : StepSpec step f u Inv) (l : List SourcePtr)
    (hl : l.Nodup) (st : LoopState) (hI : Inv st)
    (hinj : ∀ s ∈ l, ∀ t ∈ l, st.index_points_.at s = st.index_points_.at t → s = t)
    (hlt : ∀ s ∈ l, st.index_points_.at s < st.p.length) (s : SourcePtr) (hs1 : s ∈ l) :
    (l.foldl step st).p[st.index_points_.at s]? = some ((l.foldl step st).heap s).mixingPos := by
  induction l generalizing st with
  | nil => simp at hs1
  | cons it l ih =>
    have hit : it ∉ l := (List.nodup_cons.1 hl).1
    have hl2 : l.Nodup := (List.nodup_cons.1 hl).2
    have hI1 := hs.inv st it hI
    have hat : ∀ t, (step st it).index_points_.at t = st.index_points_.at t := by
      intro t
      rw [hs.index st it hI, IndexMap.at_touch]
    have hlen : (step st it).p.length = st.p.length := by
      rw [hs.p st it hI, List.length_set]
    rw [List.foldl_cons]
    by_cases hsi : s = it
    · subst hsi
      rw [StepSpec.foldl_p_other hs l _ hI1, StepSpec.foldl_heap hs l hl2 _ hI1, if_neg hit,
        hs.p st s hI]
      · rw [List.getElem?_set_self (hlt s (List.mem_cons_self _ _))]
      · intro t ht
        rw [hat]
        intro e
        have := hinj t (List.mem_cons_of_mem _ ht) s (List.mem_cons_self _ _) e
        exact hit (this ▸ ht)
    · have hsl : s ∈ l := by
        rcases List.mem_cons.1 hs1 with h | h
        · exact absurd h hsi
        · exact h
      have := ih hl2 (step st it) hI1
        (fun a ha b hb e => hinj a (List.mem_cons_of_mem _ ha) b (List.mem_cons_of_mem _ hb)
          (by rw [← hat a, ← hat b]; exact e))
        (fun a ha => by rw [hat, hlen]; exact hlt a (List.mem_cons_of_mem _ ha)) hsl
      rw [hat] at this
      exact this

theorem grabAllStep_spec (u : SourcePtr) (d : vec2) :
    StepSpec (grabAllStep u d) (fun q => ⟨q.x + d.x, q.y + d.y⟩) u (fun _ => True) where
  inv := fun _ _ _ => trivial
  heap := by
    intro st it _
    by_cases hc : it ≠ u ∧ (st.heap it).locked = false
    · simp [grabAllStep, movedSource, hc]
    · simp [grabAllStep, movedSource, hc]
  p := fun _ _ _ => rfl
  index := fun _ _ _ => rfl

theorem rotateAllStep_spec (u : SourcePtr) (angle dist : ℝ) (c : vec2) :
    StepSpec (rotateAllStep u angle dist) (fun q => glm.rotate (q - c) (-angle) * dist + c) u
      (fun st => st.center_pos_ = c) where
  inv := fun _ _ h => h
  heap := by
    intro st it hI
    by_cases hc : it ≠ u ∧ (st.heap it).locked = false
    · simp [rotateAllStep, movedSource, hc, hI]
    · simp [rotateAllStep, movedSource, hc]
  p := fun _ _ _ => rfl
  index := fun _ _ _ => rfl

theorem grabAll_center (u : SourcePtr) (d : vec2) (l : List SourcePtr) (hl : l.Nodup)
    (st : LoopState) :
    (l.foldl (grabAllStep u d) st).center_pos_ =
      ⟨st.center_pos_.x + (l.map (fun s => ((l.foldl (grabAllStep u d) st).heap s).mixingPos.x)).sum,
       st.center_pos_.y +
        (l.map (fun s => ((l.foldl (grabAllStep u d) st).heap s).mixingPos.y)).sum⟩ := by
  induction l generalizing st with
  | nil => simp
  | cons it l ih =>
    have hit : it ∉ l := (List.nodup_cons.1 hl).1
    have hl2 : l.Nodup := (List.nodup_cons.1 hl).2
    have hh : ((l.foldl (grabAllStep u d) (grabAllStep u d st it)).heap it) =
        (grabAllStep u d st it).heap it := by
      rw [StepSpec.foldl_heap (grabAllStep_spec u d) l hl2 _ trivial, if_neg hit]
    rw [List.foldl_cons, ih hl2, List.map_cons, List.sum_cons, List.map_cons, List.sum_cons, hh]
    have hc : (grabAllStep u d st it).center_pos_ =
        st.center_pos_ + ((grabAllStep u d st it).heap it).mixingPos := rfl
    rw [hc]
    ext <;> simp <;> ring

theorem foldl_add_mixingPos (h : SourceHeap) (l : List SourcePtr) (c : vec2) :
    l.foldl (fun c it => c + (h it).mixingPos) c =
      ⟨c.x + (l.map (fun s => (h s).mixingPos.x)).sum,
       c.y + (l.map (fun s => (h s).mixingPos.y)).sum⟩ := by
  induction l generalizing c with
  | nil => simp
  | cons it l ih =>
    rw [List.foldl_cons, ih]
    ext <;> simp <;> ring

theorem barycenter_eq_meanPos (h : SourceHeap) (l : List SourcePtr) :
    barycenter h l = meanPos h l := by
  unfold barycenter meanPos
  rw [foldl_add_mixingPos]
  ext <;> simp

/-! ## The branches of `MixingGroup::update` -/

theorem MixingGroup.setActive_live (g : MixingGroup) (on_ : Bool) (l : LineLoop)
    (hl : g.lines_ = LinesPtr.live l) :
    ∃ g1 l1, g.setActive on_ = some g1 ∧ g1.lines_ = LinesPtr.live l1 ∧ l1.path_ = l.path_ ∧
      g1.sources_ = g.sources_ ∧ g1.center_pos_ = g.center_pos_ ∧
      g1.index_points_ = g.index_points_ ∧ g1.update_action_ = g.update_action_ ∧
      g1.updated_source_ = g.updated_source_ :=
  ⟨{ g with
      active_ := on_
      lines_ := LinesPtr.live { l with alpha := if on_ then 0.96 else 0.5 }
      center_ := { g.center_ with visible_ := decide (g.update_action_ ≠ Action.ACTION_NONE) } },
    { l with alpha := if on_ then 0.96 else 0.5 },
    by simp [MixingGroup.setActive, hl], rfl, rfl, rfl, rfl, rfl, rfl, rfl⟩

theorem MixingGroup.update_grabAll (g : MixingGroup) (h : SourceHeap) (cur : Option SourcePtr)
    (l : LineLoop) (u : SourcePtr) (hl : g.lines_ = LinesPtr.live l)
    (ha : g.update_action_ = Action.ACTION_GRAB_ALL) (hu : g.updated_source_ = some u) :
    ∃ (g1 : MixingGroup) (l1 : LineLoop), g.update h cur = some (MixingGroup.done (g1.grabAll l1 h u)) ∧
      l1.path_ = l.path_ ∧ g1.sources_ = g.sources_ ∧ g1.center_pos_ = g.center_pos_ ∧
      g1.index_points_ = g.index_points_ := by
  obtain ⟨g1, l1, h1, h2, h3, h4, h5, h6, h7, h8⟩ := MixingGroup.setActive_live g
    (match cur with
      | some c => decide (c ∈ g.sources_)
      | none => false) l hl
  refine ⟨g1, l1, ?_, h3, h4, h5, h6⟩
  simp only [MixingGroup.update, h1, h2, h8, hu, h7, ha]

theorem MixingGroup.update_rotateAll (g : MixingGroup) (h : SourceHeap) (cur : Option SourcePtr)
    (l : LineLoop) (u : SourcePtr) (hl : g.lines_ = LinesPtr.live l)
    (ha : g.update_action_ = Action.ACTION_ROTATE_ALL) (hu : g.updated_source_ = some u) :
    ∃ (g1 : MixingGroup) (l1 : LineLoop), g.update h cur = some (MixingGroup.done (g1.rotateAll l1 h u)) ∧
      l1.path_ = l.path_ ∧ g1.sources_ = g.sources_ ∧ g1.center_pos_ = g.center_pos_ ∧
      g1.index_points_ = g.index_points_ := by
  obtain ⟨g1, l1, h1, h2, h3, h4, h5, h6, h7, h8⟩ := MixingGroup.setActive_live g
    (match cur with
      | some c => decide (c ∈ g.sources_)
      | none => false) l hl
  refine ⟨g1, l1, ?_, h3, h4, h5, h6⟩
  simp only [MixingGroup.update, h1, h2, h8, hu, h7, ha]

theorem MixingGroup.update_grabOne (g : MixingGroup) (h : SourceHeap) (cur : Option SourcePtr)
    (l : LineLoop) (u : SourcePtr) (hl : g.lines_ = LinesPtr.live l)
    (ha : g.update_action_ = Action.ACTION_GRAB_ONE) (hu : g.updated_source_ = some u) :
    ∃ g2, g.update h cur = some (g2, h) ∧ g2.sources_ = g.sources_ ∧
      g2.center_pos_ = barycenter h g.sources_ := by
  obtain ⟨g1, l1, h1, h2, h3, h4, h5, h6, h7, h8⟩ := MixingGroup.setActive_live g
    (match cur with
      | some c => decide (c ∈ g.sources_)
      | none => false) l hl
  have hmove : ∃ g2, g1.move h u = some g2 ∧ g2.sources_ = g.sources_ := by
    by_cases hm : u ∈ g1.sources_
    · exact ⟨{ g1 with
          index_points_ := g1.index_points_.touch u
          lines_ := LinesPtr.live (l1.editPath (g1.index_points_.at u) (h u).mixingPos) },
        by simp only [MixingGroup.move, hm, h2, if_true], h4⟩
    · exact ⟨g1, by simp only [MixingGroup.move, hm, if_false], h4⟩
  obtain ⟨g2, hm1, hm2⟩ := hmove
  have e : g.update h cur = (g1.grabOne h u).map MixingGroup.done := by
    simp only [MixingGroup.update, h1, h2, h8, hu, h7, ha]
  have e2 : g1.grabOne h u = some ({ g2 with
      center_pos_ := barycenter h g2.sources_
      center_ := { g2.center_ with
        translation_ := ⟨(barycenter h g2.sources_).x, (barycenter h g2.sources_).y, 0⟩ } },
      h) := by
    simp only [MixingGroup.grabOne, hm1]
  rw [e, e2]
  exact ⟨_, rfl, by simp [MixingGroup.done, hm2], by simp [MixingGroup.done, hm2]⟩

theorem StepSpec.foldl_heap_fixed {step f u Inv} (hs : StepSpec step f u Inv)
    (l : List SourcePtr) (st : LoopState) (hI : Inv st) (s : SourcePtr)
    (hfix : s = u ∨ (st.heap s).locked = true) : (l.foldl step st).heap s = st.heap s := by
  induction l generalizing st with
  | nil => rfl
  | cons it l ih =>
    have e : (step st it).heap s = st.heap s := by
      rw [hs.heap st it hI]
      by_cases hsi : s = it
      · subst hsi
        rcases hfix with h1 | h1
        · simp [h1, movedSource_of_moved]
        · simp [movedSource_of_locked _ _ _ _ h1]
      · simp [Function.update_noteq hsi]
    rw [List.foldl_cons, ih _ (hs.inv st it hI), e]
    rw [e]
    exact hfix

theorem MixingGroup.Linked.at_eq {g : MixingGroup} {l : LineLoop} (hL : g.Linked l)
    {s : SourcePtr} (hs : s ∈ g.sources_) : g.index_points_.at s = g.sources_.indexOf s := by
  simp [IndexMap.at, hL.index s hs]

theorem StepSpec.loop_linked {step f u Inv} (hs : StepSpec step f u Inv) (g : MixingGroup)
    (l : LineLoop) (hL : g.Linked l) (st : LoopState) (hI : Inv st) (hp : st.p = l.path_)
    (hi : st.index_points_ = g.index_points_.touch u) :
    (∀ s, (g.sources_.foldl step st).heap s =
      if s ∈ g.sources_ then movedSource f u s (st.heap s) else st.heap s) ∧
    (∀ s ∈ g.sources_, (g.sources_.foldl step st).p[g.index_points_.at s]? =
      some ((g.sources_.foldl step st).heap s).mixingPos) ∧
    (g.sources_.foldl step st).p.length = g.sources_.length ∧
    (∀ t, (g.sources_.foldl step st).index_points_.at t = g.index_points_.at t) := by
  have hat : ∀ t, st.index_points_.at t = g.index_points_.at t := by
    intro t
    rw [hi, IndexMap.at_touch]
  refine ⟨fun s => StepSpec.foldl_heap hs _ hL.nodup st hI s, ?_, ?_, ?_⟩
  · intro s hsm
    rw [← hat s]
    refine StepSpec.foldl_p hs _ hL.nodup st hI ?_ ?_ s hsm
    · intro a ha b hb e
      rw [hat, hat, hL.at_eq ha, hL.at_eq hb] at e
      have := congrArg (fun i => g.sources_.get? i) e
      simpa [List.get?_eq_getElem?, List.getElem?_eq_getElem (List.indexOf_lt_length.2 ha),
        List.getElem?_eq_getElem (List.indexOf_lt_length.2 hb)] using this
    · intro a ha
      rw [hat, hL.at_eq ha, hp, hL.length]
      exact List.indexOf_lt_length.2 ha
  · rw [StepSpec.foldl_length hs _ st hI, hp, hL.length]
  · intro t
    rw [StepSpec.foldl_at hs _ st hI, hat]

theorem pairGroup_linked (a : Action) :
    (pairGroup a).Linked { path_ := [⟨0, 0⟩, ⟨2, 0⟩] } where
  nodup := by simp [pairGroup]
  lines := rfl
  length := rfl
  index := by
    intro s hs
    simp only [pairGroup, List.mem_cons, List.mem_singleton, List.not_mem_nil, or_false] at hs
    rcases hs with rfl | rfl <;> simp [pairGroup, List.indexOf_cons]

/-! ## GRAB_ALL -/

/-- C3: on a linked group with `ACTION_GRAB_ALL` pending for the moved source `u`,
`MixingGroup::update` returns, and every other member that is not locked has had its MIXING
`(x, y)` translation increased by the displacement `d` of `u` (its current position minus its
recorded path point), its path point being set to the new position. -/
theorem MixingGroup.grabAll_displacement (g : MixingGroup) (h : SourceHeap)
    (cur : Option SourcePtr) (l : LineLoop) (u : SourcePtr) (hL : g.Linked l)
    (ha : g.update_action_ = Action.ACTION_GRAB_ALL) (hu : g.updated_source_ = some u) :
    ∃ g1 h1 l1, g.update h cur = some (g1, h1) ∧ g1.lines_ = LinesPtr.live l1 ∧
      ∀ s ∈ g.sources_, s ≠ u → (h s).locked = false →
        (h1 s).mixingPos.x = (h s).mixingPos.x +
          ((h u).mixingPos.x - (l.path_.getD (g.index_points_.at u) 0).x) ∧
        (h1 s).mixingPos.y = (h s).mixingPos.y +
          ((h u).mixingPos.y - (l.path_.getD (g.index_points_.at u) 0).y) ∧
        l1.path_[g1.index_points_.at s]? = some (h1 s).mixingPos := by
  obtain ⟨g0, l0, e, hp, hs, -, hi⟩ := MixingGroup.update_grabAll g h cur l u hL.lines ha hu
  obtain ⟨k1, k2, -, k4⟩ := StepSpec.loop_linked
    (grabAllStep_spec u ((h u).mixingPos - l.path_.getD (g.index_points_.at u) 0)) g l hL
    { heap := h, p := l.path_, index_points_ := g.index_points_.touch u, center_pos_ := ⟨0, 0⟩ }
    trivial rfl rfl
  refine ⟨_, _, _, e, rfl, ?_⟩
  intro s hsm hne hlk
  simp only [MixingGroup.done, MixingGroup.grabAll, LineLoop.path, LineLoop.changePath, hp, hs, hi]
  have e1 := k1 s
  rw [if_pos hsm] at e1
  simp only at e1
  refine ⟨?_, ?_, ?_⟩
  · rw [e1, movedSource_mixingPos _ _ _ _ hne hlk]
    simp
  · rw [e1, movedSource_mixingPos _ _ _ _ hne hlk]
    simp
  · rw [k4 s]
    exact k2 s hsm

/-- C3 on the group of sources at `(0, 0)` and `(2, 0)`, the first dragged to `(0, 1)`: the
second ends at `(2, 1)`. -/
theorem MixingGroup.grabAll_displacement_witness :
    ∃ g1 h1, (pairGroup Action.ACTION_GRAB_ALL).update (movedHeap false) none = some (g1, h1) ∧
      (h1 2).mixingPos = ⟨2, 1⟩ := by
  obtain ⟨g1, h1, l1, e, -, hall⟩ := MixingGroup.grabAll_displacement
    (pairGroup Action.ACTION_GRAB_ALL) (movedHeap false) none _ 1
    (pairGroup_linked Action.ACTION_GRAB_ALL) rfl rfl
  obtain ⟨hx, hy, -⟩ := hall 2 (by simp [pairGroup]) (by decide) rfl
  refine ⟨g1, h1, e, ?_⟩
  ext
  · rw [hx]
    simp [movedHeap, sourceAt, Source.mixingPos, pairGroup, IndexMap.at]
  · rw [hy]
    simp [movedHeap, sourceAt, Source.mixingPos, pairGroup, IndexMap.at]

/-- C4: with `ACTION_GRAB_ALL` pending for the moved source `u`, `MixingGroup::update` returns and
leaves the MIXING translation of every locked source other than `u` (so of every locked member)
as it was. -/
theorem MixingGroup.grabAll_locked_unchanged (g : MixingGroup) (h : SourceHeap)
    (cur : Option SourcePtr) (l : LineLoop) (u : SourcePtr) (hl : g.lines_ = LinesPtr.live l)
    (ha : g.update_action_ = Action.ACTION_GRAB_ALL) (hu : g.updated_source_ = some u) :
    ∃ g1 h1, g.update h cur = some (g1, h1) ∧
      ∀ s, s ≠ u → (h s).locked = true →
        ((h1 s).groups_ View.MIXING).translation_ = ((h s).groups_ View.MIXING).translation_ := by
  obtain ⟨g0, l0, e, -, -, -, -⟩ := MixingGroup.update_grabAll g h cur l u hl ha hu
  refine ⟨_, _, e, ?_⟩
  intro s _ hlk
  simp only [MixingGroup.done, MixingGroup.grabAll]
  rw [StepSpec.foldl_heap_fixed (grabAllStep_spec u _) _ _ trivial s (Or.inr hlk)]

/-- C4 on the group of sources at `(0, 0)` and `(2, 0)`, the second locked and the first dragged
to `(0, 1)`: the second stays at `(2, 0)`. -/
theorem MixingGroup.grabAll_locked_unchanged_witness :
    ∃ g1 h1, (pairGroup Action.ACTION_GRAB_ALL).update (movedHeap true) none = some (g1, h1) ∧
      ((h1 2).groups_ View.MIXING).translation_ = ⟨2, 0, 0⟩ := by
  obtain ⟨g1, h1, e, hall⟩ := MixingGroup.grabAll_locked_unchanged
    (pairGroup Action.ACTION_GRAB_ALL) (movedHeap true) none _ 1 rfl rfl rfl
  refine ⟨g1, h1, e, ?_⟩
  rw [hall 2 (by decide) rfl]
  simp [movedHeap, sourceAt]

/-! ## glm: angles and rotations -/

theorem vec2.sub_ne_zero {a b : vec2} (h : a ≠ b) : a - b ≠ 0 := by
  intro e
  apply h
  have hx := congrArg vec2.x e
  have hy := congrArg vec2.y e
  simp at hx hy
  ext <;> linarith

theorem glm.dot_self_pos {v : vec2} (hv : v ≠ 0) : 0 < glm.dot v v := by
  unfold glm.dot
  have h : v.x ≠ 0 ∨ v.y ≠ 0 := by
    by_contra hc
    push_neg at hc
    exact hv (by ext <;> simp [hc.1, hc.2])
  rcases h with h | h
  · have := mul_self_pos.2 h
    nlinarith [mul_self_nonneg v.y]
  · have := mul_self_pos.2 h
    nlinarith [mul_self_nonneg v.x]

theorem glm.length_pos {v : vec2} (hv : v ≠ 0) : 0 < glm.length v :=
  Real.sqrt_pos.2 (glm.dot_self_pos hv)

theorem glm.length_mul_self (v : vec2) : glm.length v * glm.length v = v.x * v.x + v.y * v.y := by
  unfold glm.length
  rw [Real.mul_self_sqrt]
  · rfl
  · unfold glm.dot
    nlinarith [mul_self_nonneg v.x, mul_self_nonneg v.y]

theorem glm.normalize_eq (v : vec2) :
    glm.normalize v = ⟨v.x / glm.length v, v.y / glm.length v⟩ := by
  unfold glm.normalize glm.length
  ext <;> simp [div_eq_mul_inv]

theorem glm.normalize_unit {v : vec2} (hv : v ≠ 0) :
    (glm.normalize v).x * (glm.normalize v).x + (glm.normalize v).y * (glm.normalize v).y = 1 := by
  have hp := glm.length_pos hv
  have hs := glm.length_mul_self v
  rw [glm.normalize_eq]
  field_simp
  linarith

theorem glm.normalize_mul_length {v : vec2} (hv : v ≠ 0) :
    glm.normalize v * glm.length v = v := by
  have hp := glm.length_pos hv
  rw [glm.normalize_eq]
  ext <;> simp <;> field_simp

/-- For a unit vector `n`, `glm::orientedAngle(n, (1, 0))` is an angle with cosine `n.x` and sine
`-n.y`: the opposite of the polar angle of `n`. -/
theorem glm.cos_sin_orientedAngle {n : vec2} (hn : n.x * n.x + n.y * n.y = 1) :
    Real.cos (glm.orientedAngle n ⟨1, 0⟩) = n.x ∧ Real.sin (glm.orientedAngle n ⟨1, 0⟩) = -n.y := by
  have hx1 : -1 ≤ n.x := by nlinarith [mul_self_nonneg n.y, mul_self_nonneg (n.x + 1)]
  have hx2 : n.x ≤ 1 := by nlinarith [mul_self_nonneg n.y, mul_self_nonneg (n.x - 1)]
  have hc : glm.clamp (glm.dot n ⟨1, 0⟩) (-1) 1 = n.x := by
    unfold glm.clamp glm.dot
    simp only [mul_one, mul_zero, add_zero]
    rw [max_eq_left hx1, min_eq_left hx2]
  have hsq : Real.sqrt (1 - n.x ^ 2) = |n.y| := by
    rw [← Real.sqrt_sq_eq_abs]
    congr 1
    nlinarith
  unfold glm.orientedAngle
  simp only [hc, mul_zero, one_mul, zero_sub]
  by_cases hy : -n.y > 0
  · rw [if_pos hy, Real.cos_arccos hx1 hx2, Real.sin_arccos, hsq, abs_of_neg (by linarith)]
    exact ⟨rfl, rfl⟩
  · rw [if_neg hy, Real.cos_neg, Real.sin_neg, Real.cos_arccos hx1 hx2, Real.sin_arccos, hsq,
      abs_of_nonneg (by linarith)]
    exact ⟨rfl, rfl⟩

/-- The rotation by the difference of the oriented angles of two unit vectors takes the first to
the second. -/
theorem glm.rotate_unit {a b : vec2} (ha : a.x * a.x + a.y * a.y = 1)
    (hb : b.x * b.x + b.y * b.y = 1) :
    glm.rotate a (-(glm.orientedAngle b ⟨1, 0⟩ - glm.orientedAngle a ⟨1, 0⟩)) = b := by
  obtain ⟨ca, sa⟩ := glm.cos_sin_orientedAngle ha
  obtain ⟨cb, sb⟩ := glm.cos_sin_orientedAngle hb
  unfold glm.rotate
  rw [neg_sub, Real.cos_sub, Real.sin_sub, ca, sa, cb, sb]
  ext
  · simp only
    linear_combination b.x * ha
  · simp only
    linear_combination b.y * ha

theorem glm.rotate_mul (v : vec2) (k θ : ℝ) : glm.rotate (v * k) θ = glm.rotate v θ * k := by
  unfold glm.rotate
  ext <;> simp <;> ring

/-- The rotation and scaling computed by the `ACTION_ROTATE_ALL` branch take the recorded offset
of the moved source to its current offset. -/
theorem rotate_moved {pos vertex center : vec2} (hold : vertex ≠ center) (hnew : pos ≠ center) :
    glm.rotate (glm.normalize (vertex - center)) (-rotateAngle pos vertex center) =
      glm.normalize (pos - center) ∧
    glm.rotate (vertex - center) (-rotateAngle pos vertex center) *
      rotateDist pos vertex center + center = pos := by
  have h0 := vec2.sub_ne_zero hold
  have h1 := vec2.sub_ne_zero hnew
  have hr := glm.rotate_unit (glm.normalize_unit h0) (glm.normalize_unit h1)
  refine ⟨hr, ?_⟩
  have hl0 := glm.length_pos h0
  have e : glm.rotate (vertex - center) (-rotateAngle pos vertex center) =
      glm.normalize (pos - center) * glm.length (vertex - center) := by
    conv_lhs => rw [← glm.normalize_mul_length h0, glm.rotate_mul]
    unfold rotateAngle
    rw [hr]
  have e2 : glm.normalize (pos - center) * glm.length (vertex - center) *
      rotateDist pos vertex center = pos - center := by
    conv_rhs => rw [← glm.normalize_mul_length h1]
    unfold rotateDist
    ext <;> simp <;> field_simp <;> ring
  rw [e, e2]
  ext <;> simp

theorem glm.cos_sin_between {a b : vec2} (ha : a.x * a.x + a.y * a.y = 1)
    (hb : b.x * b.x + b.y * b.y = 1) :
    Real.cos (-(glm.orientedAngle b ⟨1, 0⟩ - glm.orientedAngle a ⟨1, 0⟩)) =
      a.x * b.x + a.y * b.y ∧
    Real.sin (-(glm.orientedAngle b ⟨1, 0⟩ - glm.orientedAngle a ⟨1, 0⟩)) =
      a.x * b.y - a.y * b.x := by
  obtain ⟨ca, sa⟩ := glm.cos_sin_orientedAngle ha
  obtain ⟨cb, sb⟩ := glm.cos_sin_orientedAngle hb
  rw [neg_sub, Real.cos_sub, Real.sin_sub, ca, sa, cb, sb]
  constructor <;> ring

/-- The rotation and scaling computed by the `ACTION_ROTATE_ALL` branch, in coordinates: with
`a` the recorded and `b` the current offset of the moved source from the centre, an offset `w`
is taken to `((a·b) w + (a×b) w⊥) / (a·a)`. -/
theorem rotate_explicit {pos vertex center : vec2} (hold : vertex ≠ center)
    (hnew : pos ≠ center) (w : vec2) :
    glm.rotate w (-rotateAngle pos vertex center) * rotateDist pos vertex center =
      ⟨(w.x * ((vertex.x - center.x) * (pos.x - center.x) +
                (vertex.y - center.y) * (pos.y - center.y)) -
        w.y * ((vertex.x - center.x) * (pos.y - center.y) -
                (vertex.y - center.y) * (pos.x - center.x))) /
          ((vertex.x - center.x) * (vertex.x - center.x) +
            (vertex.y - center.y) * (vertex.y - center.y)),
       (w.x * ((vertex.x - center.x) * (pos.y - center.y) -
                (vertex.y - center.y) * (pos.x - center.x)) +
        w.y * ((vertex.x - center.x) * (pos.x - center.x) +
                (vertex.y - center.y) * (pos.y - center.y))) /
          ((vertex.x - center.x) * (vertex.x - center.x) +
            (vertex.y - center.y) * (vertex.y - center.y))⟩ := by
  have h0 := vec2.sub_ne_zero hold
  have h1 := vec2.sub_ne_zero hnew
  have hl0 := glm.length_pos h0
  have hl1 := glm.length_pos h1
  have hs0 := glm.length_mul_self (vertex - center)
  obtain ⟨hc, hs⟩ := glm.cos_sin_between (glm.normalize_unit h0) (glm.normalize_unit h1)
  have hc2 : Real.cos (-rotateAngle pos vertex center) =
      (vertex.x - center.x) / glm.length (vertex - center) *
        ((pos.x - center.x) / glm.length (pos - center)) +
      (vertex.y - center.y) / glm.length (vertex - center) *
        ((pos.y - center.y) / glm.length (pos - center)) := by
    unfold rotateAngle
    rw [hc, glm.normalize_eq (vertex - center), glm.normalize_eq (pos - center)]
    rfl
  have hs2 : Real.sin (-rotateAngle pos vertex center) =
      (vertex.x - center.x) / glm.length (vertex - center) *
        ((pos.y - center.y) / glm.length (pos - center)) -
      (vertex.y - center.y) / glm.length (vertex - center) *
        ((pos.x - center.x) / glm.length (pos - center)) := by
    unfold rotateAngle
    rw [hs, glm.normalize_eq (vertex - center), glm.normalize_eq (pos - center)]
    rfl
  simp only [vec2.sub_x, vec2.sub_y] at hs0
  unfold glm.rotate rotateDist
  simp only [hc2, hs2]
  rw [← hs0]
  ext
  · simp only [vec2.mul_x]
    field_simp
    ring
  · simp only [vec2.mul_y]
    field_simp
    ring

/-! ## ROTATE_ALL -/

/-- C9: with `ACTION_ROTATE_ALL` pending for the moved source `u`, whose recorded path point
`p_old` and current position `p_new` both differ from the centre `c`, `MixingGroup::update`
returns, and there is an angle `θ` whose rotation takes the direction of `p_old - c` to the
direction of `p_new - c` such that, with `k = |p_new - c| / |p_old - c|`, the map
`q ↦ c + k R(θ) (q - c)` takes `p_old` to `p_new` and every other unlocked member from its
position to its new position. -/
theorem MixingGroup.rotateAll_same_rotation (g : MixingGroup) (h : SourceHeap)
    (cur : Option SourcePtr) (l : LineLoop) (u : SourcePtr) (hl : g.lines_ = LinesPtr.live l)
    (hn : g.sources_.Nodup) (ha : g.update_action_ = Action.ACTION_ROTATE_ALL)
    (hu : g.updated_source_ = some u)
    (hold : l.path_.getD (g.index_points_.at u) 0 ≠ g.center_pos_)
    (hnew : (h u).mixingPos ≠ g.center_pos_) :
    ∃ g1 h1 θ, g.update h cur = some (g1, h1) ∧
      glm.rotate (glm.normalize (l.path_.getD (g.index_points_.at u) 0 - g.center_pos_)) θ =
        glm.normalize ((h u).mixingPos - g.center_pos_) ∧
      glm.rotate (l.path_.getD (g.index_points_.at u) 0 - g.center_pos_) θ *
          (glm.length ((h u).mixingPos - g.center_pos_) /
            glm.length (l.path_.getD (g.index_points_.at u) 0 - g.center_pos_)) +
        g.center_pos_ = (h u).mixingPos ∧
      ∀ s ∈ g.sources_, s ≠ u → (h s).locked = false →
        (h1 s).mixingPos =
          glm.rotate ((h s).mixingPos - g.center_pos_) θ *
            (glm.length ((h u).mixingPos - g.center_pos_) /
              glm.length (l.path_.getD (g.index_points_.at u) 0 - g.center_pos_)) +
          g.center_pos_ := by
  obtain ⟨g0, l0, e, hp, hs, hc, hi⟩ := MixingGroup.update_rotateAll g h cur l u hl ha hu
  obtain ⟨r1, r2⟩ := rotate_moved hold hnew
  refine ⟨_, _, -rotateAngle (h u).mixingPos (l.path_.getD (g.index_points_.at u) 0)
    g.center_pos_, e, r1, r2, ?_⟩
  intro s hsm hne hlk
  simp only [MixingGroup.done, MixingGroup.rotateAll, LineLoop.path, hp, hs, hc, hi]
  rw [StepSpec.foldl_heap (rotateAllStep_spec u _ _ g.center_pos_) _ hn _ rfl s, if_pos hsm,
    movedSource_mixingPos _ _ _ _ hne hlk]
  rfl

theorem pairGroup_vertex (a : Action) :
    ([⟨0, 0⟩, ⟨2, 0⟩] : List vec2).getD ((pairGroup a).index_points_.at 1) 0 = ⟨0, 0⟩ := by
  simp [pairGroup, IndexMap.at]

theorem movedHeap_pos_one (b : Bool) : (movedHeap b 1).mixingPos = ⟨0, 1⟩ := by
  simp [movedHeap, sourceAt, Source.mixingPos, vec3.xy]

theorem movedHeap_pos_two (b : Bool) : (movedHeap b 2).mixingPos = ⟨2, 0⟩ := by
  simp [movedHeap, sourceAt, Source.mixingPos, vec3.xy]

/-- C9 on the group of sources at `(0, 0)` and `(2, 0)` with centre `(1, 0)`, the first dragged
to `(0, 1)`: the second ends at `(2, -1)`. -/
theorem MixingGroup.rotateAll_same_rotation_witness :
    ∃ g1 h1, (pairGroup Action.ACTION_ROTATE_ALL).update (movedHeap false) none = some (g1, h1) ∧
      (h1 2).mixingPos = ⟨2, -1⟩ := by
  obtain ⟨g1, h1, θ, e, -, r2, hall⟩ := MixingGroup.rotateAll_same_rotation
    (pairGroup Action.ACTION_ROTATE_ALL) (movedHeap false) none { path_ := [⟨0, 0⟩, ⟨2, 0⟩] } 1
    rfl (by simp [pairGroup]) rfl rfl
    (by
      rw [pairGroup_vertex]
      intro e
      have := congrArg vec2.x e
      simp [pairGroup] at this)
    (by
      rw [movedHeap_pos_one]
      intro e
      have := congrArg vec2.x e
      simp [pairGroup] at this)
  have h2 := hall 2 (by simp [pairGroup]) (by decide) rfl
  refine ⟨g1, h1, e, ?_⟩
  rw [pairGroup_vertex, movedHeap_pos_one] at r2
  rw [pairGroup_vertex, movedHeap_pos_one, movedHeap_pos_two] at h2
  have hx := congrArg vec2.x r2
  have hy := congrArg vec2.y r2
  simp [glm.rotate, pairGroup] at hx hy
  rw [h2]
  ext
  · simp [glm.rotate, pairGroup]
    linarith
  · simp [glm.rotate, pairGroup]
    linarith

/-! ## The centroid after an update -/

theorem sum_affine (L : List vec2) (A B cx cy d : ℝ) :
    (L.map (fun q => ((q.x - cx) * A + (q.y - cy) * B) + d)).sum =
      A * ((L.map vec2.x).sum - L.length * cx) + B * ((L.map vec2.y).sum - L.length * cy) +
        L.length * d := by
  induction L with
  | nil => simp
  | cons q L ih =>
    simp only [List.map_cons, List.sum_cons, List.length_cons, Nat.cast_succ, ih]
    ring

theorem MixingGroup.Linked.path_eq {g : MixingGroup} {l : LineLoop} (hL : g.Linked l) :
    l.path_ = g.sources_.map (fun s => l.path_.getD (g.index_points_.at s) 0) := by
  apply List.ext_getElem
  · simp [hL.length]
  · intro i h1 h2
    have hi : i < g.sources_.length := by simpa using h2
    have hm : g.sources_[i] ∈ g.sources_ := List.getElem_mem hi
    simp only [List.getElem_map, hL.at_eq hm]
    rw [List.indexOf_getElem hL.nodup i hi]
    simp [List.getD_eq_getElem?_getD, h1]

theorem meanPos_of_sums (h : SourceHeap) (l : List SourcePtr) (c : vec2) (hne : l ≠ [])
    (hx : (l.map (fun s => (h s).mixingPos.x)).sum = l.length * c.x)
    (hy : (l.map (fun s => (h s).mixingPos.y)).sum = l.length * c.y) : c = meanPos h l := by
  have hn : (l.length : ℝ) ≠ 0 := by
    have : l.length ≠ 0 := fun e => hne (List.length_eq_zero.1 e)
    exact_mod_cast this
  unfold meanPos
  ext
  · simp only [hx]
    field_simp
  · simp only [hy]
    field_simp

theorem MixingGroup.grabOne_centroid (g : MixingGroup) (h : SourceHeap)
    (cur : Option SourcePtr) (l : LineLoop) (u : SourcePtr) (hl : g.lines_ = LinesPtr.live l)
    (ha : g.update_action_ = Action.ACTION_GRAB_ONE) (hu : g.updated_source_ = some u) :
    ∃ g1 h1, g.update h cur = some (g1, h1) ∧ g1.center_pos_ = meanPos h1 g1.sources_ := by
  obtain ⟨g2, e, hs, hc⟩ := MixingGroup.update_grabOne g h cur l u hl ha hu
  exact ⟨g2, h, e, by rw [hc, hs, barycenter_eq_meanPos]⟩

theorem MixingGroup.grabAll_centroid (g : MixingGroup) (h : SourceHeap)
    (cur : Option SourcePtr) (l : LineLoop) (u : SourcePtr) (hl : g.lines_ = LinesPtr.live l)
    (hn : g.sources_.Nodup)
    (ha : g.update_action_ = Action.ACTION_GRAB_ALL) (hu : g.updated_source_ = some u) :
    ∃ g1 h1, g.update h cur = some (g1, h1) ∧ g1.center_pos_ = meanPos h1 g1.sources_ := by
  obtain ⟨g0, l0, e, hp, hs, -, hi⟩ := MixingGroup.update_grabAll g h cur l u hl ha hu
  refine ⟨_, _, e, ?_⟩
  simp only [MixingGroup.done, MixingGroup.grabAll, LineLoop.path, hp, hs, hi]
  rw [grabAll_center u _ g.sources_ hn]
  unfold meanPos
  ext <;> simp

theorem MixingGroup.rotateAll_centroid (g : MixingGroup) (h : SourceHeap)
    (cur : Option SourcePtr) (l : LineLoop) (u : SourcePtr) (hl : g.lines_ = LinesPtr.live l)
    (ha : g.update_action_ = Action.ACTION_ROTATE_ALL) (hu : g.updated_source_ = some u) :
    ∃ g1 h1, g.update h cur = some (g1, h1) ∧ g1.center_pos_ = g.center_pos_ ∧
      g1.sources_ = g.sources_ ∧
      (∀ s, s = u ∨ (h s).locked = true → h1 s = h s) ∧
      (g.sources_.Nodup → ∀ s ∈ g.sources_, s ≠ u → (h s).locked = false →
        (h1 s).mixingPos =
          glm.rotate ((h s).mixingPos - g.center_pos_)
              (-rotateAngle (h u).mixingPos (l.path_.getD (g.index_points_.at u) 0)
                g.center_pos_) *
            rotateDist (h u).mixingPos (l.path_.getD (g.index_points_.at u) 0) g.center_pos_ +
          g.center_pos_) := by
  obtain ⟨g0, l0, e, hp, hs, hc, hi⟩ := MixingGroup.update_rotateAll g h cur l u hl ha hu
  refine ⟨_, _, e, ?_, ?_, ?_, ?_⟩
  · simp only [MixingGroup.done, MixingGroup.rotateAll, hc]
  · simp only [MixingGroup.done, MixingGroup.rotateAll, hs]
  · intro s hfix
    simp only [MixingGroup.done, MixingGroup.rotateAll, hc]
    exact StepSpec.foldl_heap_fixed (rotateAllStep_spec u _ _ g.center_pos_) _ _ rfl s hfix
  · intro hn s hsm hne hlk
    simp only [MixingGroup.done, MixingGroup.rotateAll, LineLoop.path, hp, hs, hc, hi]
    rw [StepSpec.foldl_heap (rotateAllStep_spec u _ _ g.center_pos_) _ hn _ rfl s, if_pos hsm,
      movedSource_mixingPos _ _ _ _ hne hlk]

/-- The centre stays the mean under `ACTION_ROTATE_ALL` when nothing is locked and the other
members sit on their path points. -/
theorem MixingGroup.rotateAll_mean (g : MixingGroup) (h : SourceHeap)
    (cur : Option SourcePtr) (l : LineLoop) (u : SourcePtr) (hL : g.Linked l)
    (ha : g.update_action_ = Action.ACTION_ROTATE_ALL) (hu : g.updated_source_ = some u)
    (hmem : u ∈ g.sources_)
    (hold : l.path_.getD (g.index_points_.at u) 0 ≠ g.center_pos_)
    (hnew : (h u).mixingPos ≠ g.center_pos_)
    (hfree : ∀ s ∈ g.sources_, s ≠ u → (h s).locked = false)
    (hon : ∀ s ∈ g.sources_, s ≠ u → l.path_.getD (g.index_points_.at s) 0 = (h s).mixingPos)
    (hmean : g.center_pos_ = ⟨(l.path_.map vec2.x).sum / (l.path_.length : ℝ),
      (l.path_.map vec2.y).sum / (l.path_.length : ℝ)⟩)
    (g1 : MixingGroup) (h1 : SourceHeap) (e : g.update h cur = some (g1, h1)) :
    g1.center_pos_ = meanPos h1 g1.sources_ := by
  obtain ⟨g2, h2, e2, k1, k2, k3, k4⟩ := MixingGroup.rotateAll_centroid g h cur l u hL.lines ha hu
  rw [e] at e2
  obtain ⟨rfl, rfl⟩ : g1 = g2 ∧ h1 = h2 := by simpa using e2
  obtain ⟨-, r2⟩ := rotate_moved hold hnew
  have hne : g.sources_ ≠ [] := List.ne_nil_of_mem hmem
  have hlen : (l.path_.length : ℝ) ≠ 0 := by
    rw [hL.length]
    have : g.sources_.length ≠ 0 := fun e0 => hne (List.length_eq_zero.1 e0)
    exact_mod_cast this
  have hsx : (l.path_.map vec2.x).sum = l.path_.length * g.center_pos_.x := by
    rw [hmean]
    field_simp
  have hsy : (l.path_.map vec2.y).sum = l.path_.length * g.center_pos_.y := by
    rw [hmean]
    field_simp
  -- every member ends at the image of its path point
  have hpos : ∃ θ k : ℝ, ∀ s ∈ g.sources_, (h1 s).mixingPos =
      glm.rotate (l.path_.getD (g.index_points_.at s) 0 - g.center_pos_) θ * k +
        g.center_pos_ := by
    refine ⟨-rotateAngle (h u).mixingPos (l.path_.getD (g.index_points_.at u) 0) g.center_pos_,
      rotateDist (h u).mixingPos (l.path_.getD (g.index_points_.at u) 0) g.center_pos_,
      fun s hsm => ?_⟩
    by_cases hsu : s = u
    · rw [hsu, k3 u (Or.inl rfl), r2]
    · rw [k4 hL.nodup s hsm hsu (hfree s hsm hsu), hon s hsm hsu]
  obtain ⟨θ, k, hpos⟩ := hpos
  rw [k1, k2]
  apply meanPos_of_sums h1 g.sources_ g.center_pos_ hne
  · have e1 : g.sources_.map (fun s => (h1 s).mixingPos.x) =
        l.path_.map (fun q => ((q.x - g.center_pos_.x) * (Real.cos θ * k) +
          (q.y - g.center_pos_.y) * (-(Real.sin θ * k))) + g.center_pos_.x) := by
      conv_rhs => rw [hL.path_eq, List.map_map]
      apply List.map_congr_left
      intro s hsm
      rw [hpos s hsm]
      simp only [glm.rotate, Function.comp, vec2.add_x, vec2.mul_x, vec2.sub_x, vec2.sub_y]
      ring
    rw [e1, sum_affine, hsx, hsy, hL.length]
    ring
  · have e1 : g.sources_.map (fun s => (h1 s).mixingPos.y) =
        l.path_.map (fun q => ((q.x - g.center_pos_.x) * (Real.sin θ * k) +
          (q.y - g.center_pos_.y) * (Real.cos θ * k)) + g.center_pos_.y) := by
      conv_rhs => rw [hL.path_eq, List.map_map]
      apply List.map_congr_left
      intro s hsm
      rw [hpos s hsm]
      simp only [glm.rotate, Function.comp, vec2.add_y, vec2.mul_y, vec2.sub_x, vec2.sub_y]
      ring
    rw [e1, sum_affine, hsx, hsy, hL.length]
    ring

/-- C2, the code at the failing input: on the group of sources at `(0, 0)` and `(2, 0)` with
centre `(1, 0)`, the second locked and the first dragged to `(0, 1)` under `ACTION_ROTATE_ALL`,
`MixingGroup::update` returns with the centre `(1, 0)` it had on entry, while the mean of the
member positions is `(1, 1/2)`. -/
theorem MixingGroup.rotateAll_centroid_not_mean :
    ∃ g1 h1, (pairGroup Action.ACTION_ROTATE_ALL).update (movedHeap true) none = some (g1, h1) ∧
      g1.center_pos_ = ⟨1, 0⟩ ∧ meanPos h1 g1.sources_ = ⟨1, 1 / 2⟩ ∧
      g1.center_pos_ ≠ meanPos h1 g1.sources_ := by
  obtain ⟨g1, h1, e, k1, k2, k3, -⟩ := MixingGroup.rotateAll_centroid
    (pairGroup Action.ACTION_ROTATE_ALL) (movedHeap true) none _ 1 rfl rfl rfl
  have e1 : h1 1 = movedHeap true 1 := k3 1 (Or.inl rfl)
  have e2 : h1 2 = movedHeap true 2 := k3 2 (Or.inr rfl)
  have hm : meanPos h1 g1.sources_ = ⟨1, 1 / 2⟩ := by
    rw [k2]
    simp only [meanPos, pairGroup, List.map_cons, List.map_nil, e1, e2, movedHeap_pos_one,
      movedHeap_pos_two]
    ext <;> norm_num
  refine ⟨g1, h1, e, k1, hm, ?_⟩
  rw [hm, k1]
  intro e3
  have := congrArg vec2.y e3
  norm_num [pairGroup] at this

/-- The centre after an update, over the reals: on a linked group with an action pending for
`u`, `MixingGroup::update` returns; after `ACTION_GRAB_ONE` or `ACTION_GRAB_ALL` the centre is
the mean of the MIXING positions of all members, locked ones included; after
`ACTION_ROTATE_ALL` the centre is the one on entry, which in exact arithmetic is that mean when
the moved member's old and new positions differ from the centre, no other member is locked,
every other member is on its path point and the centre was the mean of the path points. -/
theorem MixingGroup.update_centroid (g : MixingGroup) (h : SourceHeap) (cur : Option SourcePtr)
    (l : LineLoop) (u : SourcePtr) (hL : g.Linked l) (hu : g.updated_source_ = some u)
    (hact : g.update_action_ ≠ Action.ACTION_NONE) :
    ∃ g1 h1, g.update h cur = some (g1, h1) ∧
      (g.update_action_ = Action.ACTION_GRAB_ONE ∨ g.update_action_ = Action.ACTION_GRAB_ALL →
        g1.center_pos_ = meanPos h1 g1.sources_) ∧
      (g.update_action_ = Action.ACTION_ROTATE_ALL →
        g1.center_pos_ = g.center_pos_ ∧
        (u ∈ g.sources_ →
          l.path_.getD (g.index_points_.at u) 0 ≠ g.center_pos_ →
          (h u).mixingPos ≠ g.center_pos_ →
          (∀ s ∈ g.sources_, s ≠ u → (h s).locked = false) →
          (∀ s ∈ g.sources_, s ≠ u →
            l.path_.getD (g.index_points_.at s) 0 = (h s).mixingPos) →
          g.center_pos_ = ⟨(l.path_.map vec2.x).sum / (l.path_.length : ℝ),
            (l.path_.map vec2.y).sum / (l.path_.length : ℝ)⟩ →
          g1.center_pos_ = meanPos h1 g1.sources_)) := by
  rcases ha : g.update_action_ with _ | _ | _ | _
  · exact absurd ha hact
  · obtain ⟨g1, h1, e, k⟩ := MixingGroup.grabAll_centroid g h cur l u hL.lines hL.nodup ha hu
    exact ⟨g1, h1, e, fun _ => k, fun c => by simp at c⟩
  · obtain ⟨g1, h1, e, k⟩ := MixingGroup.grabOne_centroid g h cur l u hL.lines ha hu
    exact ⟨g1, h1, e, fun _ => k, fun c => by simp at c⟩
  · obtain ⟨g1, h1, e, k1, -⟩ := MixingGroup.rotateAll_centroid g h cur l u hL.lines ha hu
    refine ⟨g1, h1, e, fun c => by simp at c, fun _ => ⟨k1, ?_⟩⟩
    intro hmem hold hnew hfree hon hmean
    exact MixingGroup.rotateAll_mean g h cur l u hL ha hu hmem hold hnew hfree hon hmean g1 h1 e

/-- The centre after an update, over the reals, on the group of sources at `(0, 0)` and
`(2, 0)`, the first dragged to `(0, 1)`: under `ACTION_GRAB_ALL`, and under `ACTION_ROTATE_ALL`
with nothing locked, the centre on return is the mean of the member positions. -/
theorem MixingGroup.update_centroid_witness :
    (∃ g1 h1, (pairGroup Action.ACTION_GRAB_ALL).update (movedHeap false) none = some (g1, h1) ∧
      g1.center_pos_ = meanPos h1 g1.sources_) ∧
    (∃ g1 h1, (pairGroup Action.ACTION_ROTATE_ALL).update (movedHeap false) none = some (g1, h1) ∧
      g1.center_pos_ = ⟨1, 0⟩ ∧ g1.center_pos_ = meanPos h1 g1.sources_) := by
  constructor
  · obtain ⟨g1, h1, e, k, -⟩ := MixingGroup.update_centroid (pairGroup Action.ACTION_GRAB_ALL)
      (movedHeap false) none _ 1 (pairGroup_linked Action.ACTION_GRAB_ALL) rfl (by decide)
    exact ⟨g1, h1, e, k (Or.inr rfl)⟩
  · obtain ⟨g1, h1, e, -, k⟩ := MixingGroup.update_centroid (pairGroup Action.ACTION_ROTATE_ALL)
      (movedHeap false) none _ 1 (pairGroup_linked Action.ACTION_ROTATE_ALL) rfl (by decide)
    obtain ⟨k1, k2⟩ := k rfl
    refine ⟨g1, h1, e, k1, k2 (by simp [pairGroup]) ?_ ?_ ?_ ?_ ?_⟩
    · rw [pairGroup_vertex]
      intro e0
      have := congrArg vec2.x e0
      simp [pairGroup] at this
    · rw [movedHeap_pos_one]
      intro e0
      have := congrArg vec2.x e0
      simp [pairGroup] at this
    · intro s hs hne
      simp only [pairGroup, List.mem_cons, List.mem_singleton, List.not_mem_nil, or_false] at hs
      rcases hs with rfl | rfl
      · exact absurd rfl hne
      · rfl
    · intro s hs hne
      simp only [pairGroup, List.mem_cons, List.mem_singleton, List.not_mem_nil, or_false] at hs
      rcases hs with rfl | rfl
      · exact absurd rfl hne
      · rw [movedHeap_pos_two]
        simp [pairGroup, IndexMap.at]
    · simp only [pairGroup, List.map_cons, List.map_nil, List.sum_cons, List.sum_nil,
        List.length_cons, List.length_nil]
      ext <;> norm_num

/-! ## Construction -/

theorem ctorStep_fold (this : Nat) (l : List SourcePtr) (st : CtorState) :
    (l.foldl (ctorStep this) st).sources_ = st.sources_ ++ l ∧
    (∀ s, ((l.foldl (ctorStep this) st).heap s).mixingPos = (st.heap s).mixingPos) ∧
    (∀ s, ((l.foldl (ctorStep this) st).heap s).locked = (st.heap s).locked) ∧
    (l.foldl (ctorStep this) st).center_pos_ =
      ⟨st.center_pos_.x + (l.map (fun s => (st.heap s).mixingPos.x)).sum,
       st.center_pos_.y + (l.map (fun s => (st.heap s).mixingPos.y)).sum⟩ := by
  induction l generalizing st with
  | nil => simp
  | cons it l ih =>
    obtain ⟨i1, i2, i3, i4⟩ := ih (ctorStep this st it)
    have hpos : ∀ s, ((ctorStep this st it).heap s).mixingPos = (st.heap s).mixingPos := by
      intro s
      by_cases hs : s = it
      · subst hs
        simp [ctorStep, Source.mixingPos]
      · simp [ctorStep, Function.update_noteq hs]
    have hlock : ∀ s, ((ctorStep this st it).heap s).locked = (st.heap s).locked := by
      intro s
      by_cases hs : s = it
      · subst hs
        simp [ctorStep, Source.locked]
      · simp [ctorStep, Function.update_noteq hs]
    refine ⟨?_, ?_, ?_, ?_⟩
    · rw [List.foldl_cons, i1]
      simp [ctorStep]
    · intro s
      rw [List.foldl_cons, i2, hpos]
    · intro s
      rw [List.foldl_cons, i3, hlock]
    · rw [List.foldl_cons, i4]
      have hc : (ctorStep this st it).center_pos_ =
          st.center_pos_ + ((ctorStep this st it).heap it).mixingPos := rfl
      rw [hc, hpos]
      simp only [hpos, List.map_cons, List.sum_cons]
      ext <;> simp <;> ring

theorem linkStep_fold (h : SourceHeap) (l pre : List SourcePtr) (m : IndexMap)
    (hm : ∀ s ∈ pre, ∃ i, m s = some i ∧ pre[i]? = some s)
    (hk : ∀ s, (m s).isSome → s ∈ pre) :
    (l.foldl (linkStep h) (m, pre.map (fun s => (h s).mixingPos))).2 =
      (pre ++ l).map (fun s => (h s).mixingPos) ∧
    (∀ s ∈ pre ++ l, ∃ i,
      (l.foldl (linkStep h) (m, pre.map (fun s => (h s).mixingPos))).1 s = some i ∧
        (pre ++ l)[i]? = some s) ∧
    (∀ s, ((l.foldl (linkStep h) (m, pre.map (fun s => (h s).mixingPos))).1 s).isSome →
      s ∈ pre ++ l) := by
  induction l generalizing pre m with
  | nil => simpa using ⟨hm, hk⟩
  | cons it l ih =>
    have hstep : linkStep h (m, pre.map (fun s => (h s).mixingPos)) it =
        (Function.update m it (some pre.length),
          (pre ++ [it]).map (fun s => (h s).mixingPos)) := by
      simp [linkStep]
    have hm1 : ∀ s ∈ pre ++ [it], ∃ i,
        Function.update m it (some pre.length) s = some i ∧ (pre ++ [it])[i]? = some s := by
      intro s hs
      by_cases hsi : s = it
      · subst hsi
        exact ⟨pre.length, by simp, by simp⟩
      · have hsp : s ∈ pre := by
          rcases List.mem_append.1 hs with h1 | h1
          · exact h1
          · exact absurd (List.mem_singleton.1 h1) hsi
        obtain ⟨i, e1, e2⟩ := hm s hsp
        refine ⟨i, by rw [Function.update_noteq hsi]; exact e1, ?_⟩
        have hi : i < pre.length := by
          rcases Nat.lt_or_ge i pre.length with h1 | h1
          · exact h1
          · rw [List.getElem?_eq_none h1] at e2
            exact absurd e2 (by simp)
        rw [List.getElem?_append_left hi]
        exact e2
    have hk1 : ∀ s, (Function.update m it (some pre.length) s).isSome → s ∈ pre ++ [it] := by
      intro s hs
      by_cases hsi : s = it
      · simp [hsi]
      · rw [Function.update_noteq hsi] at hs
        exact List.mem_append_left _ (hk s hs)
    have := ih (pre ++ [it]) (Function.update m it (some pre.length)) hm1 hk1
    rw [List.foldl_cons, hstep]
    simpa [List.append_assoc] using this

/-- The result of `MixingGroup::createLineStrip` on a group whose `lines_` is null and which has
more than one member. -/
theorem MixingGroup.createLineStrip_null (g : MixingGroup) (h : SourceHeap)
    (hl : g.lines_ = LinesPtr.null) (hn : 1 < g.sources_.length) :
    ∃ g1 l1, g.createLineStrip h = some g1 ∧ g1.sources_ = g.sources_ ∧
      g1.center_pos_ = g.center_pos_ ∧ g1.update_action_ = g.update_action_ ∧
      g1.updated_source_ = g.updated_source_ ∧
      g1.lines_ = LinesPtr.live l1 ∧
      l1.path_ = g.sources_.map (fun s => (h s).mixingPos) ∧
      (∀ s ∈ g.sources_, ∃ i, g1.index_points_ s = some i ∧ g.sources_[i]? = some s) ∧
      (∀ s, (g1.index_points_ s).isSome → s ∈ g.sources_) := by
  obtain ⟨f1, f2, f3⟩ := linkStep_fold h g.sources_ [] (fun _ => none) (by simp) (by simp)
  simp only [List.map_nil, List.nil_append] at f1 f2 f3
  refine ⟨{ g with
      index_points_ := (g.sources_.foldl (linkStep h) (fun _ => none, [])).1
      lines_ := LinesPtr.live
        { path_ := (g.sources_.foldl (linkStep h) (fun _ => none, [])).2, alpha := 0.96 } },
    { path_ := (g.sources_.foldl (linkStep h) (fun _ => none, [])).2, alpha := 0.96 }, ?_, ?_⟩
  · simp only [MixingGroup.createLineStrip, hl, hn, if_true, gt_iff_lt]
  · exact ⟨rfl, rfl, rfl, rfl, rfl, f1, f2, f3⟩

theorem stdSort_perm {α : Type} (comp : α → α → Prop) [DecidableRel comp] (l : List α) :
    (stdSort comp l).Perm l :=
  List.perm_insertionSort _ l

theorem stdSort_clockwise (h : SourceHeap) (c : vec2) (l : List SourcePtr) :
    (stdSort (clockwise_centered h c) l).Pairwise
      (fun a b => clockAngle h c a ≤ clockAngle h c b) := by
  have e : (fun a b => ¬ clockwise_centered h c b a) =
      (fun a b => clockAngle h c a ≤ clockAngle h c b) := by
    funext a b
    simp [clockwise_centered, clockAngle]
  haveI : IsTotal SourcePtr (fun a b => ¬ clockwise_centered h c b a) := by
    rw [e]
    exact ⟨fun a b => le_total _ _⟩
  haveI : IsTrans SourcePtr (fun a b => ¬ clockwise_centered h c b a) := by
    rw [e]
    exact ⟨fun a b d h1 h2 => le_trans h1 h2⟩
  have hs := List.sorted_insertionSort (fun a b => ¬ clockwise_centered h c b a) l
  unfold stdSort
  unfold List.Sorted at hs
  refine hs.imp ?_
  intro a b hab
  have := congrFun (congrFun e a) b
  simp only at this
  rw [← this]
  exact hab

theorem clockwise_centered_congr (h h1 : SourceHeap) (c : vec2)
    (hp : ∀ s, (h1 s).mixingPos = (h s).mixingPos) :
    clockwise_centered h1 c = clockwise_centered h c := by
  funext a b
  simp [clockwise_centered, hp]

/-- What the constructor of `MixingGroup` returns for two or more sources. -/
theorem MixingGroup.new_spec (this : Nat) (l : List SourcePtr) (h : SourceHeap) (a0 : Action)
    (u0 : Option SourcePtr) (hn : 1 < l.length) :
    ∃ g h1 l1, MixingGroup.new this l h a0 u0 = some (g, h1) ∧
      (∀ s, (h1 s).mixingPos = (h s).mixingPos) ∧
      g.center_pos_ = meanPos h l ∧
      g.sources_ = stdSort (clockwise_centered h1 (meanPos h l)) l ∧
      g.update_action_ = a0 ∧ g.updated_source_ = u0 ∧
      g.lines_ = LinesPtr.live l1 ∧
      l1.path_ = g.sources_.map (fun s => (h1 s).mixingPos) ∧
      (∀ s ∈ g.sources_, ∃ i, g.index_points_ s = some i ∧ g.sources_[i]? = some s) ∧
      (∀ s, (g.index_points_ s).isSome → s ∈ g.sources_) := by
  obtain ⟨c1, c2, -, c4⟩ := ctorStep_fold this l { heap := h, sources_ := [], center_pos_ := ⟨0, 0⟩ }
  simp only [List.nil_append] at c1
  have hc : (l.foldl (ctorStep this) { heap := h, sources_ := [], center_pos_ := ⟨0, 0⟩ }).center_pos_
      / (l.length : ℝ) = meanPos h l := by
    rw [c4]
    unfold meanPos
    ext <;> simp
  have hlen : 1 < (MixingGroup.unlinked
      (stdSort (clockwise_centered
        (l.foldl (ctorStep this) { heap := h, sources_ := [], center_pos_ := ⟨0, 0⟩ }).heap
        (meanPos h l)) l) (meanPos h l) a0 u0).sources_.length := by
    simp only [MixingGroup.unlinked]
    rw [(stdSort_perm _ l).length_eq]
    exact hn
  obtain ⟨g1, l1, e, k1, k2, k3, k4, k5, k6, k7, k8⟩ := MixingGroup.createLineStrip_null _
    (l.foldl (ctorStep this) { heap := h, sources_ := [], center_pos_ := ⟨0, 0⟩ }).heap rfl hlen
  refine ⟨g1, _, l1, ?_, c2, ?_, ?_, ?_, ?_, k5, ?_, ?_, ?_⟩
  · simp only [MixingGroup.new, c1, hc, e, Option.map_some']
  · rw [k2]
    rfl
  · rw [k1]
    rfl
  · rw [k3]
    rfl
  · rw [k4]
    rfl
  · rw [k6, k1]
  · rw [k1]
    exact k7
  · rw [k1]
    exact k8

theorem indexOf_of_getElem? {l : List SourcePtr} (hl : l.Nodup) {i : Nat} {s : SourcePtr}
    (h : l[i]? = some s) : l.indexOf s = i := by
  have hi : i < l.length := by
    rcases Nat.lt_or_ge i l.length with h1 | h1
    · exact h1
    · rw [List.getElem?_eq_none h1] at h
      exact absurd h (by simp)
  rw [List.getElem?_eq_getElem hi] at h
  have e : l[i] = s := by simpa using h
  rw [← e]
  exact List.indexOf_getElem hl i hi

/-- The constructor of `MixingGroup` leaves a linked group when given two or more distinct
sources. -/
theorem MixingGroup.new_linked (this : Nat) (l : List SourcePtr) (h : SourceHeap) (a0 : Action)
    (u0 : Option SourcePtr) (hn : 1 < l.length) (hd : l.Nodup) :
    ∃ g h1 l1, MixingGroup.new this l h a0 u0 = some (g, h1) ∧ g.Linked l1 := by
  obtain ⟨g, h1, l1, e, -, -, k3, -, -, k6, k7, k8, -⟩ := MixingGroup.new_spec this l h a0 u0 hn
  have hp : g.sources_.Perm l := by
    rw [k3]
    exact stdSort_perm _ l
  have hnd : g.sources_.Nodup := hp.nodup_iff.2 hd
  refine ⟨g, h1, l1, e, hnd, k6, by rw [k7, List.length_map], ?_⟩
  intro s hs
  obtain ⟨i, e1, e2⟩ := k8 s hs
  rw [e1, indexOf_of_getElem? hnd e2]

/-- C8: the constructor of `MixingGroup`, given two or more sources none of which is at the mean
of their MIXING positions, returns a group whose centre is that mean, whose members are a
permutation of the given sources in non-decreasing order of the oriented angle of their
normalized offset from the centre against `(1, 0)`, whose path lists the member positions in
that order, and whose index maps every member to a place of the path holding its position. The
positions themselves are not changed. -/
theorem MixingGroup.new_clockwise (this : Nat) (l : List SourcePtr) (h : SourceHeap)
    (a0 : Action) (u0 : Option SourcePtr) (hn : 2 ≤ l.length)
    (_hc : ∀ s ∈ l, (h s).mixingPos ≠ meanPos h l) :
    ∃ g h1 l1, MixingGroup.new this l h a0 u0 = some (g, h1) ∧
      (∀ s, (h1 s).mixingPos = (h s).mixingPos) ∧
      g.center_pos_ = meanPos h l ∧
      g.sources_.Perm l ∧
      g.sources_.Pairwise
        (fun a b => clockAngle h1 g.center_pos_ a ≤ clockAngle h1 g.center_pos_ b) ∧
      g.lines_ = LinesPtr.live l1 ∧
      l1.path_ = g.sources_.map (fun s => (h1 s).mixingPos) ∧
      ∀ s ∈ g.sources_, ∃ i, g.index_points_ s = some i ∧ g.sources_[i]? = some s ∧
        l1.path_[i]? = some (h1 s).mixingPos := by
  obtain ⟨g, h1, l1, e, k1, k2, k3, -, -, k6, k7, k8, -⟩ :=
    MixingGroup.new_spec this l h a0 u0 hn
  refine ⟨g, h1, l1, e, k1, k2, ?_, ?_, k6, k7, ?_⟩
  · rw [k3]
    exact stdSort_perm _ l
  · rw [k3, k2]
    exact stdSort_clockwise h1 (meanPos h l) l
  · intro s hs
    obtain ⟨i, e1, e2⟩ := k8 s hs
    refine ⟨i, e1, e2, ?_⟩
    rw [k7, List.getElem?_map, e2]
    rfl

theorem pairHeap_pos_one : (pairHeap 1).mixingPos = ⟨0, 0⟩ := by
  simp [pairHeap, sourceAt, Source.mixingPos, vec3.xy]

theorem pairHeap_pos_two : (pairHeap 2).mixingPos = ⟨2, 0⟩ := by
  simp [pairHeap, sourceAt, Source.mixingPos, vec3.xy]

theorem pairHeap_mean : meanPos pairHeap [1, 2] = ⟨1, 0⟩ := by
  simp only [meanPos, List.map_cons, List.map_nil, pairHeap_pos_one, pairHeap_pos_two]
  ext <;> norm_num

theorem perm_pair {l : List SourcePtr} (h : l.Perm [1, 2]) : l = [1, 2] ∨ l = [2, 1] := by
  have hl := h.length_eq
  match l, hl with
  | [a, b], _ =>
    have h1 : (1 : SourcePtr) ∈ [a, b] := h.symm.subset (by simp)
    have h2 : (2 : SourcePtr) ∈ [a, b] := h.symm.subset (by simp)
    have hn : [a, b].Nodup := h.nodup_iff.2 (by simp)
    simp at h1 h2 hn
    rcases h1 with rfl | rfl <;> rcases h2 with h2 | h2 <;> simp_all

theorem clockAngle_left (h : SourceHeap) (s : SourcePtr) (hs : (h s).mixingPos = ⟨0, 0⟩) :
    clockAngle h ⟨1, 0⟩ s = -Real.pi := by
  have e : (h s).mixingPos - (⟨1, 0⟩ : vec2) = ⟨-1, 0⟩ := by
    rw [hs]
    ext <;> simp
  have hlen : glm.length ⟨-1, 0⟩ = 1 := by
    simp [glm.length, glm.dot]
  unfold clockAngle
  rw [e, glm.normalize_eq, hlen]
  simp [glm.orientedAngle, glm.clamp, glm.dot]

theorem clockAngle_right (h : SourceHeap) (s : SourcePtr) (hs : (h s).mixingPos = ⟨2, 0⟩) :
    clockAngle h ⟨1, 0⟩ s = 0 := by
  have e : (h s).mixingPos - (⟨1, 0⟩ : vec2) = ⟨1, 0⟩ := by
    rw [hs]
    ext <;> norm_num
  have hlen : glm.length ⟨1, 0⟩ = 1 := by
    simp [glm.length, glm.dot]
  unfold clockAngle
  rw [e, glm.normalize_eq, hlen]
  simp [glm.orientedAngle, glm.clamp, glm.dot]

/-- C8 on the sources at `(0, 0)` and `(2, 0)`: the centre is `(1, 0)`, the members are ordered
source 1 (angle `-π`) then source 2 (angle `0`), and the path is `(0, 0)`, `(2, 0)`. -/
theorem MixingGroup.new_clockwise_witness :
    ∃ g h1 l1, MixingGroup.new 0 [1, 2] pairHeap Action.ACTION_NONE none = some (g, h1) ∧
      g.center_pos_ = ⟨1, 0⟩ ∧ g.sources_ = [1, 2] ∧
      g.lines_ = LinesPtr.live l1 ∧ l1.path_ = [⟨0, 0⟩, ⟨2, 0⟩] := by
  obtain ⟨g, h1, l1, e, k1, k2, k3, k4, k5, k6, -⟩ := MixingGroup.new_clockwise 0 [1, 2] pairHeap
    Action.ACTION_NONE none (by simp)
    (by
      intro s hs
      rw [pairHeap_mean]
      simp only [List.mem_cons, List.mem_singleton, List.not_mem_nil, or_false] at hs
      rcases hs with rfl | rfl
      · rw [pairHeap_pos_one]
        intro e0
        have := congrArg vec2.x e0
        simp at this
      · rw [pairHeap_pos_two]
        intro e0
        have := congrArg vec2.x e0
        simp at this)
  rw [pairHeap_mean] at k2
  have p1 : (h1 1).mixingPos = ⟨0, 0⟩ := by rw [k1, pairHeap_pos_one]
  have p2 : (h1 2).mixingPos = ⟨2, 0⟩ := by rw [k1, pairHeap_pos_two]
  have hs : g.sources_ = [1, 2] := by
    rcases perm_pair k3 with h0 | h0
    · exact h0
    · rw [h0, k2] at k4
      have := List.rel_of_pairwise_cons k4 (List.mem_singleton_self _)
      rw [clockAngle_left h1 1 p1, clockAngle_right h1 2 p2] at this
      linarith [Real.pi_pos]
  refine ⟨g, h1, l1, e, k2, hs, k5, ?_⟩
  rw [k6, hs]
  simp [p1, p2]

/-! ## Number of members -/

/-- C19 as stated fails: `setMode(UNINITIALIZED)` activates the frame of index 1 in the MIXING
view although `UNINITIALIZED` is below `SELECTED`. -/
theorem Source.setMode_uninitialized_frame :
    (({} : Source).setMode SourceMode.UNINITIALIZED).frames_ View.MIXING = 1 ∧
    ¬ SourceMode.SELECTED.toNat ≤ SourceMode.UNINITIALIZED.toNat := by
  constructor <;> decide

/-- C19, amended: in every view that has a frame (MIXING, GEOMETRY, LAYER, APPEARANCE),
`Source::setMode(m)` activates the frame of index 0 iff `m` is `VISIBLE` and the frame of index 1
otherwise, so for `m` among `VISIBLE`, `SELECTED`, `CURRENT` the highlighted frame is active iff
`m >= SELECTED`. -/
theorem Source.setMode_frame (s : Source) (m : SourceMode) (v : View)
    (hv : v.hasFrame = true) :
    ((s.setMode m).frames_ v = 0 ↔ m = SourceMode.VISIBLE) ∧
    ((s.setMode m).frames_ v = 1 ↔ m ≠ SourceMode.VISIBLE) ∧
    (m ≠ SourceMode.UNINITIALIZED →
      ((s.setMode m).frames_ v = 1 ↔ SourceMode.SELECTED.toNat ≤ m.toNat)) := by
  have e : (s.setMode m).frames_ v = if m = SourceMode.VISIBLE then 0 else 1 := by
    simp [Source.setMode, hv]
  rw [e]
  cases m <;> simp [SourceMode.toNat]

/-- C19, amended, for `setMode(SELECTED)` in the GEOMETRY view. -/
theorem Source.setMode_frame_witness :
    (({} : Source).setMode SourceMode.SELECTED).frames_ View.GEOMETRY = 1 :=
  ((Source.setMode_frame {} SourceMode.SELECTED View.GEOMETRY rfl).2.2 (by decide)).2
    (by decide)

/-- C20 as stated fails: on a source in mode `UNINITIALIZED`, `setMode(VISIBLE)` returns with
the APPEARANCE group not visible. -/
theorem Source.setMode_visible_hides_appearance :
    ({} : Source).mode_ = SourceMode.UNINITIALIZED ∧
    SourceMode.VISIBLE ≠ SourceMode.UNINITIALIZED ∧
    ((({} : Source).setMode SourceMode.VISIBLE).groups_ View.APPEARANCE).visible_ = false := by
  refine ⟨rfl, by decide, ?_⟩
  simp [Source.setMode, SourceMode.toNat]

/-- C20, amended: on a source in mode `UNINITIALIZED`, `Source::setMode(m)` returns with the
groups of the RENDERING, MIXING, GEOMETRY, LAYER and TRANSITION views visible, and with the
group of the APPEARANCE view visible iff `m > VISIBLE`. -/
theorem Source.setMode_first (s : Source) (m : SourceMode)
    (hs : s.mode_ = SourceMode.UNINITIALIZED) :
    ((s.setMode m).groups_ View.RENDERING).visible_ = true ∧
    ((s.setMode m).groups_ View.MIXING).visible_ = true ∧
    ((s.setMode m).groups_ View.GEOMETRY).visible_ = true ∧
    ((s.setMode m).groups_ View.LAYER).visible_ = true ∧
    ((s.setMode m).groups_ View.TRANSITION).visible_ = true ∧
    (((s.setMode m).groups_ View.APPEARANCE).visible_ = true ↔
      SourceMode.VISIBLE.toNat < m.toNat) := by
  simp [Source.setMode, hs, View.hasGroup]

/-- C20, amended, for `setMode(CURRENT)` on a fresh source: the APPEARANCE group is visible
too. -/
theorem Source.setMode_first_witness :
    ((({} : Source).setMode SourceMode.CURRENT).groups_ View.MIXING).visible_ = true ∧
    ((({} : Source).setMode SourceMode.CURRENT).groups_ View.APPEARANCE).visible_ = true :=
  ⟨(Source.setMode_first {} SourceMode.CURRENT rfl).2.1,
   (Source.setMode_first {} SourceMode.CURRENT rfl).2.2.2.2.2.2 (by decide)⟩

/-! ## Source activity -/

theorem setActiveStep_fold (p : SourcePtr) (h : SourceHeap) (l : List SourcePtr)
    (h0 : SourceHeap) (hf : ∀ c, c ≠ p → h0 c = h c) :
    (∀ c, c ≠ p → l.foldl (setActiveStep p) h0 c = h c) ∧
    ((l.foldl (setActiveStep p) h0 p).active_ = true ↔
      (h0 p).active_ = true ∨ ∃ c ∈ l, c ≠ p ∧ (h c).active_ = true) ∧
    (l.foldl (setActiveStep p) h0 p).groups_ = (h0 p).groups_ := by
  induction l generalizing h0 with
  | nil => simpa using hf
  | cons it l ih =>
    have hf1 : ∀ c, c ≠ p → setActiveStep p h0 it c = h c := by
      intro c hc
      unfold setActiveStep
      split_ifs
      · rw [Function.update_noteq hc]
        exact hf c hc
      · exact hf c hc
    have hg : (setActiveStep p h0 it p).groups_ = (h0 p).groups_ := by
      unfold setActiveStep
      split_ifs <;> simp
    have ha : (setActiveStep p h0 it p).active_ = true ↔
        (h0 p).active_ = true ∨ (it ≠ p ∧ (h it).active_ = true) := by
      unfold setActiveStep
      by_cases hip : it = p
      · subst hip
        by_cases hact : (h0 it).active = true
        · have hact1 : (h0 it).active_ = true := hact
          simp [hact, hact1]
        · have hact1 : ¬ (h0 it).active_ = true := hact
          simp [hact, hact1]
      · have e0 : (h0 it).active = (h it).active_ := by
          rw [hf it hip]
          rfl
        by_cases hact : (h it).active_ = true
        · simp [e0, hact, hip]
        · simp [e0, hact, hip]
    obtain ⟨i1, i2, i3⟩ := ih (setActiveStep p h0 it) hf1
    refine ⟨i1, ?_, ?_⟩
    · rw [List.foldl_cons, i2, ha]
      constructor
      · rintro ((h1 | ⟨h1, h2⟩) | ⟨c, hc, h1, h2⟩)
        · exact Or.inl h1
        · exact Or.inr ⟨it, List.mem_cons_self _ _, h1, h2⟩
        · exact Or.inr ⟨c, List.mem_cons_of_mem _ hc, h1, h2⟩
      · rintro (h1 | ⟨c, hc, h1, h2⟩)
        · exact Or.inl (Or.inl h1)
        · rcases List.mem_cons.1 hc with rfl | hc1
          · exact Or.inl (Or.inr ⟨h1, h2⟩)
          · exact Or.inr ⟨c, hc1, h1, h2⟩
    · rw [List.foldl_cons, i3, hg]

/-- C17: after `Source::setActive(on)` the source is active iff `on` is true or one of its
clones is active, the clones being left as they were; and its RENDERING, GEOMETRY and LAYER groups
are visible iff it is active. -/
theorem Source.setActive_clones (h : SourceHeap) (p : SourcePtr) (on_ : Bool) :
    (∀ c, c ≠ p → Source.setActive h p on_ c = h c) ∧
    ((Source.setActive h p on_ p).active_ = true ↔
      on_ = true ∨ ∃ c ∈ (h p).clones_, c ≠ p ∧ (h c).active_ = true) ∧
    ((Source.setActive h p on_ p).groups_ View.RENDERING).visible_ =
      (Source.setActive h p on_ p).active_ ∧
    ((Source.setActive h p on_ p).groups_ View.GEOMETRY).visible_ =
      (Source.setActive h p on_ p).active_ ∧
    ((Source.setActive h p on_ p).groups_ View.LAYER).visible_ =
      (Source.setActive h p on_ p).active_ := by
  obtain ⟨i1, i2, -⟩ := setActiveStep_fold p h (h p).clones_
    (Function.update h p { h p with active_ := on_ })
    (fun c hc => Function.update_noteq hc _ _)
  refine ⟨?_, ?_, ?_, ?_, ?_⟩
  · intro c hc
    unfold Source.setActive
    simp only [Function.update_noteq hc]
    exact i1 c hc
  · unfold Source.setActive
    simp only [Function.update_same]
    rw [i2]
    simp
  · simp [Source.setActive]
  · simp [Source.setActive]
  · simp [Source.setActive]

/-- C17 on an origin with one active clone: `setActive(false)` leaves the origin active and its
RENDERING group visible. -/
theorem Source.setActive_clones_witness :
    (Source.setActive cloneHeap 1 false 1).active_ = true ∧
    ((Source.setActive cloneHeap 1 false 1).groups_ View.RENDERING).visible_ = true := by
  have k := Source.setActive_clones cloneHeap 1 false
  have ha : (Source.setActive cloneHeap 1 false 1).active_ = true :=
    k.2.1.2 (Or.inr ⟨2, by simp [cloneHeap], by decide, by simp [cloneHeap]⟩)
  exact ⟨ha, by rw [k.2.2.1, ha]⟩

/-! ## Source update -/

theorem Source.setActive_no_clones (h : SourceHeap) (p : SourcePtr) (on_ : Bool)
    (hc : (h p).clones_ = []) :
    Source.setActive h p on_ p =
      { h p with
        active_ := on_
        groups_ := Function.update (Function.update (Function.update (h p).groups_
          View.RENDERING { (h p).groups_ View.RENDERING with visible_ := on_ })
          View.GEOMETRY { (h p).groups_ View.GEOMETRY with visible_ := on_ })
          View.LAYER { (h p).groups_ View.LAYER with visible_ := on_ } } := by
  simp [Source.setActive, hc]

theorem Source.updateNodes_active (D : Defines) (a fill : Bool) (s : Source) :
    (Source.updateNodes D a fill s).active_ = s.active_ := by
  simp [Source.updateNodes, Source.setLocked]

theorem Source.updateNodes_geometry_visible (D : Defines) (a fill : Bool) (s : Source) :
    ((Source.updateNodes D a fill s).groups_ View.GEOMETRY).visible_ =
      !(Source.updateNodes D a fill s).locked_ := by
  simp only [Source.updateNodes, Source.setLocked]
  split_ifs <;> simp

theorem Source.updateNodes_locked (D : Defines) (a fill : Bool) (s : Source) :
    (Source.updateNodes D a fill s).locked_ =
      decide ((s.groups_ View.LAYER).translation_.x < -D.FOREGROUND_DEPTH ∨
        (s.groups_ View.LAYER).translation_.x > -D.BACKGROUND_DEPTH) := by
  simp [Source.updateNodes, Source.setLocked]

/-- An update pass on a source without clones that lies at or beyond the limbo radius and on
stage in the LAYER view leaves it inactive, unlocked and with its GEOMETRY group visible. -/
theorem Source.updatePass_limbo_on_stage (D : Defines) (h : SourceHeap) (p : SourcePtr)
    (fill : Bool) (hc : (h p).clones_ = [])
    (hfar : D.MIXING_LIMBO_SCALE ≤ glm.length (h p).mixingPos)
    (h1 : -D.FOREGROUND_DEPTH ≤ ((h p).groups_ View.LAYER).translation_.x)
    (h2 : ((h p).groups_ View.LAYER).translation_.x ≤ -D.BACKGROUND_DEPTH) :
    (Source.updatePass D h p fill p).active_ = false ∧
    (Source.updatePass D h p fill p).locked_ = false ∧
    ((Source.updatePass D h p fill p).groups_ View.GEOMETRY).visible_ = true ∧
    (Source.updatePass D h p fill p).need_update_ = false := by
  have ha : decide (glm.length (h p).mixingPos < D.MIXING_LIMBO_SCALE) = false := by
    simp only [decide_eq_false_iff_not, not_lt]
    exact hfar
  have e : Source.updatePass D h p fill p =
      Source.updateNodes D false fill
        (Source.setActive (Function.update h p
          { h p with
            blending_alpha_ := sin_quad (h p).mixingPos.x (h p).mixingPos.y
            mixing_alpha_ := sin_quad (h p).mixingPos.x (h p).mixingPos.y }) p false p) := by
    unfold Source.updatePass
    simp only [ha, Function.update_same]
  have hl : (Source.updatePass D h p fill p).locked_ = false := by
    rw [e, Source.updateNodes_locked, Source.setActive_no_clones _ _ _ (by simp [hc])]
    simp only [Function.update_same, decide_eq_false_iff_not, not_or, not_lt]
    exact ⟨h1, h2⟩
  refine ⟨?_, hl, ?_, ?_⟩
  · rw [e, Source.updateNodes_active, Source.setActive_no_clones _ _ _ (by simp [hc])]
  · have := Source.updateNodes_geometry_visible D false fill
      (Source.setActive (Function.update h p
          { h p with
            blending_alpha_ := sin_quad (h p).mixingPos.x (h p).mixingPos.y
            mixing_alpha_ := sin_quad (h p).mixingPos.x (h p).mixingPos.y }) p false p)
    rw [← e] at this
    rw [this, hl]
    rfl
  · rw [e]
    simp [Source.updateNodes]

theorem Source.update_of_ready (D : Defines) (h : SourceHeap) (p : SourcePtr) (dt : ℝ)
    (fill : Bool) (hr : (h p).renderbuffer_ = true) (hm : (h p).mixingsurface_ = true)
    (hk : (h p).maskbuffer_ = true) (hn : (h p).need_update_ = true) :
    Source.update D h p dt fill =
      Source.updatePass D (Function.update h p { h p with dt_ := dt }) p fill := by
  unfold Source.update
  simp [hr, hm, hk, hn]

theorem limboHeap_far (p : SourcePtr) :
    sampleDefines.MIXING_LIMBO_SCALE ≤ glm.length (limboHeap p).mixingPos := by
  have e : (limboHeap p).mixingPos = ⟨2, 0⟩ := by
    simp [limboHeap, Source.mixingPos, vec3.xy]
  have h2 : glm.length ⟨2, 0⟩ = 2 := by
    have hsq := glm.length_mul_self ⟨2, 0⟩
    have hnn : 0 ≤ glm.length ⟨2, 0⟩ := Real.sqrt_nonneg _
    norm_num at hsq
    nlinarith
  rw [e, h2]
  norm_num [sampleDefines]

/-- C18, the code at the failing input: with the sample constants, an update pass on a source
with its buffers attached, no clone, MIXING position `(2, 0)` (beyond the limbo radius `1.3`) and
LAYER depth `x = -5` (on stage) returns with the source inactive and unlocked and its GEOMETRY
group visible. -/
theorem Source.update_inactive_geometry_visible :
    (limboHeap 0).renderbuffer_ = true ∧ (limboHeap 0).mixingsurface_ = true ∧
    (limboHeap 0).maskbuffer_ = true ∧ (limboHeap 0).need_update_ = true ∧
    (Source.update sampleDefines limboHeap 0 0 true 0).need_update_ = false ∧
    (Source.update sampleDefines limboHeap 0 0 true 0).active_ = false ∧
    (Source.update sampleDefines limboHeap 0 0 true 0).locked_ = false ∧
    ((Source.update sampleDefines limboHeap 0 0 true 0).groups_ View.GEOMETRY).visible_ = true := by
  have e := Source.update_of_ready sampleDefines limboHeap 0 0 true rfl rfl rfl rfl
  obtain ⟨k1, k2, k3, k4⟩ := Source.updatePass_limbo_on_stage sampleDefines
    (Function.update limboHeap 0 { limboHeap 0 with dt_ := 0 }) 0 true
    (by simp [limboHeap])
    (by
      have := limboHeap_far 0
      simpa [Source.mixingPos] using this)
    (by simp [limboHeap, sampleDefines]; norm_num)
    (by simp [limboHeap, sampleDefines]; norm_num)
  rw [e]
  exact ⟨rfl, rfl, rfl, rfl, k4, k1, k2, k3⟩

/-! ## Mixer operations keep the queues -/

theorem Mixer.Ext.extRefl (m : Mixer) : Mixer.Ext m m :=
  ⟨id, id, rfl, rfl, rfl, rfl, rfl, ⟨[], by simp⟩⟩

theorem Mixer.Ext.extTrans {m m1 m2 : Mixer} (h1 : Mixer.Ext m m1) (h2 : Mixer.Ext m1 m2) :
    Mixer.Ext m m2 := by
  obtain ⟨l1, e1⟩ := h1.garbage
  obtain ⟨l2, e2⟩ := h2.garbage
  exact ⟨fun h => h2.live (h1.live h), fun h => h2.view (h1.view h),
    h2.loaders.trans h1.loaders, h2.importers.trans h1.importers,
    h2.toImport.trans h1.toImport, h2.candidates.trans h1.candidates,
    h2.deleted.trans h1.deleted, ⟨l1 ++ l2, by rw [e2, e1, List.append_assoc]⟩⟩

theorem Mixer.Ext.extGood {m m1 : Mixer} (h : Mixer.Ext m m1) (hg : m.Good) : m1.Good :=
  ⟨h.live hg.1, h.view hg.2⟩

/-- An update of the heaps, the current source and the selection only. -/
theorem Mixer.Ext.extOfFields {m m1 : Mixer} (h1 : m1.session_ = m.session_)
    (h2 : m1.current_view_ = m.current_view_) (h3 : m1.sessionLoaders_ = m.sessionLoaders_)
    (h4 : m1.sessionImporters_ = m.sessionImporters_)
    (h5 : m1.sessionSourceToImport_ = m.sessionSourceToImport_)
    (h6 : m1.candidate_sources_ = m.candidate_sources_) (h7 : m1.deleted_ = m.deleted_)
    (h8 : m1.garbage_ = m.garbage_) : Mixer.Ext m m1 :=
  ⟨fun h => h1 ▸ h, fun h => h2 ▸ h, h3, h4, h5, h6, h7, ⟨[], by simp [h8]⟩⟩

theorem Mixer.unsetCurrentSource_ext (m : Mixer) (hl : m.session_.isSome) :
    ∃ m1, m.unsetCurrentSource = some m1 ∧ Mixer.Ext m m1 ∧ m1.session_ = m.session_ ∧
      m1.current_view_ = m.current_view_ ∧ m1.current_source_ = none ∧
      (m.current_source_ = none → m1 = m) ∧
      (m.current_source_ ≠ none → m1.current_source_index_ = -1) := by
  obtain ⟨a, ha⟩ := Option.isSome_iff_exists.1 hl
  rcases hc : m.current_source_ with _ | c
  · exact ⟨m, by simp [Mixer.unsetCurrentSource, ha, hc], Mixer.Ext.extRefl m, rfl, rfl, hc,
      fun _ => rfl, fun h => absurd rfl h⟩
  · by_cases hsel : m.selection_.length > 1
    · refine ⟨{ m with
          sources := Function.update m.sources c ((m.sources c).setMode SourceMode.SELECTED)
          current_source_ := none, current_source_index_ := -1 }, ?_, ?_, rfl, rfl, rfl,
          fun h => by simp at h, fun _ => rfl⟩
      · simp [Mixer.unsetCurrentSource, ha, hc, hsel]
      · exact Mixer.Ext.extOfFields rfl rfl rfl rfl rfl rfl rfl rfl
    · refine ⟨{ m with
          selection_ := Selection.remove m.selection_ c
          current_source_ := none, current_source_index_ := -1 }, ?_, ?_, rfl, rfl, rfl,
          fun h => by simp at h, fun _ => rfl⟩
      · simp [Mixer.unsetCurrentSource, ha, hc, hsel]
      · exact Mixer.Ext.extOfFields rfl rfl rfl rfl rfl rfl rfl rfl

theorem Mixer.attach_ext (m : Mixer) (s : Option SourcePtr) :
    Mixer.Ext m (m.attach s) ∧ (m.attach s).session_ = m.session_ ∧
      (m.attach s).sessions = m.sessions ∧ (m.attach s).current_source_ = m.current_source_ ∧
      (m.attach s).current_source_index_ = m.current_source_index_ ∧
      (m.attach s).current_view_ = m.current_view_ ∧
      (m.attach s).selection_ = m.selection_ := by
  cases s with
  | none => exact ⟨Mixer.Ext.extRefl m, rfl, rfl, rfl, rfl, rfl, rfl⟩
  | some p => exact ⟨Mixer.Ext.extOfFields rfl rfl rfl rfl rfl rfl rfl rfl, rfl, rfl, rfl, rfl, rfl, rfl⟩

theorem Mixer.detach_ext (m : Mixer) (hl : m.session_.isSome) (s : Option SourcePtr) :
    ∃ m1, m.detach s = some m1 ∧ Mixer.Ext m m1 ∧ m1.session_ = m.session_ ∧
      m1.current_view_ = m.current_view_ ∧ m1.sessions = m.sessions := by
  cases s with
  | none => exact ⟨m, rfl, Mixer.Ext.extRefl m, rfl, rfl, rfl⟩
  | some p =>
    obtain ⟨m1, h1, k1, k2, k3, -⟩ := Mixer.unsetCurrentSource_ext m hl
    have hs : m1.sessions = m.sessions := by
      obtain ⟨a, ha⟩ := Option.isSome_iff_exists.1 hl
      obtain ⟨m2, h2, k⟩ := Mixer.unsetCurrentSource_some m a ha
      rw [h1] at h2
      cases h2
      exact k.sessions
    refine ⟨{ m1 with selection_ := Selection.remove m1.selection_ p }, ?_, ?_, k2, k3, hs⟩
    · simp [Mixer.detach, h1]
    · exact k1.extTrans (Mixer.Ext.extOfFields rfl rfl rfl rfl rfl rfl rfl rfl)

theorem Mixer.set_ext (m : Mixer) (s : Option SessionPtr) :
    Mixer.Ext m (m.set s) ∧ (m.set s).session_ = m.session_ ∧
      (m.set s).current_view_ = m.current_view_ ∧ (m.set s).sessions = m.sessions ∧
      (m.set s).sources = m.sources := by
  cases s with
  | none => exact ⟨Mixer.Ext.extRefl m, rfl, rfl, rfl, rfl⟩
  | some p =>
    refine ⟨⟨id, id, rfl, rfl, rfl, rfl, rfl, ?_⟩, rfl, rfl, rfl, rfl⟩
    rcases hb : m.back_session_ with _ | b
    · exact ⟨[], by simp [Mixer.set, hb]⟩
    · exact ⟨[b], by simp [Mixer.set, hb]⟩

theorem Mixer.clear_ext (m : Mixer) (fresh : SessionPtr) :
    Mixer.Ext m (m.clear fresh) ∧ (m.clear fresh).session_ = m.session_ := by
  refine ⟨⟨id, id, rfl, rfl, rfl, rfl, rfl, ?_⟩, rfl⟩
  rcases hb : m.back_session_ with _ | b
  · exact ⟨[], by simp [Mixer.clear, hb]⟩
  · exact ⟨[b], by simp [Mixer.clear, hb]⟩

theorem Mixer.forEach_rel {α : Type} (f : Mixer → α → Option Mixer)
    (R : Mixer → Mixer → Prop) (P : Mixer → Prop) (hrefl : ∀ m, R m m)
    (htrans : ∀ m m1 m2, R m m1 → R m1 m2 → R m m2) (hP : ∀ m m1, P m → R m m1 → P m1)
    (hf : ∀ m x, P m → ∃ m1, f m x = some m1 ∧ R m m1)
    (l : List α) (m : Mixer) (hm : P m) :
    ∃ m1, Mixer.forEach f m l = some m1 ∧ R m m1 := by
  induction l generalizing m with
  | nil => exact ⟨m, rfl, hrefl m⟩
  | cons x l ih =>
    obtain ⟨m1, h1, k1⟩ := hf m x hm
    obtain ⟨m2, h2, k2⟩ := ih m1 (hP m m1 hm k1)
    exact ⟨m2, by simp [Mixer.forEach, h1, h2], htrans m m1 m2 k1 k2⟩

theorem Mixer.Quiet.quietRefl (m : Mixer) : Mixer.Quiet m m :=
  ⟨Mixer.Ext.extRefl m, rfl, rfl, rfl, rfl, rfl, rfl⟩

theorem Mixer.Quiet.quietTrans {m m1 m2 : Mixer} (h1 : Mixer.Quiet m m1) (h2 : Mixer.Quiet m1 m2) :
    Mixer.Quiet m m2 :=
  ⟨h1.ext.extTrans h2.ext, h2.session_.trans h1.session_,
   h2.current_view_.trans h1.current_view_, h2.sessions.trans h1.sessions,
   h2.back_session_.trans h1.back_session_, h2.garbage_.trans h1.garbage_,
   h2.swapRequested.trans h1.swapRequested⟩

theorem Mixer.forEach_quiet {α : Type} (f : Mixer → α → Option Mixer)
    (hf : ∀ m x, m.session_.isSome → ∃ m1, f m x = some m1 ∧ Mixer.Quiet m m1)
    (l : List α) (m : Mixer) (hm : m.session_.isSome) :
    ∃ m1, Mixer.forEach f m l = some m1 ∧ Mixer.Quiet m m1 :=
  Mixer.forEach_rel f Mixer.Quiet (fun m => m.session_.isSome = true) Mixer.Quiet.quietRefl
    (fun _ _ _ => Mixer.Quiet.quietTrans) (fun _ _ h k => by simpa only [k.session_] using h) hf l m hm

theorem Mixer.Same.sameRefl (m : Mixer) : Mixer.Same m m :=
  ⟨rfl, rfl, rfl, rfl, rfl, rfl, rfl, rfl, rfl, rfl, rfl, rfl, rfl⟩

theorem Mixer.Same.sameTrans {m m1 m2 : Mixer} (h1 : Mixer.Same m m1) (h2 : Mixer.Same m1 m2) :
    Mixer.Same m m2 :=
  ⟨h2.session_.trans h1.session_, h2.back_session_.trans h1.back_session_,
   h2.garbage_.trans h1.garbage_, h2.swapRequested.trans h1.swapRequested,
   h2.current_source_.trans h1.current_source_,
   h2.current_source_index_.trans h1.current_source_index_,
   h2.selection_.trans h1.selection_, h2.candidates.trans h1.candidates,
   h2.current_view_.trans h1.current_view_, h2.loaders.trans h1.loaders,
   h2.importers.trans h1.importers, h2.toImport.trans h1.toImport,
   h2.deleted.trans h1.deleted⟩

theorem Mixer.Same.toExt {m m1 : Mixer} (h : Mixer.Same m m1) : Mixer.Ext m m1 :=
  Mixer.Ext.extOfFields h.session_ h.current_view_ h.loaders h.importers h.toImport h.candidates
    h.deleted h.garbage_

theorem Mixer.attach_same (m : Mixer) (s : Option SourcePtr) :
    Mixer.Same m (m.attach s) ∧ (m.attach s).sessions = m.sessions := by
  cases s with
  | none => exact ⟨Mixer.Same.sameRefl m, rfl⟩
  | some p => exact ⟨⟨rfl, rfl, rfl, rfl, rfl, rfl, rfl, rfl, rfl, rfl, rfl, rfl, rfl⟩, rfl⟩

theorem Mixer.renameSource_same (t : String → String) (m : Mixer) (hl : m.session_.isSome)
    (s : Option SourcePtr) (n : String) :
    ∃ m1, m.renameSource t s n = some m1 ∧ Mixer.Same m m1 ∧ m1.sessions = m.sessions := by
  obtain ⟨a, ha⟩ := Option.isSome_iff_exists.1 hl
  cases s with
  | none => exact ⟨m, rfl, Mixer.Same.sameRefl m, rfl⟩
  | some p =>
    exact ⟨{ m with
        sources := Function.update m.sources p
          ((m.sources p).setName t (renameTentative m.sources (m.sessions a).sources_ p n)) },
      by simp only [Mixer.renameSource, ha],
      ⟨rfl, rfl, rfl, rfl, rfl, rfl, rfl, rfl, rfl, rfl, rfl, rfl, rfl⟩, rfl⟩

theorem Mixer.unsetCurrentSource_quiet (m : Mixer) (hl : m.session_.isSome) :
    ∃ m1, m.unsetCurrentSource = some m1 ∧ Mixer.Quiet m m1 ∧ m1.current_source_ = none := by
  obtain ⟨m1, h1, k1, k2, k3, k4, -⟩ := Mixer.unsetCurrentSource_ext m hl
  obtain ⟨a, ha⟩ := Option.isSome_iff_exists.1 hl
  obtain ⟨m2, h2, k⟩ := Mixer.unsetCurrentSource_some m a ha
  rw [h1] at h2
  cases h2
  exact ⟨m1, h1, ⟨k1, k2, k3, k.sessions, k.back_session_, k.garbage_, k.swapRequested⟩, k4⟩

theorem Mixer.Quiet.quietOfFields {m m1 : Mixer} (h1 : m1.session_ = m.session_)
    (h2 : m1.current_view_ = m.current_view_) (h3 : m1.sessionLoaders_ = m.sessionLoaders_)
    (h4 : m1.sessionImporters_ = m.sessionImporters_)
    (h5 : m1.sessionSourceToImport_ = m.sessionSourceToImport_)
    (h6 : m1.candidate_sources_ = m.candidate_sources_) (h7 : m1.deleted_ = m.deleted_)
    (h8 : m1.garbage_ = m.garbage_) (h9 : m1.sessions = m.sessions)
    (h10 : m1.back_session_ = m.back_session_)
    (h11 : m1.sessionSwapRequested_ = m.sessionSwapRequested_) : Mixer.Quiet m m1 :=
  ⟨Mixer.Ext.extOfFields h1 h2 h3 h4 h5 h6 h7 h8, h1, h2, h9, h10, h8, h11⟩

theorem Mixer.detach_quiet (m : Mixer) (hl : m.session_.isSome) (s : Option SourcePtr) :
    ∃ m1, m.detach s = some m1 ∧ Mixer.Quiet m m1 ∧
      (s ≠ none → m1.current_source_ = none) ∧ (s = none → m1 = m) := by
  cases s with
  | none => exact ⟨m, rfl, Mixer.Quiet.quietRefl m, fun h => absurd rfl h, fun _ => rfl⟩
  | some p =>
    obtain ⟨m1, h1, k1, k2⟩ := Mixer.unsetCurrentSource_quiet m hl
    refine ⟨{ m1 with selection_ := Selection.remove m1.selection_ p }, ?_, ?_, fun _ => k2,
      fun h => by simp at h⟩
    · simp [Mixer.detach, h1]
    · exact k1.quietTrans (Mixer.Quiet.quietOfFields rfl rfl rfl rfl rfl rfl rfl rfl rfl rfl rfl)

theorem Mixer.deselect_quiet (m : Mixer) (hl : m.session_.isSome) (s : SourcePtr) :
    ∃ m1, m.deselect s = some m1 ∧ Mixer.Quiet m m1 := by
  unfold Mixer.deselect
  by_cases hc : m.current_source_ = some s
  · obtain ⟨m1, h1, k1, -⟩ := Mixer.unsetCurrentSource_quiet m hl
    refine ⟨{ m1 with selection_ := Selection.remove m1.selection_ s }, ?_, ?_⟩
    · simp [hc, h1]
    · exact k1.quietTrans (Mixer.Quiet.quietOfFields rfl rfl rfl rfl rfl rfl rfl rfl rfl rfl rfl)
  · refine ⟨{ m with selection_ := Selection.remove m.selection_ s }, ?_, ?_⟩
    · simp [hc]
    · exact Mixer.Quiet.quietOfFields rfl rfl rfl rfl rfl rfl rfl rfl rfl rfl rfl

theorem Mixer.setView_ext (W : Frame) (m : Mixer) (hl : m.session_.isSome) (v : View) :
    ∃ m1, m.setView W v = some m1 ∧ Mixer.Ext m m1 ∧ m1.session_ = m.session_ ∧
      m1.current_view_ = some (viewFor v) ∧ m1.sessions = m.sessions ∧
      (m.current_view_ ≠ some View.TRANSITION → m1.back_session_ = m.back_session_ ∧
        m1.garbage_ = m.garbage_ ∧ m1.sessionSwapRequested_ = m.sessionSwapRequested_) := by
  obtain ⟨a, ha⟩ := Option.isSome_iff_exists.1 hl
  -- the state on entry of the loop
  have h0 : ∃ m2 : Mixer, Mixer.Ext m m2 ∧ m2.session_ = m.session_ ∧
      m2.current_view_ = some (viewFor v) ∧ m2.sessions = m.sessions ∧
      (m.current_view_ ≠ some View.TRANSITION → m2.back_session_ = m.back_session_ ∧
        m2.garbage_ = m.garbage_ ∧ m2.sessionSwapRequested_ = m.sessionSwapRequested_) ∧
      m.setView W v = Mixer.forEach
        (fun mm sit => if W.canSelect (viewFor v) sit then some mm else mm.deselect sit)
        m2 (m2.sessions a).sources_ := by
    by_cases ht : m.current_view_ = some View.TRANSITION
    · obtain ⟨k1, k2, -, k4, -⟩ := Mixer.set_ext m W.transitionSession
      refine ⟨{ m.set W.transitionSession with current_view_ := some (viewFor v) }, ?_, k2, rfl,
        k4, fun h => absurd ht h, ?_⟩
      · exact ⟨fun h => k1.live h, fun _ => rfl, k1.loaders, k1.importers, k1.toImport,
          k1.candidates, k1.deleted, k1.garbage⟩
      · have hs : (m.set W.transitionSession).session_ = some a := k2.trans ha
        simp only [Mixer.setView, ht, if_true, hs]
    · refine ⟨{ m with current_view_ := some (viewFor v) }, ?_, rfl, rfl, rfl,
        fun _ => ⟨rfl, rfl, rfl⟩, ?_⟩
      · exact ⟨id, fun _ => rfl, rfl, rfl, rfl, rfl, rfl, ⟨[], by simp⟩⟩
      · simp only [Mixer.setView, ht, if_false, ha]
  obtain ⟨m2, k1, k2, k3, k4, k5, e⟩ := h0
  obtain ⟨m3, h3, q⟩ := Mixer.forEach_rel
    (fun mm sit => if W.canSelect (viewFor v) sit then some mm else mm.deselect sit)
    (fun x y => Mixer.Quiet x y ∧ y.back_session_ = x.back_session_ ∧
      y.garbage_ = x.garbage_ ∧ y.sessionSwapRequested_ = x.sessionSwapRequested_)
    (fun m => m.session_.isSome = true)
    (fun x => ⟨Mixer.Quiet.quietRefl x, rfl, rfl, rfl⟩)
    (fun _ _ _ h1 h2 => ⟨h1.1.quietTrans h2.1, h2.2.1.trans h1.2.1, h2.2.2.1.trans h1.2.2.1,
      h2.2.2.2.trans h1.2.2.2⟩)
    (fun _ _ h k => by simpa only [k.1.session_] using h)
    (by
      intro mm x hmm
      by_cases hcs : W.canSelect (viewFor v) x = true
      · exact ⟨mm, by simp [hcs], Mixer.Quiet.quietRefl mm, rfl, rfl, rfl⟩
      · obtain ⟨m1, h1, e1⟩ := Mixer.deselect_quiet mm hmm x
        obtain ⟨b, hb⟩ := Option.isSome_iff_exists.1 hmm
        obtain ⟨mu, hu, ku⟩ := Mixer.unsetCurrentSource_some mm b hb
        have hk : m1.back_session_ = mm.back_session_ ∧ m1.garbage_ = mm.garbage_ ∧
            m1.sessionSwapRequested_ = mm.sessionSwapRequested_ := by
          unfold Mixer.deselect at h1
          by_cases hc : mm.current_source_ = some x
          · simp only [hc, if_true, hu] at h1
            cases h1
            exact ⟨ku.back_session_, ku.garbage_, ku.swapRequested⟩
          · simp only [hc, if_false] at h1
            cases h1
            exact ⟨rfl, rfl, rfl⟩
        exact ⟨m1, by simp [hcs, h1], e1, hk⟩)
    (m2.sessions a).sources_ m2 (by simpa only [k2] using hl)
  refine ⟨m3, e.trans h3, k1.extTrans q.1.ext, q.1.session_.trans k2, q.1.current_view_.trans k3,
    q.1.sessions.trans k4, fun h => ?_⟩
  obtain ⟨b1, b2, b3⟩ := k5 h
  exact ⟨q.2.1.trans b1, q.2.2.1.trans b2, q.2.2.2.trans b3⟩

theorem Mixer.setCurrentSource_quiet (m : Mixer) (hl : m.session_.isSome)
    (it : Option SourcePtr) :
    ∃ m1, m.setCurrentSource it = some m1 ∧ Mixer.Quiet m m1 ∧ m1.current_source_ = it := by
  obtain ⟨a, ha⟩ := Option.isSome_iff_exists.1 hl
  by_cases hc : m.current_source_ = it
  · exact ⟨m, by simp [Mixer.setCurrentSource, hc], Mixer.Quiet.quietRefl m, hc⟩
  · obtain ⟨m1, h1, k1, k4⟩ := Mixer.unsetCurrentSource_quiet m hl
    have ha1 : m1.session_ = some a := k1.session_.trans ha
    cases it with
    | none =>
      exact ⟨m1, by simp [Mixer.setCurrentSource, hc, h1, ha1], k1, k4⟩
    | some p =>
      refine ⟨{ m1 with
          current_source_ := some p
          current_source_index_ := (m1.sessions a).index (some p)
          selection_ := if Selection.contains m1.selection_ p then m1.selection_
            else Selection.set m1.selection_ p
          sources := Function.update m1.sources p ((m1.sources p).setMode SourceMode.CURRENT) },
        ?_, ?_, rfl⟩
      · simp [Mixer.setCurrentSource, hc, h1, ha1]
      · exact k1.quietTrans (Mixer.Quiet.quietOfFields rfl rfl rfl rfl rfl rfl rfl rfl rfl rfl rfl)

/-! ## Insertion, removal and merge of sources -/

theorem Mixer.Grow.growRefl (m : Mixer) : Mixer.Grow m m :=
  ⟨id, id, rfl, ⟨[], by simp⟩, le_refl _, le_refl _⟩

theorem Mixer.Grow.growTrans {m m1 m2 : Mixer} (h1 : Mixer.Grow m m1) (h2 : Mixer.Grow m1 m2) :
    Mixer.Grow m m2 := by
  obtain ⟨l1, e1⟩ := h1.garbage
  obtain ⟨l2, e2⟩ := h2.garbage
  exact ⟨fun h => h2.live (h1.live h), fun h => h2.view (h1.view h),
    h2.deleted.trans h1.deleted, ⟨l1 ++ l2, by rw [e2, e1, List.append_assoc]⟩,
    le_trans h2.loaders h1.loaders, le_trans h2.importers h1.importers⟩

theorem Mixer.Ext.grow {m m1 : Mixer} (h : Mixer.Ext m m1) : Mixer.Grow m m1 :=
  ⟨h.live, h.view, h.deleted, h.garbage, by rw [h.loaders], by rw [h.importers]⟩

theorem Mixer.Grow.growGood {m m1 : Mixer} (h : Mixer.Grow m m1) (hg : m.Good) : m1.Good :=
  ⟨h.live hg.1, h.view hg.2⟩

theorem Mixer.insertSource_spec (W : Frame) (m : Mixer) (a : SessionPtr) (p : SourcePtr)
    (v : View) (ha : m.session_ = some a) :
    ∃ m1, m.insertSource W (some p) v = some m1 ∧ Mixer.Ext m m1 ∧ m1.session_ = some a ∧
      m1.sessions = Function.update m.sessions a ((m.sessions a).addSource p) ∧
      (v = View.INVALID → Mixer.Same m m1) ∧
      (v ≠ View.INVALID →
        m1.current_source_ = some p ∧ m1.current_view_ = some (viewFor v)) := by
  have hl : m.session_.isSome := by simp [ha]
  obtain ⟨m1, h1, s1, e1⟩ := Mixer.renameSource_same W.transliterate m hl (some p)
    (m.sources p).name_
  have ha1 : m1.session_ = some a := s1.session_.trans ha
  -- the state after `attach`
  obtain ⟨m4, h4, s4, e4⟩ : ∃ m4 : Mixer,
      m.insertSource W (some p) v =
        (if v ≠ View.INVALID then
          match m4.setView W v with
          | none => none
          | some m5 =>
            match m5.current_view_ with
            | none => none
            | some _ => m5.setCurrentSource (some p)
        else some m4) ∧ Mixer.Same m m4 ∧
      m4.sessions = Function.update m.sessions a ((m.sessions a).addSource p) := by
    refine ⟨Mixer.attach
      { m1 with
        sessions := Function.update m1.sessions a ((m1.sessions a).addSource p)
        sources := Function.update m1.sources p (W.setAlpha (W.setDepth (m1.sources p))) }
      (some p), ?_, ?_, ?_⟩
    · simp only [Mixer.insertSource, h1, ha1]
    · exact s1.sameTrans ⟨rfl, rfl, rfl, rfl, rfl, rfl, rfl, rfl, rfl, rfl, rfl, rfl, rfl⟩
    · show Function.update m1.sessions a ((m1.sessions a).addSource p) = _
      rw [e1]
  have ha4 : m4.session_ = some a := s4.session_.trans ha
  by_cases hv : v = View.INVALID
  · refine ⟨m4, ?_, s4.toExt, ha4, e4, fun _ => s4, fun h => absurd hv h⟩
    rw [h4]
    simp [hv]
  · obtain ⟨m5, h5, x5, k5, v5, e5, -⟩ := Mixer.setView_ext W m4 (by simp [ha4]) v
    obtain ⟨m6, h6, q6, c6⟩ := Mixer.setCurrentSource_quiet m5 (by simp [k5, ha4]) (some p)
    refine ⟨m6, ?_, s4.toExt.extTrans (x5.extTrans q6.ext), q6.session_.trans (k5.trans ha4),
      (q6.sessions.trans e5).trans e4, fun h => absurd h hv, fun _ => ⟨c6, q6.current_view_.trans v5⟩⟩
    rw [h4]
    simp only [hv, ne_eq, not_false_eq_true, if_true, h5, v5, h6]

theorem Mixer.deleteSource_ext (W : Frame) (m : Mixer) (hl : m.session_.isSome)
    (s : Option SourcePtr) :
    ∃ m1, m.deleteSource W s = some m1 ∧ Mixer.Ext m m1 ∧ m1.session_ = m.session_ ∧
      m1.current_view_.isSome = m.current_view_.isSome := by
  obtain ⟨a, ha⟩ := Option.isSome_iff_exists.1 hl
  -- the state after the removal
  obtain ⟨m2, h2, x2, k2, v2⟩ : ∃ m2 : Mixer,
      m.deleteSource W s =
        (if m2.current_view_ = some View.TRANSITION then
          m2.setView { W with transitionSession := none } View.MIXING
        else some m2) ∧ Mixer.Ext m m2 ∧ m2.session_ = m.session_ ∧
      m2.current_view_ = m.current_view_ := by
    cases s with
    | none => exact ⟨m, rfl, Mixer.Ext.extRefl m, rfl, rfl⟩
    | some p =>
      obtain ⟨m1, h1, q1, -⟩ := Mixer.detach_quiet m hl (some p)
      have ha1 : m1.session_ = some a := q1.session_.trans ha
      refine ⟨{ m1 with
        sessions := Function.update m1.sessions a ((m1.sessions a).deleteSource p) }, ?_, ?_,
        q1.session_, q1.current_view_⟩
      · simp only [Mixer.deleteSource, h1, ha1]
      · exact q1.ext.extTrans (Mixer.Ext.extOfFields rfl rfl rfl rfl rfl rfl rfl rfl)
  by_cases ht : m2.current_view_ = some View.TRANSITION
  · obtain ⟨m3, h3, x3, k3, v3, -⟩ := Mixer.setView_ext { W with transitionSession := none } m2
      (by rw [k2]; exact hl) View.MIXING
    refine ⟨m3, ?_, x2.extTrans x3, k3.trans k2, ?_⟩
    · rw [h2]; simp only [ht, if_true, h3]
    · rw [v3, ← v2, ht]; rfl
  · exact ⟨m2, by rw [h2]; simp only [ht, if_false], x2, k2, by rw [v2]⟩

theorem Mixer.forEach_same {α : Type} (f : Mixer → α → Option Mixer)
    (hf : ∀ m x, m.session_.isSome → ∃ m1, f m x = some m1 ∧ Mixer.Same m m1)
    (l : List α) (m : Mixer) (hm : m.session_.isSome) :
    ∃ m1, Mixer.forEach f m l = some m1 ∧ Mixer.Same m m1 :=
  Mixer.forEach_rel f Mixer.Same (fun m => m.session_.isSome = true) Mixer.Same.sameRefl
    (fun _ _ _ => Mixer.Same.sameTrans) (fun _ _ h k => by simpa only [k.session_] using h) hf l m hm

theorem Mixer.mergeStep_same (W : Frame) (m : Mixer) (p : SourcePtr) (hl : m.session_.isSome) :
    ∃ m1, m.mergeStep W p = some m1 ∧ Mixer.Same m m1 := by
  obtain ⟨a, ha⟩ := Option.isSome_iff_exists.1 hl
  obtain ⟨m1, h1, s1, -⟩ := Mixer.renameSource_same W.transliterate m hl (some p)
    (m.sources p).name_
  have ha1 : m1.session_ = some a := s1.session_.trans ha
  refine ⟨Mixer.attach
    { m1 with sessions := Function.update m1.sessions a ((m1.sessions a).addSource p) }
    (some p), ?_, ?_⟩
  · simp only [Mixer.mergeStep, h1, ha1]
  · exact s1.sameTrans ⟨rfl, rfl, rfl, rfl, rfl, rfl, rfl, rfl, rfl, rfl, rfl, rfl, rfl⟩

theorem Mixer.merge_same (W : Frame) (m : Mixer) (hg : m.Good) (session : Option (List SourcePtr)) :
    ∃ m1, m.merge W session = some m1 ∧ Mixer.Same m m1 := by
  cases session with
  | none => exact ⟨m, rfl, Mixer.Same.sameRefl m⟩
  | some l =>
    obtain ⟨m1, h1, s1⟩ := Mixer.forEach_same (Mixer.mergeStep W)
      (fun mm x h => Mixer.mergeStep_same W mm x h) l m hg.1
    obtain ⟨v, hv⟩ := Option.isSome_iff_exists.1 (s1.current_view_ ▸ hg.2)
    exact ⟨m1, by simp only [Mixer.merge, h1, hv], s1⟩

theorem Mixer.mergeSourceStep_same (W : Frame) (src : SourcePtr) (m : Mixer) (p : SourcePtr)
    (hl : m.session_.isSome) : ∃ m1, m.mergeSourceStep W src p = some m1 ∧ Mixer.Same m m1 := by
  obtain ⟨a, ha⟩ := Option.isSome_iff_exists.1 hl
  obtain ⟨m1, h1, s1, -⟩ := Mixer.renameSource_same W.transliterate m hl (some p)
    (m.sources p).name_
  have ha1 : m1.session_ = some a := s1.session_.trans ha
  refine ⟨Mixer.attach
    { m1 with
      sources := Function.update m1.sources p (W.place (m1.sources p) (m1.sources src))
      sessions := Function.update m1.sessions a ((m1.sessions a).addSource p) }
    (some p), ?_, ?_⟩
  · simp only [Mixer.mergeSourceStep, h1, ha1]
  · exact s1.sameTrans ⟨rfl, rfl, rfl, rfl, rfl, rfl, rfl, rfl, rfl, rfl, rfl, rfl, rfl⟩

theorem Mixer.mergeSource_same (W : Frame) (m : Mixer) (hg : m.Good) (source : Option SourcePtr) :
    ∃ m1, m.mergeSource W source = some m1 ∧ Mixer.Same m m1 := by
  cases source with
  | none => exact ⟨m, rfl, Mixer.Same.sameRefl m⟩
  | some src =>
    obtain ⟨m1, h1, s1⟩ := Mixer.forEach_same (Mixer.mergeSourceStep W src)
      (fun mm x h => Mixer.mergeSourceStep_same W src mm x h) W.sourceSession m hg.1
    obtain ⟨v, hv⟩ := Option.isSome_iff_exists.1 (s1.current_view_ ▸ hg.2)
    exact ⟨m1, by simp only [Mixer.mergeSource, h1, hv], s1⟩

theorem Mixer.recreateSource_ext (W : Frame) (m : Mixer) (hl : m.session_.isSome)
    (s : SourcePtr) :
    ∃ m1 b, m.recreateSource W s = some (m1, b) ∧ Mixer.Ext m m1 ∧ m1.session_ = m.session_ ∧
      m1.current_view_ = m.current_view_ := by
  obtain ⟨a, ha⟩ := Option.isSome_iff_exists.1 hl
  rcases hr : W.replacement with _ | r
  · exact ⟨m, false, by simp only [Mixer.recreateSource, hr], Mixer.Ext.extRefl m, rfl, rfl⟩
  · obtain ⟨m1, h1, q1, -⟩ := Mixer.detach_quiet m hl (some s)
    have ha1 : m1.session_ = some a := q1.session_.trans ha
    refine ⟨{ Mixer.attach
        { m1 with sessions := Function.update m1.sessions a ((m1.sessions a).deleteSource s) }
        (some r) with
        sessions := Function.update
          (Function.update m1.sessions a ((m1.sessions a).deleteSource s)) a
          ((Function.update m1.sessions a ((m1.sessions a).deleteSource s) a).addSource r) },
      true, ?_, ?_, q1.session_, q1.current_view_⟩
    · simp only [Mixer.recreateSource, hr, h1, ha1]
      rfl
    · exact q1.ext.extTrans (Mixer.Ext.extOfFields rfl rfl rfl rfl rfl rfl rfl rfl)

theorem Mixer.detachAll_quiet (l : List SourcePtr) (m : Mixer) (hl : m.session_.isSome) :
    ∃ m1, m.detachAll l = some m1 ∧ Mixer.Quiet m m1 := by
  induction l generalizing m with
  | nil => exact ⟨m, rfl, Mixer.Quiet.quietRefl m⟩
  | cons it l ih =>
    obtain ⟨m1, h1, k1, -⟩ := Mixer.detach_quiet m hl (some it)
    obtain ⟨m2, h2, k2⟩ := ih m1 (by rw [k1.session_]; exact hl)
    exact ⟨m2, by simp [Mixer.detachAll, h1, h2], k1.quietTrans k2⟩

theorem Mixer.attachAll_same (l : List SourcePtr) (m : Mixer) :
    Mixer.Same m (m.attachAll l) ∧ (m.attachAll l).sessions = m.sessions := by
  unfold Mixer.attachAll
  induction l generalizing m with
  | nil => exact ⟨Mixer.Same.sameRefl m, rfl⟩
  | cons it l ih =>
    obtain ⟨s1, e1⟩ := Mixer.attach_same m (some it)
    obtain ⟨s2, e2⟩ := ih (m.attach (some it))
    exact ⟨s1.sameTrans s2, e2.trans e1⟩

theorem Mixer.swap_ext (m : Mixer) (hl : m.session_.isSome) :
    ∃ m1, m.swap = some m1 ∧ Mixer.Ext m m1 ∧
      (∀ a b, m.session_ = some a → m.back_session_ = some b →
        m1.session_ = some b ∧ m1.garbage_ = m.garbage_ ++ [a]) ∧
      (m.back_session_ = none → m1 = m) := by
  obtain ⟨a, ha⟩ := Option.isSome_iff_exists.1 hl
  rcases hb : m.back_session_ with _ | b
  · exact ⟨m, by simp [Mixer.swap, hb], Mixer.Ext.extRefl m, fun _ _ _ h => by simp at h,
      fun _ => rfl⟩
  · obtain ⟨m1, h1, q1⟩ := Mixer.detachAll_quiet (m.sessions a).sources_
      { m with selection_ := Selection.clear m.selection_ } hl
    have hs1 : m1.session_ = some a := q1.session_.trans ha
    obtain ⟨s3, e3⟩ := Mixer.attachAll_same (m1.sessions b).sources_
      { m1 with session_ := some b, back_session_ := m1.session_ }
    have f1 := s3.session_
    have f2 := s3.back_session_
    have f3 := s3.garbage_
    have f4 := s3.toExt
    unfold Mixer.swap
    simp only [hb, ha] at h1 ⊢
    simp only [h1]
    simp only [hs1] at f1 f2 f3 f4 ⊢
    generalize Mixer.attachAll _ _ = m3 at f1 f2 f3 f4 ⊢
    simp only [f2]
    refine ⟨_, rfl, ?_, ?_, fun h => by simp at h⟩
    · have x0 : Mixer.Ext m { m with selection_ := Selection.clear m.selection_ } :=
        Mixer.Ext.extOfFields rfl rfl rfl rfl rfl rfl rfl rfl
      have x1 : Mixer.Ext m m1 := x0.extTrans q1.ext
      refine ⟨fun _ => by simp [f1], fun h => f4.view (x1.view h), ?_, ?_, ?_, ?_, ?_, ?_⟩
      · exact f4.loaders.trans x1.loaders
      · exact f4.importers.trans x1.importers
      · exact f4.toImport.trans x1.toImport
      · exact f4.candidates.trans x1.candidates
      · exact f4.deleted.trans x1.deleted
      · exact ⟨[a], by simp [f3, q1.garbage_]⟩
    · intro a1 b1 e1 e2
      cases e1
      cases e2
      exact ⟨f1, by simp [f3, q1.garbage_]⟩

/-! ## The blocks of `Mixer::update` -/

theorem Session.mem_addSource (s : Session) (p : SourcePtr) : p ∈ (s.addSource p).sources_ := by
  unfold Session.addSource
  by_cases h : p ∈ s.sources_
  · simp [h]
  · simp [h]

theorem Mixer.updateGarbage_spec (m : Mixer) :
    Mixer.Same m { m.updateGarbage with garbage_ := m.garbage_, deleted_ := m.deleted_ } ∧
    m.updateGarbage.sessions = m.sessions ∧ m.updateGarbage.sources = m.sources ∧
    (m.garbage_ = [] → m.updateGarbage = m) ∧
    (∀ g, m.garbage_.getLast? = some g →
      m.updateGarbage.deleted_ = m.deleted_ ++ [g] ∧
      m.updateGarbage.garbage_ = m.garbage_.dropLast) := by
  unfold Mixer.updateGarbage
  rcases hg : m.garbage_.getLast? with _ | g
  · refine ⟨⟨rfl, rfl, rfl, rfl, rfl, rfl, rfl, rfl, rfl, rfl, rfl, rfl, rfl⟩, rfl, rfl,
      fun _ => rfl, fun g h => by simp at h⟩
  · refine ⟨⟨rfl, rfl, rfl, rfl, rfl, rfl, rfl, rfl, rfl, rfl, rfl, rfl, rfl⟩, rfl, rfl,
      fun h => by simp [h] at hg, fun g1 h => ?_⟩
    cases h
    exact ⟨rfl, rfl⟩

theorem Mixer.updateGarbage_good (m : Mixer) (hg : m.Good) : m.updateGarbage.Good := by
  obtain ⟨s, -⟩ := Mixer.updateGarbage_spec m
  have h1 := s.session_
  have h2 := s.current_view_
  simp only at h1 h2
  exact ⟨by rw [h1]; exact hg.1, by rw [h2]; exact hg.2⟩

theorem Mixer.updateImporters_grow (W : Frame) (m : Mixer) (hg : m.Good) :
    ∃ m1, m.updateImporters W = some m1 ∧ Mixer.Grow m m1 ∧
      m1.candidate_sources_ = m.candidate_sources_ := by
  unfold Mixer.updateImporters
  by_cases he : m.sessionImporters_.isEmpty = true
  · exact ⟨m, by simp [he], Mixer.Grow.growRefl m, rfl⟩
  · by_cases hr : W.importerReady = true
    · obtain ⟨m1, h1, s1⟩ := Mixer.merge_same W m hg W.imported
      refine ⟨{ m1 with sessionImporters_ := m1.sessionImporters_.dropLast }, ?_, ?_,
        s1.candidates⟩
      · simp [he, hr, h1]
      · have x := s1.toExt.grow
        exact ⟨x.live, x.view, x.deleted, x.garbage, x.loaders,
          le_trans (by simp) x.importers⟩
    · exact ⟨m, by simp [he, hr], Mixer.Grow.growRefl m, rfl⟩

theorem Mixer.updateLoaders_grow (W : Frame) (m : Mixer) :
    Mixer.Grow m (m.updateLoaders W) ∧
      (m.updateLoaders W).candidate_sources_ = m.candidate_sources_ := by
  unfold Mixer.updateLoaders
  by_cases he : m.sessionLoaders_.isEmpty = true
  · rw [if_pos he]
    exact ⟨Mixer.Grow.growRefl m, rfl⟩
  · rw [if_neg he]
    by_cases hr : W.loaderReady = true
    · rw [if_pos hr]
      obtain ⟨x1, -⟩ := Mixer.set_ext m W.loaded
      have x := x1.grow
      exact ⟨⟨x.live, x.view, x.deleted, x.garbage, le_trans (by simp) x.loaders, x.importers⟩,
        x1.candidates⟩
    · rw [if_neg hr]
      exact ⟨Mixer.Grow.growRefl m, rfl⟩

theorem Mixer.updateSourceImport_grow (W : Frame) (m : Mixer) (hg : m.Good) :
    ∃ m1, m.updateSourceImport W = some m1 ∧ Mixer.Grow m m1 ∧
      m1.candidate_sources_ = m.candidate_sources_ := by
  unfold Mixer.updateSourceImport
  rcases hs : m.sessionSourceToImport_.getLast? with _ | source
  · exact ⟨m, rfl, Mixer.Grow.growRefl m, rfl⟩
  · obtain ⟨m1, h1, s1⟩ := Mixer.mergeSource_same W m hg source
    obtain ⟨m2, h2, x2, -⟩ := Mixer.deleteSource_ext W m1 (by rw [s1.session_]; exact hg.1) source
    refine ⟨{ m2 with sessionSourceToImport_ := m2.sessionSourceToImport_.dropLast }, ?_, ?_,
      x2.candidates.trans s1.candidates⟩
    · simp [h1, h2]
    · have x := (s1.toExt.extTrans x2).grow
      exact ⟨x.live, x.view, x.deleted, x.garbage, x.loaders, x.importers⟩

theorem Mixer.updateQueues_grow (W : Frame) (m : Mixer) (hg : m.Good) :
    ∃ m1, m.updateQueues W = some m1 ∧ Mixer.Grow m.updateGarbage m1 ∧
      m1.candidate_sources_ = m.candidate_sources_ := by
  have g0 := Mixer.updateGarbage_good m hg
  obtain ⟨s0, -⟩ := Mixer.updateGarbage_spec m
  have c0 : m.updateGarbage.candidate_sources_ = m.candidate_sources_ := s0.candidates
  obtain ⟨m1, h1, x1, c1⟩ := Mixer.updateImporters_grow W m.updateGarbage g0
  obtain ⟨x2, c2⟩ := Mixer.updateLoaders_grow W m1
  obtain ⟨m3, h3, x3, c3⟩ := Mixer.updateSourceImport_grow W (m1.updateLoaders W)
    (x2.growGood (x1.growGood g0))
  exact ⟨m3, by simp only [Mixer.updateQueues, h1, h3], x1.growTrans (x2.growTrans x3),
    c3.trans (c2.trans (c1.trans c0))⟩

theorem Mixer.updateSwap_grow (m : Mixer) (hg : m.Good) :
    ∃ m1, m.updateSwap = some m1 ∧ Mixer.Grow m m1 ∧
      m1.candidate_sources_ = m.candidate_sources_ ∧
      (∀ a b, m.sessionSwapRequested_ = true → m.session_ = some a → m.back_session_ = some b →
        m1.session_ = some b ∧ m1.garbage_ = m.garbage_ ++ [a]) ∧
      (m.sessionSwapRequested_ = false ∨ m.back_session_ = none →
        m1.session_ = m.session_ ∧ m1.garbage_ = m.garbage_) := by
  obtain ⟨a, ha⟩ := Option.isSome_iff_exists.1 hg.1
  unfold Mixer.updateSwap
  by_cases hr : m.sessionSwapRequested_ = true
  · have x0 : Mixer.Ext m { m with sessionSwapRequested_ := false } :=
      Mixer.Ext.extOfFields rfl rfl rfl rfl rfl rfl rfl rfl
    rcases hb : m.back_session_ with _ | b
    · refine ⟨{ m with sessionSwapRequested_ := false }, by simp [hr, hb], x0.grow, rfl,
        fun _ _ _ _ h => by simp at h, fun _ => ⟨rfl, rfl⟩⟩
    · obtain ⟨m2, h2, x2, k2, -⟩ := Mixer.swap_ext { m with sessionSwapRequested_ := false } hg.1
      obtain ⟨e1, e2⟩ := k2 a b ha hb
      refine ⟨m2, ?_, (x0.extTrans x2).grow, x2.candidates, ?_, fun h => by simp [hr, hb] at h⟩
      · simp only [hr, hb] at h2 ⊢
        simp only [if_true, h2, e1]
      · intro a1 b1 _ e3 e4
        rw [ha] at e3
        cases e3
        cases e4
        exact ⟨e1, e2⟩
  · exact ⟨m, by simp [hr], Mixer.Grow.growRefl m, rfl, fun _ _ h => absurd h hr,
      fun _ => ⟨rfl, rfl⟩⟩

theorem Mixer.updateCandidates_spec (W : Frame) (m : Mixer) (a : SessionPtr)
    (ha : m.session_ = some a) :
    ∃ m1, m.updateCandidates W = some m1 ∧ Mixer.Grow m m1 ∧ m1.session_ = some a ∧
      m1.candidate_sources_ = m.candidate_sources_.tail ∧
      m1.sessionLoaders_ = m.sessionLoaders_ ∧ m1.sessionImporters_ = m.sessionImporters_ ∧
      (m.candidate_sources_ = [] → m1 = m) ∧
      (∀ front rest, m.candidate_sources_ = front :: rest →
        m1.sessions = Function.update m.sessions a ((m.sessions a).addSource front) ∧
        (rest ≠ [] → m1.current_source_ = m.current_source_ ∧
          m1.current_source_index_ = m.current_source_index_ ∧
          m1.selection_ = m.selection_ ∧ m1.current_view_ = m.current_view_) ∧
        (rest = [] → m1.current_source_ = some front ∧
          m1.current_view_ = some View.MIXING)) := by
  unfold Mixer.updateCandidates
  rcases hc : m.candidate_sources_ with _ | ⟨front, rest⟩
  · exact ⟨m, rfl, Mixer.Grow.growRefl m, ha, by simp [hc], rfl, rfl, fun _ => rfl,
      fun _ _ h => by simp at h⟩
  · obtain ⟨m1, h1, x1, k1, e1, i1, v1⟩ := Mixer.insertSource_spec W m a front
      (if rest.length + 1 > 1 then View.INVALID else View.MIXING) ha
    refine ⟨{ m1 with candidate_sources_ := m1.candidate_sources_.tail }, ?_, ?_, k1, ?_,
      x1.loaders, x1.importers, fun h => by simp at h, ?_⟩
    · simp only [h1]
    · have x := x1.grow
      exact ⟨x.live, x.view, x.deleted, x.garbage, x.loaders, x.importers⟩
    · show m1.candidate_sources_.tail = _
      rw [x1.candidates, hc]
    · intro f r hfr
      cases hfr
      refine ⟨e1, fun hne => ?_, fun he => ?_⟩
      · have hlen : rest.length + 1 > 1 := by
          cases rest with
          | nil => exact absurd rfl hne
          | cons _ _ => simp
        have s1 := i1 (by simp [hlen])
        exact ⟨s1.current_source_, s1.current_source_index_, s1.selection_, s1.current_view_⟩
      · subst he
        exact v1 (by simp)

theorem Mixer.updateSession_grow (W : Frame) (m : Mixer) (hl : m.session_.isSome) :
    ∃ m1, m.updateSession W = some m1 ∧ Mixer.Grow m m1 ∧
      m1.candidate_sources_ = m.candidate_sources_ ∧
      m1.sessionLoaders_ = m.sessionLoaders_ ∧ m1.sessionImporters_ = m.sessionImporters_ := by
  obtain ⟨a, ha⟩ := Option.isSome_iff_exists.1 hl
  -- the state after the update of the session
  obtain ⟨m0, h0, x0, hl0⟩ : ∃ m0 : Mixer,
      m.updateSession W =
        (match W.failed with
        | none => some m0
        | some f =>
          if W.failedIsRender then
            match m0.recreateSource W f with
            | none => none
            | some (m2, true) => m2.deleteSource W none
            | some (m2, false) => m2.deleteSource W (some f)
          else m0.deleteSource W (some f)) ∧
      Mixer.Ext m m0 ∧ m0.session_.isSome :=
    ⟨{ m with sources := W.sessionUpdate m.sources, session_ := some a },
      by simp only [Mixer.updateSession, ha],
      Mixer.Ext.extOfFields ha.symm rfl rfl rfl rfl rfl rfl rfl, rfl⟩
  have key : ∃ m1, m.updateSession W = some m1 ∧ Mixer.Ext m m1 := by
    rw [h0]
    rcases hf : W.failed with _ | f
    · exact ⟨m0, rfl, x0⟩
    · by_cases hr : W.failedIsRender = true
      · obtain ⟨m2, b, h2, x2, k2, -⟩ := Mixer.recreateSource_ext W m0 hl0 f
        have hl2 : m2.session_.isSome := by rw [k2]; exact hl0
        cases b with
        | true =>
          obtain ⟨m3, h3, x3, -⟩ := Mixer.deleteSource_ext W m2 hl2 none
          exact ⟨m3, by simp only [hr, if_true, h2, h3], x0.extTrans (x2.extTrans x3)⟩
        | false =>
          obtain ⟨m3, h3, x3, -⟩ := Mixer.deleteSource_ext W m2 hl2 (some f)
          exact ⟨m3, by simp only [hr, if_true, h2, h3], x0.extTrans (x2.extTrans x3)⟩
      · obtain ⟨m3, h3, x3, -⟩ := Mixer.deleteSource_ext W m0 hl0 (some f)
        exact ⟨m3, by simp only [hr, h3]; rfl, x0.extTrans x3⟩
  obtain ⟨m1, h1, x1⟩ := key
  exact ⟨m1, h1, x1.grow, x1.candidates, x1.loaders, x1.importers⟩

theorem Mixer.update_blocks (W : Frame) (m : Mixer) (hg : m.Good) :
    ∃ m1 m2 m3 m4, m.updateQueues W = some m1 ∧ m1.updateSwap = some m2 ∧
      m2.updateCandidates W = some m3 ∧ m3.updateSession W = some m4 ∧
      m.update W = some m4 ∧ m1.Good ∧ m2.Good ∧ m3.Good ∧ m4.Good ∧
      Mixer.Grow m.updateGarbage m1 ∧ Mixer.Grow m1 m2 ∧ Mixer.Grow m2 m3 ∧ Mixer.Grow m3 m4 ∧
      m1.candidate_sources_ = m.candidate_sources_ ∧
      m2.candidate_sources_ = m.candidate_sources_ ∧
      m3.candidate_sources_ = m.candidate_sources_.tail ∧
      m4.candidate_sources_ = m.candidate_sources_.tail := by
  have g0 := Mixer.updateGarbage_good m hg
  obtain ⟨m1, h1, x1, c1⟩ := Mixer.updateQueues_grow W m hg
  have g1 := x1.growGood g0
  obtain ⟨m2, h2, x2, c2, -⟩ := Mixer.updateSwap_grow m1 g1
  have g2 := x2.growGood g1
  obtain ⟨a, ha⟩ := Option.isSome_iff_exists.1 g2.1
  obtain ⟨m3, h3, x3, k3, c3, -⟩ := Mixer.updateCandidates_spec W m2 a ha
  have g3 := x3.growGood g2
  obtain ⟨m4, h4, x4, c4, -⟩ := Mixer.updateSession_grow W m3 g3.1
  refine ⟨m1, m2, m3, m4, h1, h2, h3, h4, by simp only [Mixer.update, h1, h2, h3, h4],
    g1, g2, g3, x4.growGood g3, x1, x2, x3, x4, c1, c2.trans c1, ?_, ?_⟩
  · rw [c3, c2, c1]
  · rw [c4, c3, c2, c1]

/-! ## Sequences of calls -/

theorem Mixer.load_fields (m : Mixer) (f : String) :
    (m.load f).session_ = m.session_ ∧ (m.load f).current_view_ = m.current_view_ ∧
    (m.load f).sessionImporters_ = m.sessionImporters_ ∧
    (m.sessionLoaders_.length ≤ 1 → (m.load f).sessionLoaders_.length ≤ 1) := by
  unfold Mixer.load
  by_cases h1 : f.isEmpty = true
  · rw [if_pos h1]
    exact ⟨rfl, rfl, rfl, id⟩
  · rw [if_neg h1]
    by_cases h2 : m.sessionLoaders_.isEmpty = true
    · rw [if_pos h2]
      refine ⟨rfl, rfl, rfl, fun _ => ?_⟩
      have : m.sessionLoaders_ = [] := List.isEmpty_iff.1 h2
      simp [this]
    · rw [if_neg h2]
      exact ⟨rfl, rfl, rfl, id⟩

theorem Mixer.import_fields (m : Mixer) (f : String) :
    (m.import f).session_ = m.session_ ∧ (m.import f).current_view_ = m.current_view_ ∧
    (m.import f).sessionLoaders_ = m.sessionLoaders_ ∧
    (m.sessionImporters_.length ≤ 1 → (m.import f).sessionImporters_.length ≤ 1) := by
  unfold Mixer.import
  by_cases h2 : m.sessionImporters_.isEmpty = true
  · rw [if_pos h2]
    refine ⟨rfl, rfl, rfl, fun _ => ?_⟩
    have : m.sessionImporters_ = [] := List.isEmpty_iff.1 h2
    simp [this]
  · rw [if_neg h2]
    exact ⟨rfl, rfl, rfl, id⟩

theorem Mixer.update_grow (W : Frame) (m : Mixer) (hg : m.Good) :
    ∃ m4, m.update W = some m4 ∧ m4.Good ∧
      m4.sessionLoaders_.length ≤ m.sessionLoaders_.length ∧
      m4.sessionImporters_.length ≤ m.sessionImporters_.length := by
  obtain ⟨m1, m2, m3, m4, -, -, -, -, h, -, -, -, g4, x1, x2, x3, x4, -⟩ :=
    Mixer.update_blocks W m hg
  have x := x1.growTrans (x2.growTrans (x3.growTrans x4))
  obtain ⟨s0, -⟩ := Mixer.updateGarbage_spec m
  have l0 : m.updateGarbage.sessionLoaders_ = m.sessionLoaders_ := s0.loaders
  have i0 : m.updateGarbage.sessionImporters_ = m.sessionImporters_ := s0.importers
  exact ⟨m4, h, g4, by rw [← l0]; exact x.loaders, by rw [← i0]; exact x.importers⟩

theorem Mixer.call_good (m : Mixer) (r : Request) (hg : m.Good) :
    ∃ m1, m.call r = some m1 ∧ m1.Good ∧
      (m.sessionLoaders_.length ≤ 1 → m1.sessionLoaders_.length ≤ 1) ∧
      (m.sessionImporters_.length ≤ 1 → m1.sessionImporters_.length ≤ 1) := by
  cases r with
  | clear fresh =>
    obtain ⟨x, -⟩ := Mixer.clear_ext m fresh
    exact ⟨m.clear fresh, rfl, x.extGood hg, fun h => by rw [x.loaders]; exact h,
      fun h => by rw [x.importers]; exact h⟩
  | set s =>
    obtain ⟨x, -⟩ := Mixer.set_ext m s
    exact ⟨m.set s, rfl, x.extGood hg, fun h => by rw [x.loaders]; exact h,
      fun h => by rw [x.importers]; exact h⟩
  | swap =>
    obtain ⟨m1, h1, x, -⟩ := Mixer.swap_ext m hg.1
    exact ⟨m1, h1, x.extGood hg, fun h => by rw [x.loaders]; exact h,
      fun h => by rw [x.importers]; exact h⟩
  | update W =>
    obtain ⟨m1, h1, g1, l1, i1⟩ := Mixer.update_grow W m hg
    exact ⟨m1, h1, g1, fun h => le_trans l1 h, fun h => le_trans i1 h⟩
  | load f =>
    obtain ⟨e1, e2, e3, e4⟩ := Mixer.load_fields m f
    exact ⟨m.load f, rfl, ⟨by rw [e1]; exact hg.1, by rw [e2]; exact hg.2⟩, e4,
      fun h => by rw [e3]; exact h⟩
  | import_ f =>
    obtain ⟨e1, e2, e3, e4⟩ := Mixer.import_fields m f
    exact ⟨m.import f, rfl, ⟨by rw [e1]; exact hg.1, by rw [e2]; exact hg.2⟩,
      fun h => by rw [e3]; exact h, e4⟩

theorem Mixer.run_good (rs : List Request) (m : Mixer) (hg : m.Good) :
    ∃ m1, m.run rs = some m1 ∧ m1.Good ∧
      (m.sessionLoaders_.length ≤ 1 → m1.sessionLoaders_.length ≤ 1) ∧
      (m.sessionImporters_.length ≤ 1 → m1.sessionImporters_.length ≤ 1) := by
  induction rs generalizing m with
  | nil => exact ⟨m, rfl, hg, id, id⟩
  | cons r rs ih =>
    obtain ⟨m1, h1, g1, l1, i1⟩ := Mixer.call_good m r hg
    obtain ⟨m2, h2, g2, l2, i2⟩ := ih m1 g1
    exact ⟨m2, by simp only [Mixer.run, h1, h2], g2, fun h => l2 (l1 h), fun h => i2 (i1 h)⟩

theorem Mixer.new_good_aux (W : Frame) (m0 : Mixer) (fresh fresh2 : SessionPtr)
    (autoload : Option String) (view : View) (j1 : m0.session_ = some fresh)
    (j2 : m0.sessionLoaders_ = []) (j3 : m0.sessionImporters_ = []) :
    ∃ m, Mixer.setView W
        (match autoload with
        | some filename => m0.load filename
        | none => m0.clear fresh2) view = some m ∧ m.Good ∧
      m.session_ = some fresh ∧
      m.sessionLoaders_.length ≤ 1 ∧ m.sessionImporters_.length ≤ 1 := by
  cases autoload with
  | none =>
    obtain ⟨x1, k1⟩ := Mixer.clear_ext m0 fresh2
    obtain ⟨m2, h2, x2, s2, v2, -⟩ := Mixer.setView_ext W (m0.clear fresh2)
      (by simp [k1, j1]) view
    exact ⟨m2, h2, ⟨by simp [s2, k1, j1], by simp [v2]⟩, s2.trans (k1.trans j1),
      by simp [x2.loaders, x1.loaders, j2], by simp [x2.importers, x1.importers, j3]⟩
  | some filename =>
    obtain ⟨e1, -, e3, e4⟩ := Mixer.load_fields m0 filename
    obtain ⟨m2, h2, x2, s2, v2, -⟩ := Mixer.setView_ext W (m0.load filename)
      (by simp [e1, j1]) view
    exact ⟨m2, h2, ⟨by simp [s2, e1, j1], by simp [v2]⟩, s2.trans (e1.trans j1),
      by rw [x2.loaders]; exact e4 (by simp [j2]), by simp [x2.importers, e3, j3]⟩

theorem Mixer.new_good (W : Frame) (sources : SourcePtr → Source)
    (sessions : SessionPtr → Session) (fresh fresh2 : SessionPtr) (autoload : Option String)
    (view : View) :
    ∃ m0, Mixer.new W sources sessions fresh fresh2 autoload view = some m0 ∧ m0.Good ∧
      m0.session_ = some fresh ∧
      m0.sessionLoaders_.length ≤ 1 ∧ m0.sessionImporters_.length ≤ 1 :=
  Mixer.new_good_aux W _ fresh fresh2 autoload view rfl rfl rfl

/-! ## The live session -/

/-- C11: the constructor `Mixer::Mixer` returns with `session_` non-null (and a current view);
every sequence of calls of `clear`, `set` (the null argument included), `swap`, `update`
(whatever the collaborators answer), `load` and `import` on a mixer with a live session and a
current view returns with `session_` non-null and a current view; and the swap block of `update`
that finds the swap requested with no back session staged only resets the request, keeping the
live session. -/
theorem Mixer.session_never_null :
    (∀ (W : Frame) (sources : SourcePtr → Source) (sessions : SessionPtr → Session)
      (fresh fresh2 : SessionPtr) (autoload : Option String) (view : View),
      ∃ m0, Mixer.new W sources sessions fresh fresh2 autoload view = some m0 ∧
        m0.session_ = some fresh ∧ m0.current_view_.isSome) ∧
    (∀ (m : Mixer) (rs : List Request), m.session_.isSome → m.current_view_.isSome →
      ∃ m1, m.run rs = some m1 ∧ m1.session_.isSome ∧ m1.current_view_.isSome) ∧
    (∀ m : Mixer, m.sessionSwapRequested_ = true → m.back_session_ = none →
      m.updateSwap = some { m with sessionSwapRequested_ := false }) := by
  refine ⟨fun W sources sessions fresh fresh2 autoload view => ?_, fun m rs h1 h2 => ?_,
    fun m h1 h2 => ?_⟩
  · obtain ⟨m0, h0, g0, s0, -⟩ := Mixer.new_good W sources sessions fresh fresh2 autoload view
    exact ⟨m0, h0, s0, g0.2⟩
  · obtain ⟨m1, e1, g1, -⟩ := Mixer.run_good rs m ⟨h1, h2⟩
    exact ⟨m1, e1, g1.1, g1.2⟩
  · simp [Mixer.updateSwap, h1, h2]

/-- C11 on a mixer with the swap requested and no back session: an update, a `set(nullptr)` and
a `swap` return with a live session, and the swap block only resets the request. -/
theorem Mixer.session_never_null_witness :
    (∃ m1, requestMixer.run [Request.update {}, Request.set none, Request.swap] = some m1 ∧
      m1.session_.isSome ∧ m1.current_view_.isSome) ∧
    requestMixer.updateSwap = some { requestMixer with sessionSwapRequested_ := false } :=
  ⟨Mixer.session_never_null.2.1 requestMixer _ rfl rfl,
   Mixer.session_never_null.2.2 requestMixer rfl rfl⟩

/-! ## Loaders and importers -/

/-- C15: on a mixer with a live session, a current view, at most one loader and at most one
importer pending, every sequence of calls (of `load`, `import` and `update` with any answers of
the collaborators, and also of `clear`, `set` and `swap`) returns with at most one loader and at
most one importer pending; `load` called while a loader is pending and `import` called while an
importer is pending return the mixer unchanged, and so does `load` with an empty filename. The
constructor leaves such a mixer. -/
theorem Mixer.one_loader_one_importer :
    (∀ (W : Frame) (sources : SourcePtr → Source) (sessions : SessionPtr → Session)
      (fresh fresh2 : SessionPtr) (autoload : Option String) (view : View),
      ∃ m0, Mixer.new W sources sessions fresh fresh2 autoload view = some m0 ∧
        m0.session_.isSome ∧ m0.current_view_.isSome ∧
        m0.sessionLoaders_.length ≤ 1 ∧ m0.sessionImporters_.length ≤ 1) ∧
    (∀ (m : Mixer) (rs : List Request), m.session_.isSome → m.current_view_.isSome →
      m.sessionLoaders_.length ≤ 1 → m.sessionImporters_.length ≤ 1 →
      ∃ m1, m.run rs = some m1 ∧
        m1.sessionLoaders_.length ≤ 1 ∧ m1.sessionImporters_.length ≤ 1) ∧
    (∀ (m : Mixer) (filename : String), m.sessionLoaders_ ≠ [] → m.load filename = m) ∧
    (∀ (m : Mixer) (filename : String), m.sessionImporters_ ≠ [] → m.import filename = m) ∧
    (∀ m : Mixer, m.load "" = m) := by
  refine ⟨fun W sources sessions fresh fresh2 autoload view => ?_, fun m rs h1 h2 h3 h4 => ?_,
    fun m f h => ?_, fun m f h => ?_, fun m => ?_⟩
  · obtain ⟨m0, h0, g0, -, l0, i0⟩ := Mixer.new_good W sources sessions fresh fresh2 autoload view
    exact ⟨m0, h0, g0.1, g0.2, l0, i0⟩
  · obtain ⟨m1, e1, -, l1, i1⟩ := Mixer.run_good rs m ⟨h1, h2⟩
    exact ⟨m1, e1, l1 h3, i1 h4⟩
  · have : m.sessionLoaders_.isEmpty = false := by
      cases hl : m.sessionLoaders_ with
      | nil => exact absurd hl h
      | cons _ _ => rfl
    simp [Mixer.load, this]
  · have : m.sessionImporters_.isEmpty = false := by
      cases hl : m.sessionImporters_ with
      | nil => exact absurd hl h
      | cons _ _ => rfl
    simp [Mixer.import, this]
  · have : ("" : String).isEmpty = true := by decide
    unfold Mixer.load
    rw [if_pos this]

/-- C15 on a mixer with one loader and one importer pending: after a `load`, an `import` and an
`update` there is still at most one of each, and the two requests change nothing. -/
theorem Mixer.one_loader_one_importer_witness :
    (∃ m1, queueMixer.run
        [Request.load "c.mix", Request.import_ "d.mix", Request.update {}] = some m1 ∧
      m1.sessionLoaders_.length ≤ 1 ∧ m1.sessionImporters_.length ≤ 1) ∧
    queueMixer.load "c.mix" = queueMixer ∧ queueMixer.import "d.mix" = queueMixer :=
  ⟨Mixer.one_loader_one_importer.2.1 queueMixer _ rfl rfl (by decide) (by decide),
   Mixer.one_loader_one_importer.2.2.1 queueMixer "c.mix" (by simp [queueMixer]),
   Mixer.one_loader_one_importer.2.2.2.1 queueMixer "d.mix" (by simp [queueMixer])⟩

/-! ## The current source -/

/-- C12: for a source `p` of the live session that is not the current one,
`Mixer::setCurrentSource` first un-sets the current source `c` as `unsetCurrentSource` does (with
more than one source selected `c` gets the mode SELECTED and the selection is kept, otherwise `c`
is taken out of the selection) and returns with `currentSource()` equal to `p`, `p` in mode
CURRENT and in the selection (the selection left by the un-setting if `p` was in it, `p` alone
otherwise), the current index equal to the rank of `p` in the session, and every other source
as the un-setting left it. -/
theorem Mixer.setCurrentSource_spec (m : Mixer) (a : SessionPtr) (p : SourcePtr)
    (ha : m.session_ = some a) (hp : p ∈ (m.sessions a).sources_)
    (hc : m.current_source_ ≠ some p) :
    ∃ m0 m1, m.unsetCurrentSource = some m0 ∧ m.setCurrentSource (some p) = some m1 ∧
      (∀ c, m.current_source_ = some c →
        (m.selection_.length > 1 →
          (m0.sources c).mode_ = SourceMode.SELECTED ∧ m0.selection_ = m.selection_ ∧
          (m1.sources c).mode_ = SourceMode.SELECTED) ∧
        (¬ m.selection_.length > 1 → c ∉ m0.selection_ ∧ m0.sources = m.sources)) ∧
      (m.current_source_ = none → m0 = m) ∧
      m1.currentSource = some (some p) ∧
      (∀ q, m1.currentSource = some (some q) → q = p) ∧
      (m1.sources p).mode_ = SourceMode.CURRENT ∧
      p ∈ m1.selection_ ∧
      m1.selection_ = (if p ∈ m0.selection_ then m0.selection_ else [p]) ∧
      m1.current_source_index_ = ((m.sessions a).sources_.indexOf p : Int) ∧
      (∀ q, q ≠ p → m1.sources q = m0.sources q) := by
  -- the state left by `unsetCurrentSource`
  obtain ⟨m0, h0, k0, f0, n0⟩ : ∃ m0 : Mixer, m.unsetCurrentSource = some m0 ∧
      (m0.session_ = some a ∧ m0.sessions = m.sessions) ∧
      (∀ c, m.current_source_ = some c →
        (m.selection_.length > 1 →
          m0.sources = Function.update m.sources c ((m.sources c).setMode SourceMode.SELECTED) ∧
          m0.selection_ = m.selection_) ∧
        (¬ m.selection_.length > 1 → c ∉ m0.selection_ ∧ m0.sources = m.sources)) ∧
      (m.current_source_ = none → m0 = m) := by
    rcases hcur : m.current_source_ with _ | c
    · exact ⟨m, by simp [Mixer.unsetCurrentSource, ha, hcur], ⟨ha, rfl⟩,
        fun c h => by simp at h, fun _ => rfl⟩
    · by_cases hsel : m.selection_.length > 1
      · refine ⟨{ m with
            sources := Function.update m.sources c ((m.sources c).setMode SourceMode.SELECTED)
            current_source_ := none, current_source_index_ := -1 }, ?_, ⟨ha, rfl⟩, ?_,
            fun h => by simp at h⟩
        · simp [Mixer.unsetCurrentSource, ha, hcur, hsel]
        · intro c1 h1
          cases h1
          exact ⟨fun _ => ⟨rfl, rfl⟩, fun h => absurd hsel h⟩
      · refine ⟨{ m with
            selection_ := Selection.remove m.selection_ c
            current_source_ := none, current_source_index_ := -1 }, ?_, ⟨ha, rfl⟩, ?_,
            fun h => by simp at h⟩
        · simp [Mixer.unsetCurrentSource, ha, hcur, hsel]
        · intro c1 h1
          cases h1
          refine ⟨fun h => absurd h hsel, fun _ => ⟨?_, rfl⟩⟩
          show c ∉ m.selection_.erase c
          rcases hl : m.selection_ with _ | ⟨x, _ | ⟨y, l⟩⟩
          · simp
          · by_cases hx : x = c
            · simp [hx]
            · simp [hx, Ne.symm hx]
          · rw [hl] at hsel
            simp at hsel
  obtain ⟨ha0, hs0⟩ := k0
  refine ⟨m0, { m0 with
      current_source_ := some p
      current_source_index_ := (m0.sessions a).index (some p)
      selection_ := if Selection.contains m0.selection_ p then m0.selection_
        else Selection.set m0.selection_ p
      sources := Function.update m0.sources p ((m0.sources p).setMode SourceMode.CURRENT) },
    h0, ?_, ?_, n0, ?_, ?_, ?_, ?_, ?_, ?_, ?_⟩
  · simp only [Mixer.setCurrentSource, hc, if_false, h0, ha0]
  · intro c h
    obtain ⟨f1, f2⟩ := f0 c h
    refine ⟨fun hsel => ?_, f2⟩
    obtain ⟨e1, e2⟩ := f1 hsel
    have hcp : c ≠ p := fun e => hc (by rw [h, e])
    have hm : (m0.sources c).mode_ = SourceMode.SELECTED := by
      rw [e1]
      simp [Source.setMode]
    exact ⟨hm, e2, by simpa [Function.update, hcp] using hm⟩
  · simp [Mixer.currentSource, ha0]
  · intro q hq
    simp only [Mixer.currentSource, ha0, Option.some.injEq] at hq
    exact hq.symm
  · simp [Source.setMode]
  · show p ∈ (if Selection.contains m0.selection_ p then m0.selection_
      else Selection.set m0.selection_ p)
    by_cases hin : p ∈ m0.selection_
    · simp [Selection.contains, hin]
    · simp [Selection.contains, Selection.set, hin]
  · show (if Selection.contains m0.selection_ p then m0.selection_
      else Selection.set m0.selection_ p) = _
    by_cases hin : p ∈ m0.selection_
    · simp [Selection.contains, hin]
    · simp [Selection.contains, Selection.set, hin]
  · show (m0.sessions a).index (some p) = _
    rw [hs0]
    simp [Session.index, hp]
  · intro q hq
    simp [Function.update, hq]

/-- C12 on the mixer with the sources 5 and 6, source 5 current and alone in the selection:
making source 6 current. -/
theorem Mixer.setCurrentSource_spec_witness :
    ∃ m0 m1, queueMixer.unsetCurrentSource = some m0 ∧
      queueMixer.setCurrentSource (some 6) = some m1 ∧
      (∀ c, queueMixer.current_source_ = some c →
        (queueMixer.selection_.length > 1 →
          (m0.sources c).mode_ = SourceMode.SELECTED ∧ m0.selection_ = queueMixer.selection_ ∧
          (m1.sources c).mode_ = SourceMode.SELECTED) ∧
        (¬ queueMixer.selection_.length > 1 →
          c ∉ m0.selection_ ∧ m0.sources = queueMixer.sources)) ∧
      (queueMixer.current_source_ = none → m0 = queueMixer) ∧
      m1.currentSource = some (some 6) ∧
      (∀ q, m1.currentSource = some (some q) → q = 6) ∧
      (m1.sources 6).mode_ = SourceMode.CURRENT ∧
      6 ∈ m1.selection_ ∧
      m1.selection_ = (if 6 ∈ m0.selection_ then m0.selection_ else [6]) ∧
      m1.current_source_index_ = ((queueMixer.sessions 0).sources_.indexOf 6 : Int) ∧
      (∀ q, q ≠ 6 → m1.sources q = m0.sources q) :=
  Mixer.setCurrentSource_spec queueMixer 0 6 rfl (by decide) (by decide)

/-! ## Candidates and garbage -/

theorem Mixer.updateSession_none (W : Frame) (m : Mixer) (hl : m.session_.isSome)
    (hf : W.failed = none) :
    ∃ m1, m.updateSession W = some m1 ∧ m1.session_ = m.session_ ∧
      m1.sessions = m.sessions ∧ m1.current_source_ = m.current_source_ := by
  obtain ⟨a, ha⟩ := Option.isSome_iff_exists.1 hl
  exact ⟨{ m with sources := W.sessionUpdate m.sources, session_ := some a },
    by simp only [Mixer.updateSession, ha, hf], ha.symm, rfl, rfl⟩

/-- C13: an update of a mixer with a live session and a current view returns, and its candidate
queue is the one on entry without its first element (so at most one candidate leaves it, the
oldest). Between the swap block and the update of the session the oldest candidate `front` is
added to the list of the live session `a`; when other candidates remain queued the current
source, its index and the selection are unchanged by the insertion, and when `front` was the
only candidate it becomes the current source. With no failed source the session update keeps
the session lists and the current source up to the return. -/
theorem Mixer.update_inserts_one_candidate (W : Frame) (m : Mixer) (hs : m.session_.isSome)
    (hv : m.current_view_.isSome) :
    ∃ m1 m2 m3 m4 a, m.updateQueues W = some m1 ∧ m1.updateSwap = some m2 ∧
      m2.updateCandidates W = some m3 ∧ m3.updateSession W = some m4 ∧
      m.update W = some m4 ∧
      m2.candidate_sources_ = m.candidate_sources_ ∧
      m3.candidate_sources_ = m.candidate_sources_.tail ∧
      m4.candidate_sources_ = m.candidate_sources_.tail ∧
      m2.session_ = some a ∧ m3.session_ = some a ∧
      (m.candidate_sources_ = [] → m3 = m2) ∧
      (∀ front rest, m.candidate_sources_ = front :: rest →
        m3.sessions = Function.update m2.sessions a ((m2.sessions a).addSource front) ∧
        front ∈ (m3.sessions a).sources_ ∧
        (rest ≠ [] → m3.current_source_ = m2.current_source_ ∧
          m3.current_source_index_ = m2.current_source_index_ ∧
          m3.selection_ = m2.selection_) ∧
        (rest = [] → m3.current_source_ = some front)) ∧
      (W.failed = none → m4.session_ = some a ∧ m4.sessions = m3.sessions ∧
        m4.current_source_ = m3.current_source_) := by
  obtain ⟨m1, m2, m3, m4, h1, h2, h3, h4, h, -, g2, g3, -, -, -, -, -, -, c2, c3, c4⟩ :=
    Mixer.update_blocks W m ⟨hs, hv⟩
  obtain ⟨a, ha⟩ := Option.isSome_iff_exists.1 g2.1
  obtain ⟨m3a, h3a, -, k3, -, -, -, n3, f3⟩ := Mixer.updateCandidates_spec W m2 a ha
  rw [h3] at h3a
  cases h3a
  refine ⟨m1, m2, m3, m4, a, h1, h2, h3, h4, h, c2, c3, c4, ha, k3,
    fun e => n3 (c2.trans e), fun front rest e => ?_, fun hf => ?_⟩
  · obtain ⟨e1, e2, e3⟩ := f3 front rest (c2.trans e)
    refine ⟨e1, ?_, fun hne => ?_, fun he => (e3 he).1⟩
    · rw [e1]
      simp only [Function.update_same]
      exact Session.mem_addSource _ _
    · obtain ⟨q1, q2, q3, -⟩ := e2 hne
      exact ⟨q1, q2, q3⟩
  · obtain ⟨m4a, h4a, q1, q2, q3⟩ := Mixer.updateSession_none W m3 g3.1 hf
    rw [h4] at h4a
    cases h4a
    exact ⟨q1.trans k3, q2, q3⟩

/-- C13 on a mixer with the candidates 8 and 9 queued: the update returns with only 9 queued,
and the insertion of 8 into the live session leaves the current source as it was. -/
theorem Mixer.update_inserts_one_candidate_witness :
    ∃ (m1 m2 m3 m4 : Mixer) (a : SessionPtr),
      queueMixer.updateQueues {} = some m1 ∧ m1.updateSwap = some m2 ∧
      m2.updateCandidates {} = some m3 ∧ queueMixer.update {} = some m4 ∧
      m4.candidate_sources_ = [9] ∧ m3.session_ = some a ∧ 8 ∈ (m3.sessions a).sources_ ∧
      m3.current_source_ = m2.current_source_ := by
  obtain ⟨m1, m2, m3, m4, a, h1, h2, h3, -, h, -, -, c4, -, k3, -, f, -⟩ :=
    Mixer.update_inserts_one_candidate {} queueMixer rfl rfl
  obtain ⟨-, e2, e3, -⟩ := f 8 [9] rfl
  exact ⟨m1, m2, m3, m4, a, h1, h2, h3, h, c4, k3, e2, (e3 (by simp)).1⟩

/-- C14: an update of a mixer with a live session and a current view returns; the record of
deleted sessions is the one on entry when the garbage list was empty, and the one on entry
followed by the last session of the garbage list otherwise, that session alone having left the
list. When the swap block finds the swap requested with a back session `b` staged and `a` live,
it puts `a` at the end of the garbage list, and `a` is on the garbage list at the return, no
session having been deleted since the garbage block. -/
theorem Mixer.update_frees_one_session (W : Frame) (m : Mixer) (hs : m.session_.isSome)
    (hv : m.current_view_.isSome) :
    ∃ m1 m2 m4, m.updateQueues W = some m1 ∧ m1.updateSwap = some m2 ∧
      m.update W = some m4 ∧
      (m.garbage_ = [] → m4.deleted_ = m.deleted_) ∧
      (∀ g, m.garbage_.getLast? = some g →
        m4.deleted_ = m.deleted_ ++ [g] ∧ ∃ l, m4.garbage_ = m.garbage_.dropLast ++ l) ∧
      (∀ a b, m1.sessionSwapRequested_ = true → m1.session_ = some a →
        m1.back_session_ = some b →
        m2.session_ = some b ∧ m2.garbage_ = m1.garbage_ ++ [a] ∧ a ∈ m4.garbage_ ∧
        m4.deleted_ = m.updateGarbage.deleted_) ∧
      (m1.sessionSwapRequested_ = false ∨ m1.back_session_ = none →
        m2.garbage_ = m1.garbage_) := by
  obtain ⟨m1, m2, m3, m4, h1, h2, -, -, h, g1, -, -, -, x1, x2, x3, x4, -⟩ :=
    Mixer.update_blocks W m ⟨hs, hv⟩
  obtain ⟨m2a, h2a, -, -, w1, w2⟩ := Mixer.updateSwap_grow m1 g1
  rw [h2] at h2a
  cases h2a
  have x := x1.growTrans (x2.growTrans (x3.growTrans x4))
  obtain ⟨-, -, -, n0, f0⟩ := Mixer.updateGarbage_spec m
  refine ⟨m1, m2, m4, h1, h2, h, fun e => ?_, fun g e => ?_, fun a b e1 e2 e3 => ?_,
    fun e => (w2 e).2⟩
  · rw [x.deleted, n0 e]
  · obtain ⟨d1, d2⟩ := f0 g e
    obtain ⟨l, hl⟩ := x.garbage
    exact ⟨by rw [x.deleted, d1], ⟨l, by rw [hl, d2]⟩⟩
  · obtain ⟨s1, s2⟩ := w1 a b e1 e2 e3
    obtain ⟨l, hl⟩ := (x3.growTrans x4).garbage
    exact ⟨s1, s2, by rw [hl, s2]; simp, x.deleted⟩

/-- C14 on a mixer with session 3 on the garbage list, session 0 live and session 1 staged with
the swap requested: the update deletes session 3 and no other, and returns with session 0 on the
garbage list. -/
theorem Mixer.update_frees_one_session_witness :
    ∃ m4, stagedMixer.update {} = some m4 ∧ m4.deleted_ = [3] ∧ 0 ∈ m4.garbage_ := by
  obtain ⟨m1, m2, m4, h1, -, h, -, f, w, -⟩ :=
    Mixer.update_frees_one_session {} stagedMixer rfl rfl
  have e1 : stagedMixer.updateQueues {} =
      some { stagedMixer with garbage_ := [], deleted_ := [3] } := rfl
  rw [e1] at h1
  cases h1
  exact ⟨m4, h, (f 3 rfl).1, (w 0 1 rfl rfl rfl).2.2.1⟩

/-! ## Loading a session file -/

theorem SessionCreator.load_clip :
    ∃ C, SessionCreator.load {} id (SessionCreator.new (fun _ => {}) (fun _ => {}))
        clipDocument "a.mix" = some C ∧
      C.session_ = some 0 ∧ (C.sessions 0).sources_ = [0] ∧ (C.sessions 0).filename_ = "a.mix" ∧
      (C.sources 0).name_ = "clip" ∧ C.sources_id_ = [0] :=
  ⟨_, rfl, rfl, rfl, rfl, rfl, rfl⟩

/-- C16: when the file cannot be read as XML, or has no header element, `SessionCreator::load`
on a new creator returns with its session null and creates nothing on the heaps, and
`Mixer::set` called with that null session returns the mixer unchanged: the live session, the
back session, the garbage list and the swap request are those on entry. -/
theorem SessionCreator.load_failure (F : Fresh) (t : String → String)
    (sources : SourcePtr → Source) (sessions : SessionPtr → Session) (doc : XMLDocument)
    (filename : String) (h : doc.loadError = true ∨ doc.header = none) :
    ∃ C, SessionCreator.load F t (SessionCreator.new sources sessions) doc filename = some C ∧
      C.session_ = none ∧ C.sessions = sessions ∧ C.sources = sources ∧
      ∀ m : Mixer, m.set C.session_ = m ∧
        (m.set C.session_).session_ = m.session_ ∧
        (m.set C.session_).back_session_ = m.back_session_ ∧
        (m.set C.session_).garbage_ = m.garbage_ ∧
        (m.set C.session_).sessionSwapRequested_ = m.sessionSwapRequested_ := by
  refine ⟨SessionCreator.new sources sessions, ?_, rfl, rfl, rfl,
    fun m => ⟨rfl, rfl, rfl, rfl, rfl⟩⟩
  unfold SessionCreator.load
  by_cases he : doc.loadError = true
  · rw [if_pos he]
  · rw [if_neg he]
    rcases h with h | h
    · exact absurd h he
    · rw [h]

/-- C16 on a file that is not XML, for a mixer with a live session and a loader pending. -/
theorem SessionCreator.load_failure_witness :
    ∃ C, SessionCreator.load {} id (SessionCreator.new (fun _ => {}) (fun _ => {}))
        brokenDocument "a.mix" = some C ∧
      C.session_ = none ∧ queueMixer.set C.session_ = queueMixer := by
  obtain ⟨C, h, e, -, -, k⟩ := SessionCreator.load_failure {} id (fun _ => {}) (fun _ => {})
    brokenDocument "a.mix" (Or.inl rfl)
  exact ⟨C, h, e, (k queueMixer).1⟩

/-! ## Clones -/

theorem Source.clone_origin (h : SourcePtr → Source) (o n : SourcePtr) (cid : Nat)
    (x : SourcePtr) :
    ((Source.clone h o n cid).1 x).origin_ =
      if x = n then some (some o) else (h x).origin_ := by
  unfold Source.clone
  by_cases hxo : x = o
  · subst hxo
    by_cases hxn : x = n
    · subst hxn
      simp
    · simp [hxn]
  · by_cases hxn : x = n
    · subst hxn
      simp [hxo]
    · simp [hxo, hxn]

theorem Source.clone_noChain (h : SourcePtr → Source) (o n : SourcePtr) (cid : Nat)
    (ho : (h o).origin_ = none) (hno : NoChain h) (hn : ∀ p, (h p).origin_ ≠ some (some n))
    (hne : n ≠ o) : NoChain (Source.clone h o n cid).1 := by
  intro p o1 hp
  rw [Source.clone_origin] at hp ⊢
  by_cases hpn : p = n
  · rw [if_pos hpn] at hp
    cases hp
    rw [if_neg (Ne.symm hne)]
    exact ho
  · rw [if_neg hpn] at hp
    have h1 : o1 ≠ n := fun e => hn p (e ▸ hp)
    rw [if_neg h1]
    exact hno p o1 hp

theorem chainHeap_origin (p : SourcePtr) :
    (chainHeap p).origin_ = if p = 2 then some (some 1) else none := by
  unfold chainHeap
  split_ifs <;> rfl

/-- C21: on a heap where no clone has a clone as origin, `CloneSource::clone` called on a clone
`c` whose origin `o` is live returns the new clone (at the fresh address `n`), whose origin is `o`
and which is appended to the clone list of `o`, every other source being unchanged, and again no
clone has a clone as origin; `Source::clone` on a source that is not a clone keeps that property
too, the new clone having that source as origin; and `CloneSource::clone` on a clone whose origin
is null returns null and changes nothing. -/
theorem CloneSource.clone_never_chains :
    (∀ (h : SourcePtr → Source) (n : SourcePtr) (cid depth : Nat) (c o : SourcePtr),
      (h c).origin_ = some (some o) → NoChain h → (∀ p, (h p).origin_ ≠ some (some n)) →
      n ≠ o →
      ∃ h1, CloneSource.clone h n cid (depth + 1) c = some (h1, some n) ∧
        (h1 n).origin_ = some (some o) ∧ (h1 n).id_ = cid ∧
        (h1 o).clones_ = (h o).clones_ ++ [n] ∧
        (∀ p, p ≠ n → p ≠ o → h1 p = h p) ∧ NoChain h1) ∧
    (∀ (h : SourcePtr → Source) (n : SourcePtr) (cid : Nat) (o : SourcePtr),
      (h o).origin_ = none → NoChain h → (∀ p, (h p).origin_ ≠ some (some n)) → n ≠ o →
      ((Source.clone h o n cid).1 n).origin_ = some (some o) ∧
        (Source.clone h o n cid).2 = some n ∧ NoChain (Source.clone h o n cid).1) ∧
    (∀ (h : SourcePtr → Source) (n : SourcePtr) (cid depth : Nat) (c : SourcePtr),
      (h c).origin_ = some none → CloneSource.clone h n cid (depth + 1) c = some (h, none)) := by
  refine ⟨fun h n cid depth c o hc hno hn hne => ?_, fun h n cid o ho hno hn hne => ?_,
    fun h n cid depth c hc => ?_⟩
  · have ho : (h o).origin_ = none := hno c o hc
    refine ⟨(Source.clone h o n cid).1, ?_, ?_, ?_, ?_, ?_, Source.clone_noChain h o n cid ho hno hn hne⟩
    · simp only [CloneSource.clone, hc, ho]
      rfl
    · rw [Source.clone_origin, if_pos rfl]
    · simp [Source.clone, hne]
    · simp [Source.clone, Ne.symm hne]
    · intro p h1 h2
      simp [Source.clone, h1, h2]
  · exact ⟨by rw [Source.clone_origin, if_pos rfl], rfl,
      Source.clone_noChain h o n cid ho hno hn hne⟩
  · simp only [CloneSource.clone, hc]

/-- C21 on the heap with the origin 1 and its clone 2: a clone of the clone 2 made at address 3
has origin 1 and is the second clone of 1. -/
theorem CloneSource.clone_never_chains_witness :
    ∃ h1, CloneSource.clone chainHeap 3 30 1 2 = some (h1, some 3) ∧
      (h1 3).origin_ = some (some 1) ∧ (h1 1).clones_ = [2, 3] ∧ NoChain h1 := by
  obtain ⟨h1, e, k1, -, k2, -, k3⟩ := CloneSource.clone_never_chains.1 chainHeap 3 30 0 2 1 rfl
    (by
      intro p o hp
      rw [chainHeap_origin] at hp ⊢
      by_cases h2 : p = 2
      · rw [if_pos h2] at hp
        cases hp
        rfl
      · rw [if_neg h2] at hp
        cases hp)
    (by
      intro p
      rw [chainHeap_origin]
      by_cases h2 : p = 2
      · rw [if_pos h2]
        decide
      · rw [if_neg h2]
        simp)
    (by decide)
  exact ⟨h1, e, k1, k2, k3⟩

/-! ## Image processing -/

/-- C22: when the copy constructor of `ImageProcessingShader` copies every parameter value,
`setImageProcessingEnabled(false)` followed by `setImageProcessingEnabled(true)` returns with
`imageProcessingEnabled()` true and with the processing shader holding the parameter values it
had before (on a source with image processing enabled the processing shader is then the copy
made on disabling); and `setImageProcessingEnabled(on)` with `on` equal to
`imageProcessingEnabled()` returns the source unchanged. -/
theorem Source.setImageProcessingEnabled_toggle
    (copy : ImageProcessingShader → ImageProcessingShader) (f1 f2 g1 g2 : ShaderPtr)
    (s : SourceShaders) (hcopy : ∀ x, copy x = x) :
    Source.imageProcessingEnabled
      (Source.setImageProcessingEnabled copy g1 g2
        (Source.setImageProcessingEnabled copy f1 f2 s false) true) = true ∧
    (let s2 := Source.setImageProcessingEnabled copy g1 g2
        (Source.setImageProcessingEnabled copy f1 f2 s false) true
     s2.processing s2.processingshader_ = s.processing s.processingshader_) ∧
    (Source.imageProcessingEnabled s = true →
      (Source.setImageProcessingEnabled copy g1 g2
        (Source.setImageProcessingEnabled copy f1 f2 s false) true).processingshader_ = f1 ∧
      (Source.setImageProcessingEnabled copy f1 f2 s false).deleted_ =
        s.deleted_ ++ [s.surface_]) ∧
    (∀ on_ : Bool, on_ = Source.imageProcessingEnabled s →
      Source.setImageProcessingEnabled copy f1 f2 s on_ = s) := by
  refine ⟨?_, ?_, ?_, ?_⟩
  · by_cases h1 : s.renderingshader_ = s.processingshader_
    · by_cases h2 : f2 = f1
      · simp [Source.setImageProcessingEnabled, Source.imageProcessingEnabled,
          SourceShaders.replaceShader, h1, h2]
      · simp [Source.setImageProcessingEnabled, Source.imageProcessingEnabled,
          SourceShaders.replaceShader, h1, h2]
    · simp [Source.setImageProcessingEnabled, Source.imageProcessingEnabled,
        SourceShaders.replaceShader, h1]
  · by_cases h1 : s.renderingshader_ = s.processingshader_
    · by_cases h2 : f2 = f1
      · simp [Source.setImageProcessingEnabled, Source.imageProcessingEnabled,
          SourceShaders.replaceShader, h1, h2, hcopy]
      · simp [Source.setImageProcessingEnabled, Source.imageProcessingEnabled,
          SourceShaders.replaceShader, h1, h2, hcopy]
    · simp [Source.setImageProcessingEnabled, Source.imageProcessingEnabled,
        SourceShaders.replaceShader, h1]
  · intro he
    have h1 : s.renderingshader_ = s.processingshader_ := by
      simpa [Source.imageProcessingEnabled] using he
    by_cases h2 : f2 = f1
    · simp [Source.setImageProcessingEnabled, Source.imageProcessingEnabled,
        SourceShaders.replaceShader, h1, h2]
    · simp [Source.setImageProcessingEnabled, Source.imageProcessingEnabled,
        SourceShaders.replaceShader, h1, h2]
  · intro on_ h
    simp [Source.setImageProcessingEnabled, h]

/-- C22 on a source whose processing shader has brightness `0.5`: after disabling and enabling
again image processing is enabled and the brightness is `0.5`. -/
theorem Source.setImageProcessingEnabled_toggle_witness :
    Source.imageProcessingEnabled
      (Source.setImageProcessingEnabled id 4 5
        (Source.setImageProcessingEnabled id 2 3 tunedShaders false) true) = true ∧
    (let s2 := Source.setImageProcessingEnabled id 4 5
        (Source.setImageProcessingEnabled id 2 3 tunedShaders false) true
     s2.processing s2.processingshader_ =
      tunedShaders.processing tunedShaders.processingshader_) :=
  ⟨(Source.setImageProcessingEnabled_toggle id 2 3 4 5 tunedShaders (fun _ => rfl)).1,
   (Source.setImageProcessingEnabled_toggle id 2 3 4 5 tunedShaders (fun _ => rfl)).2.1⟩

/-! ## The mixing icon -/

theorem Source.updateNodes_mixing_scale (D : Defines) (a fill : Bool) (s : Source) :
    ((Source.updateNodes D a fill s).groups_ View.MIXING).scale_ =
      D.MIXING_ICON_SCALE - (if a then ⟨0, 0, 0⟩ else ⟨0.03, 0.03, 0⟩) := by
  simp only [Source.updateNodes, Source.setLocked]
  split_ifs <;> simp

/-- What an update pass leaves of the activity and of the mixing icon of the source at `p`: it
is active iff it lies within the limbo radius or one of its clones is active, and the scale of
its MIXING group is the icon scale, reduced when it lies at or beyond the limbo radius. -/
theorem Source.updatePass_icon (D : Defines) (h : SourceHeap) (p : SourcePtr) (fill : Bool) :
    ((Source.updatePass D h p fill p).active_ = true ↔
      glm.length (h p).mixingPos < D.MIXING_LIMBO_SCALE ∨
        ∃ c ∈ (h p).clones_, c ≠ p ∧ (h c).active_ = true) ∧
    ((Source.updatePass D h p fill p).groups_ View.MIXING).scale_ =
      D.MIXING_ICON_SCALE -
        (if glm.length (h p).mixingPos < D.MIXING_LIMBO_SCALE then ⟨0, 0, 0⟩
         else ⟨0.03, 0.03, 0⟩) := by
  constructor
  · unfold Source.updatePass
    simp only [Function.update_same, Source.updateNodes_active]
    unfold Source.setActive
    simp only [Function.update_same]
    obtain ⟨-, f2, -⟩ := setActiveStep_fold p
      (Function.update h p
        { h p with
          blending_alpha_ := sin_quad (h p).mixingPos.x (h p).mixingPos.y
          mixing_alpha_ := sin_quad (h p).mixingPos.x (h p).mixingPos.y })
      (h p).clones_
      (Function.update (Function.update h p
        { h p with
          blending_alpha_ := sin_quad (h p).mixingPos.x (h p).mixingPos.y
          mixing_alpha_ := sin_quad (h p).mixingPos.x (h p).mixingPos.y }) p
        { h p with
          blending_alpha_ := sin_quad (h p).mixingPos.x (h p).mixingPos.y
          mixing_alpha_ := sin_quad (h p).mixingPos.x (h p).mixingPos.y
          active_ := decide (glm.length (h p).mixingPos < D.MIXING_LIMBO_SCALE) })
      (fun c hc => by simp [Function.update_noteq hc])
    simp only [Function.update_same, decide_eq_true_eq] at f2
    rw [f2]
    constructor
    · rintro (h1 | ⟨c, hc, h1, h2⟩)
      · exact Or.inl h1
      · exact Or.inr ⟨c, hc, h1, by simpa [Function.update_noteq h1] using h2⟩
    · rintro (h1 | ⟨c, hc, h1, h2⟩)
      · exact Or.inl h1
      · exact Or.inr ⟨c, hc, h1, by simpa [Function.update_noteq h1] using h2⟩
  · unfold Source.updatePass
    simp only [Function.update_same, Source.updateNodes_mixing_scale, decide_eq_true_eq]

/-- C23, the code at the failing input: with the sample constants, an update pass on the origin
1, which has its buffers attached, lies at `(2, 0)` (beyond the limbo radius `1.3`) and has the
active clone 2, returns with the origin active and the scale of its MIXING group reduced by
`0.03` in `x` and `y`, not the full icon scale. -/
theorem Source.update_active_origin_small_icon :
    (originHeap 1).clones_ = [2] ∧ (originHeap 2).active_ = true ∧
    (originHeap 1).need_update_ = true ∧
    (Source.update sampleDefines originHeap 1 0 true 1).active_ = true ∧
    ((Source.update sampleDefines originHeap 1 0 true 1).groups_ View.MIXING).scale_ =
      sampleDefines.MIXING_ICON_SCALE - ⟨0.03, 0.03, 0⟩ ∧
    ((Source.update sampleDefines originHeap 1 0 true 1).groups_ View.MIXING).scale_ ≠
      sampleDefines.MIXING_ICON_SCALE := by
  have e := Source.update_of_ready sampleDefines originHeap 1 0 true rfl rfl rfl rfl
  obtain ⟨k1, k2⟩ := Source.updatePass_icon sampleDefines
    (Function.update originHeap 1 { originHeap 1 with dt_ := 0 }) 1 true
  have hfar : ¬ glm.length
      ((Function.update originHeap 1 { originHeap 1 with dt_ := 0 }) 1).mixingPos <
        sampleDefines.MIXING_LIMBO_SCALE := by
    have := limboHeap_far 1
    simpa [Source.mixingPos, originHeap] using this
  rw [if_neg hfar] at k2
  have hs : ((Source.update sampleDefines originHeap 1 0 true 1).groups_ View.MIXING).scale_ =
      sampleDefines.MIXING_ICON_SCALE - ⟨0.03, 0.03, 0⟩ := by
    rw [e]
    exact k2
  refine ⟨rfl, rfl, rfl, ?_, hs, ?_⟩
  · rw [e, k1]
    refine Or.inr ⟨2, by simp [originHeap], by decide, ?_⟩
    simp [originHeap, limboHeap]
  · rw [hs]
    intro hc
    have hx := congrArg vec3.x hc
    have : (0.15 : ℝ) - 0.03 = 0.15 := by
      simpa [sampleDefines, HSub.hSub, Sub.sub] using hx
    norm_num at this

/-! ## Detaching a member -/

/-- The result of `MixingGroup::createLineStrip` on a group with more than one member whose
`lines_` is not dangling. -/
theorem MixingGroup.createLineStrip_rebuilt (g : MixingGroup) (h : SourceHeap)
    (hl : g.lines_ ≠ LinesPtr.dangling) (hn : 1 < g.sources_.length) :
    ∃ g1 l1, g.createLineStrip h = some g1 ∧ g1.sources_ = g.sources_ ∧
      g1.center_pos_ = g.center_pos_ ∧
      g1.lines_ = LinesPtr.live l1 ∧
      l1.path_ = g.sources_.map (fun s => (h s).mixingPos) ∧
      (∀ s ∈ g.sources_, ∃ i, g1.index_points_ s = some i ∧ g.sources_[i]? = some s) ∧
      (∀ s, (g1.index_points_ s).isSome → s ∈ g.sources_) := by
  obtain ⟨g1, l1, e, k1, k2, -, -, k5, k6, k7, k8⟩ :=
    MixingGroup.createLineStrip_null { g with lines_ := LinesPtr.null } h rfl hn
  refine ⟨{ g1 with lines_ := LinesPtr.live l1 }, l1, ?_, k1, k2, rfl, k6, k7, k8⟩
  have hn1 : g.sources_.length > 1 := hn
  simp only [MixingGroup.createLineStrip, hn1, if_true] at e ⊢
  cases e
  rcases hg : g.lines_ with _ | l0 | _
  · simp only at k5 ⊢
    cases k5
    rfl
  · simp only at k5 ⊢
    cases k5
    rfl
  · exact absurd hg hl

/-- C24: `MixingGroup::detach(s)` of a member `s` of a group with more than two members returns
with `sources_` the former sequence without (the first occurrence of) `s`, the others in their
former order, with a path that lists the current positions of the remaining members in that
order, and with `index_points_` defined exactly on the remaining members, each mapped to a place
where it stands in the sequence (its rank, when the members are distinct, and then `s` is no
longer a member); `detach` of a source that is not a member returns the group unchanged. -/
theorem MixingGroup.detach_rebuilds (g : MixingGroup) (h : SourceHeap) (s : SourcePtr)
    (hl : g.lines_ ≠ LinesPtr.dangling) :
    (s ∈ g.sources_ → 2 < g.sources_.length →
      ∃ g1 l1, g.detach h s = some g1 ∧ g1.sources_ = g.sources_.erase s ∧
        g1.sources_.Sublist g.sources_ ∧
        g1.lines_ = LinesPtr.live l1 ∧
        l1.path = g1.sources_.map (fun it => (h it).mixingPos) ∧
        (∀ it ∈ g1.sources_, ∃ i, g1.index_points_ it = some i ∧ g1.sources_[i]? = some it) ∧
        (∀ it, (g1.index_points_ it).isSome → it ∈ g1.sources_) ∧
        (g.sources_.Nodup → s ∉ g1.sources_ ∧
          ∀ it ∈ g1.sources_, g1.index_points_ it = some (g1.sources_.indexOf it))) ∧
    (s ∉ g.sources_ → g.detach h s = some g) := by
  refine ⟨fun hs h3 => ?_, fun hs => by simp only [MixingGroup.detach, hs, if_false]⟩
  have hlen : 1 < (g.sources_.erase s).length := by
    rw [List.length_erase_of_mem hs]
    omega
  obtain ⟨g1, l1, e, k1, -, k3, k4, k5, k6⟩ := MixingGroup.createLineStrip_rebuilt
    { g with sources_ := g.sources_.erase s } h hl hlen
  simp only at k1 k4 k5 k6
  refine ⟨g1, l1, by simp only [MixingGroup.detach, hs, if_true, e], k1, ?_, k3, ?_, ?_, ?_, ?_⟩
  · rw [k1]
    exact List.erase_sublist s g.sources_
  · rw [k1]
    exact k4
  · rw [k1]
    exact k5
  · rw [k1]
    exact k6
  · intro hnd
    have hnd1 : (g.sources_.erase s).Nodup := hnd.erase s
    refine ⟨by rw [k1]; exact hnd.not_mem_erase, fun it hit => ?_⟩
    rw [k1] at hit ⊢
    obtain ⟨i, e1, e2⟩ := k5 it hit
    rw [e1]
    congr 1
    exact (indexOf_of_getElem? hnd1 e2).symm

/-- C24 on the group of the sources 1, 2 and 3: detaching source 2 leaves the members 1 and 3 in
that order, a path through their positions, and the index defined on them alone. -/
theorem MixingGroup.detach_rebuilds_witness :
    ∃ g1 l1, tripleGroup.detach lineHeap 2 = some g1 ∧ g1.sources_ = [1, 3] ∧
      g1.lines_ = LinesPtr.live l1 ∧
      l1.path = g1.sources_.map (fun it => (lineHeap it).mixingPos) ∧
      (∀ it, (g1.index_points_ it).isSome → it ∈ g1.sources_) ∧
      2 ∉ g1.sources_ := by
  obtain ⟨g1, l1, e, k1, -, k3, k4, -, k6, k7⟩ :=
    (MixingGroup.detach_rebuilds tripleGroup lineHeap 2 (by simp [tripleGroup])).1
      (by simp [tripleGroup]) (by simp [tripleGroup])
  exact ⟨g1, l1, e, k1, k3, k4, k6, (k7 (by simp [tripleGroup])).1⟩

/-! ## A request is consumed once -/

/-- An update that applies a pending action returns with no moved source recorded and a live
path. -/
theorem MixingGroup.update_applied (g : MixingGroup) (h : SourceHeap) (cur : Option SourcePtr)
    (l : LineLoop) (u : SourcePtr) (hl : g.lines_ = LinesPtr.live l)
    (ha : g.update_action_ ≠ Action.ACTION_NONE) (hu : g.updated_source_ = some u) :
    ∃ g1 h1 l1, g.update h cur = some (g1, h1) ∧ g1.updated_source_ = none ∧
      g1.lines_ = LinesPtr.live l1 ∧ g1.update_action_ = g.update_action_ := by
  obtain ⟨g0, l0, h1, h2, h3, h4, h5, h6, h7, h8⟩ := MixingGroup.setActive_live g
    (match cur with
      | some c => decide (c ∈ g.sources_)
      | none => false) l hl
  rcases hact : g.update_action_ with _ | _ | _ | _
  · exact absurd hact ha
  · refine ⟨(MixingGroup.done (g0.grabAll l0 h u)).1, (MixingGroup.done (g0.grabAll l0 h u)).2,
      _, ?_, rfl, rfl, ?_⟩
    · simp only [MixingGroup.update, h1, h2, h8, hu, h7, hact]
    · exact h7.trans hact
  · by_cases hm : u ∈ g0.sources_
    · refine ⟨{ g0 with
          index_points_ := g0.index_points_.touch u
          lines_ := LinesPtr.live (l0.editPath (g0.index_points_.at u) (h u).mixingPos)
          center_pos_ := barycenter h g0.sources_
          center_ := { g0.center_ with
            translation_ := ⟨(barycenter h g0.sources_).x, (barycenter h g0.sources_).y, 0⟩ }
          updated_source_ := none }, h, _, ?_, rfl, rfl, h7.trans hact⟩
      simp only [MixingGroup.update, h1, h2, h8, hu, h7, hact, MixingGroup.grabOne,
        MixingGroup.move, hm, if_true, Option.map_some', MixingGroup.done]
    · refine ⟨{ g0 with
          center_pos_ := barycenter h g0.sources_
          center_ := { g0.center_ with
            translation_ := ⟨(barycenter h g0.sources_).x, (barycenter h g0.sources_).y, 0⟩ }
          updated_source_ := none }, h, l0, ?_, rfl, h2, h7.trans hact⟩
      simp only [MixingGroup.update, h1, h2, h8, hu, h7, hact, MixingGroup.grabOne,
        MixingGroup.move, hm, if_false, Option.map_some', MixingGroup.done]
  · refine ⟨(MixingGroup.done (g0.rotateAll l0 h u)).1,
      (MixingGroup.done (g0.rotateAll l0 h u)).2, _, ?_, rfl, rfl, ?_⟩
    · simp only [MixingGroup.update, h1, h2, h8, hu, h7, hact]
    · exact h7.trans hact

/-- An update with no moved source recorded keeps the heap, the members, the centre, the path
and the index. -/
theorem MixingGroup.update_idle (g : MixingGroup) (h : SourceHeap) (cur : Option SourcePtr)
    (l : LineLoop) (hl : g.lines_ = LinesPtr.live l) (hu : g.updated_source_ = none) :
    ∃ g1 l1, g.update h cur = some (g1, h) ∧ g1.lines_ = LinesPtr.live l1 ∧
      l1.path_ = l.path_ ∧ g1.sources_ = g.sources_ ∧ g1.center_pos_ = g.center_pos_ ∧
      g1.index_points_ = g.index_points_ ∧ g1.updated_source_ = none ∧
      g1.center_.translation_ = g.center_.translation_ := by
  refine ⟨{ g with
      active_ := (match cur with
        | some c => decide (c ∈ g.sources_)
        | none => false)
      lines_ := LinesPtr.live { l with alpha := if (match cur with
        | some c => decide (c ∈ g.sources_)
        | none => false) = true then 0.96 else 0.5 }
      center_ := { g.center_ with visible_ := decide (g.update_action_ ≠ Action.ACTION_NONE) }
      updated_source_ := none },
    _, ?_, rfl, rfl, rfl, rfl, rfl, rfl, rfl⟩
  simp only [MixingGroup.update, MixingGroup.setActive, hl, hu]

/-- C25: an update of a group with a live path that applies a pending action (any of the three)
for the moved source returns with the moved source reset to null, the action itself being kept;
an update that follows with no new request, whatever the current source, returns the heap of
sources as it was, so no MIXING translation changes, and the same path points, centre and
members. -/
theorem MixingGroup.update_consumed_once (g : MixingGroup) (h : SourceHeap)
    (cur cur2 : Option SourcePtr) (l : LineLoop) (u : SourcePtr)
    (hl : g.lines_ = LinesPtr.live l) (ha : g.update_action_ ≠ Action.ACTION_NONE)
    (hu : g.updated_source_ = some u) :
    ∃ g1 h1 l1 g2 l2, g.update h cur = some (g1, h1) ∧ g1.updated_source_ = none ∧
      g1.update_action_ = g.update_action_ ∧ g1.lines_ = LinesPtr.live l1 ∧
      g1.update h1 cur2 = some (g2, h1) ∧ g2.lines_ = LinesPtr.live l2 ∧
      l2.path = l1.path ∧ g2.center_pos_ = g1.center_pos_ ∧
      g2.center_.translation_ = g1.center_.translation_ ∧
      g2.sources_ = g1.sources_ ∧ g2.index_points_ = g1.index_points_ ∧
      g2.updated_source_ = none := by
  obtain ⟨g1, h1, l1, e1, k1, k2, k3⟩ := MixingGroup.update_applied g h cur l u hl ha hu
  obtain ⟨g2, l2, e2, j1, j2, j3, j4, j5, j6, j7⟩ := MixingGroup.update_idle g1 h1 cur2 l1 k2 k1
  exact ⟨g1, h1, l1, g2, l2, e1, k1, k3, k2, e2, j1, j2, j4, j7, j3, j5, j6⟩

/-- C25 on the pair of sources after source 1 was dragged with GRAB_ALL requested: the first
update applies the action and a second one changes nothing. -/
theorem MixingGroup.update_consumed_once_witness :
    ∃ g1 h1 l1 g2 l2, (pairGroup Action.ACTION_GRAB_ALL).update (movedHeap false) none =
        some (g1, h1) ∧ g1.updated_source_ = none ∧ g1.lines_ = LinesPtr.live l1 ∧
      g1.update h1 (some 1) = some (g2, h1) ∧ g2.lines_ = LinesPtr.live l2 ∧
      l2.path = l1.path ∧ g2.center_pos_ = g1.center_pos_ := by
  obtain ⟨g1, h1, l1, g2, l2, e1, k1, -, k2, e2, j1, j2, j3, -⟩ :=
    MixingGroup.update_consumed_once (pairGroup Action.ACTION_GRAB_ALL) (movedHeap false) none
      (some 1) _ 1 rfl (by decide) rfl
  exact ⟨g1, h1, l1, g2, l2, e1, k1, k2, e2, j1, j2, j3⟩

/-! ## The dirty bit -/

theorem Source.updatePass_need_update (D : Defines) (h : SourceHeap) (p : SourcePtr)
    (fill : Bool) : (Source.updatePass D h p fill p).need_update_ = false := by
  unfold Source.updatePass
  simp [Source.updateNodes]

/-- C26: `Source::update(dt)` on a source whose `need_update_` is false, or whose render buffer,
mixing surface or mask buffer is missing, only stores `dt_`; a call that finds the buffers and
`need_update_` set runs the pass and returns with `need_update_` false; and in every case a
second call that follows without a `touch` only stores its `dt_`. -/
theorem Source.update_dirty_bit (D : Defines) (h : SourceHeap) (p : SourcePtr) (dt dt2 : ℝ)
    (fill fill2 : Bool) :
    (¬ ((h p).renderbuffer_ = true ∧ (h p).mixingsurface_ = true ∧ (h p).maskbuffer_ = true ∧
        (h p).need_update_ = true) →
      Source.update D h p dt fill = Function.update h p { h p with dt_ := dt }) ∧
    ((h p).renderbuffer_ = true ∧ (h p).mixingsurface_ = true ∧ (h p).maskbuffer_ = true ∧
        (h p).need_update_ = true →
      Source.update D h p dt fill =
        Source.updatePass D (Function.update h p { h p with dt_ := dt }) p fill ∧
      (Source.update D h p dt fill p).need_update_ = false) ∧
    Source.update D (Source.update D h p dt fill) p dt2 fill2 =
      Function.update (Source.update D h p dt fill) p
        { Source.update D h p dt fill p with dt_ := dt2 } := by
  have hoff : ∀ (k : SourceHeap) (d : ℝ) (f : Bool),
      ¬ ((k p).renderbuffer_ = true ∧ (k p).mixingsurface_ = true ∧ (k p).maskbuffer_ = true ∧
        (k p).need_update_ = true) →
      Source.update D k p d f = Function.update k p { k p with dt_ := d } := by
    intro k d f hg
    unfold Source.update
    simp only [Function.update_same]
    rw [if_neg hg]
  have hon : (h p).renderbuffer_ = true ∧ (h p).mixingsurface_ = true ∧
      (h p).maskbuffer_ = true ∧ (h p).need_update_ = true →
      Source.update D h p dt fill =
        Source.updatePass D (Function.update h p { h p with dt_ := dt }) p fill := by
    intro hg
    exact Source.update_of_ready D h p dt fill hg.1 hg.2.1 hg.2.2.1 hg.2.2.2
  refine ⟨hoff h dt fill, fun hg => ⟨hon hg, ?_⟩, ?_⟩
  · rw [hon hg]
    exact Source.updatePass_need_update D _ p fill
  · apply hoff
    by_cases hg : (h p).renderbuffer_ = true ∧ (h p).mixingsurface_ = true ∧
        (h p).maskbuffer_ = true ∧ (h p).need_update_ = true
    · rw [hon hg, Source.updatePass_need_update]
      simp
    · rw [hoff h dt fill hg]
      simpa using hg

/-- C26 on a source with its buffers attached and `need_update_` set: the first update runs the
pass and clears the bit, the second only stores `dt_`. -/
theorem Source.update_dirty_bit_witness :
    (Source.update sampleDefines limboHeap 0 0 true 0).need_update_ = false ∧
    Source.update sampleDefines (Source.update sampleDefines limboHeap 0 0 true) 0 1 true =
      Function.update (Source.update sampleDefines limboHeap 0 0 true) 0
        { Source.update sampleDefines limboHeap 0 0 true 0 with dt_ := 1 } :=
  ⟨((Source.update_dirty_bit sampleDefines limboHeap 0 0 1 true true).2.1
      ⟨rfl, rfl, rfl, rfl⟩).2,
   (Source.update_dirty_bit sampleDefines limboHeap 0 0 1 true true).2.2⟩

/-! ## Replacing a source -/

/-- The four copies of `Mixer::replaceSource` write the MIXING, GEOMETRY and LAYER groups of the
replacement and leave its APPEARANCE group as it was. -/
theorem copyGroup_appearance (h : SourcePtr → Source) (f t : SourcePtr) :
    ((copyGroup (copyGroup (copyGroup (copyGroup h f t View.MIXING) f t View.GEOMETRY) f t
      View.LAYER) f t View.MIXING) t).groups_ View.APPEARANCE = (h t).groups_ View.APPEARANCE := by
  simp [copyGroup]

/-- C27, the code at the failing input: on a mixer whose live session lists the source 5, with
every group translated by `(1, 2, 0)` and scaled by `(3, 3, 1)`, `replaceSource(5, 6)` returns
true with the MIXING, GEOMETRY and LAYER groups of the source 6 carrying those transforms, while
its APPEARANCE group keeps the translation `(0, 0, 0)` and the scale `(1, 1, 1)` it had. -/
theorem Mixer.replaceSource_skips_appearance :
    ∃ m1, replaceMixer.replaceSource {} (some 5) (some 6) = some (m1, true) ∧
      ((m1.sources 6).groups_ View.MIXING).translation_ =
        ((replaceMixer.sources 5).groups_ View.MIXING).translation_ ∧
      ((m1.sources 6).groups_ View.GEOMETRY).translation_ =
        ((replaceMixer.sources 5).groups_ View.GEOMETRY).translation_ ∧
      ((m1.sources 6).groups_ View.LAYER).translation_ =
        ((replaceMixer.sources 5).groups_ View.LAYER).translation_ ∧
      ((replaceMixer.sources 5).groups_ View.APPEARANCE).translation_ = ⟨1, 2, 0⟩ ∧
      ((replaceMixer.sources 5).groups_ View.APPEARANCE).scale_ = ⟨3, 3, 1⟩ ∧
      ((m1.sources 6).groups_ View.APPEARANCE).translation_ = ⟨0, 0, 0⟩ ∧
      ((m1.sources 6).groups_ View.APPEARANCE).scale_ = ⟨1, 1, 1⟩ ∧
      ((m1.sources 6).groups_ View.APPEARANCE).translation_ ≠
        ((replaceMixer.sources 5).groups_ View.APPEARANCE).translation_ := by
  refine ⟨_, rfl, rfl, rfl, rfl, rfl, rfl, rfl, rfl, ?_⟩
  intro hc
  have hx := congrArg vec3.x hc
  have h0 : ((0 : ℝ)) = 1 := hx
  norm_num at h0

/-! ## The ids recorded by a load -/

/-- C28, the code at the failing input: loading, into a session that holds the sources of ids 1
and 2, a session node whose elements give the ids 1, 2 and 1 returns with `sources_id_` equal to
`[1, 2, 1]`, in which the id 1 stands twice. -/
theorem SessionLoader.load_records_duplicate :
    (dupLoader.sessions 0).sources_ = [1, 2] ∧
    ∃ L, dupLoader.load {} id (some dupNode) = some L ∧
      L.sources_id_ = [1, 2, 1] ∧ ¬ L.sources_id_.Nodup :=
  ⟨rfl, _, rfl, rfl, by decide⟩

/-! ## A member at the centre -/

theorem lineHeap_mean : meanPos lineHeap [1, 2, 3] = ⟨0, 0⟩ := by
  simp only [meanPos, List.map_cons, List.map_nil]
  ext <;> simp [lineHeap, sourceAt, Source.mixingPos, vec3.xy]

/-- C29, the code at the failing input: the group built by the constructor from the sources at
`(-1, 0)`, `(0, 0)` and `(1, 0)` has its centre at `(0, 0)`, which is the path vertex recorded
for the member 2; for that member as the moved source the ROTATE_ALL branch computes
`pos_second = (0, 0)`, whose length, by which it divides and normalizes, is zero. -/
theorem MixingGroup.rotateAll_zero_length :
    ∃ g h1 l1, MixingGroup.new 0 [1, 2, 3] lineHeap Action.ACTION_ROTATE_ALL (some 2) =
        some (g, h1) ∧
      2 ∈ g.sources_ ∧ g.update_action_ = Action.ACTION_ROTATE_ALL ∧
      g.updated_source_ = some 2 ∧ g.lines_ = LinesPtr.live l1 ∧
      l1.path.getD (g.index_points_.at 2) 0 = g.center_pos_ ∧
      glm.length (l1.path.getD (g.index_points_.at 2) 0 - g.center_pos_) = 0 ∧
      ∀ pos : vec2, rotateDist pos (l1.path.getD (g.index_points_.at 2) 0) g.center_pos_ =
        glm.length (pos - g.center_pos_) / 0 := by
  obtain ⟨g, h1, l1, e, k1, k2, k3, k4, k5, k6, k7, k8, -⟩ :=
    MixingGroup.new_spec 0 [1, 2, 3] lineHeap Action.ACTION_ROTATE_ALL (some 2) (by simp)
  have hmem : 2 ∈ g.sources_ := by
    rw [k3]
    exact (stdSort_perm _ _).mem_iff.2 (by simp)
  obtain ⟨i, hi, hs⟩ := k8 2 hmem
  have hv : l1.path.getD (g.index_points_.at 2) 0 = g.center_pos_ := by
    have hat : g.index_points_.at 2 = i := by simp [IndexMap.at, hi]
    have hp : l1.path[i]? = some (h1 2).mixingPos := by
      show l1.path_[i]? = _
      rw [k7, List.getElem?_map, hs]
      rfl
    rw [hat, List.getD_eq_getElem?_getD, hp, k2, lineHeap_mean, Option.getD_some, k1]
    simp [lineHeap, sourceAt, Source.mixingPos, vec3.xy]
  have hz : glm.length (l1.path.getD (g.index_points_.at 2) 0 - g.center_pos_) = 0 := by
    rw [hv]
    have : g.center_pos_ - g.center_pos_ = (⟨0, 0⟩ : vec2) := by
      ext <;> simp [HSub.hSub, Sub.sub]
    rw [this]
    simp [glm.length, glm.dot]
  refine ⟨g, h1, l1, e, hmem, k4, k5, k6, hv, hz, fun pos => ?_⟩
  unfold rotateDist
  simp only
  rw [hz]

/-! ## Removing a source -/

theorem Mixer.unsetCurrentSource_selection (m : Mixer) (hl : m.session_.isSome) :
    ∃ m1, m.unsetCurrentSource = some m1 ∧ Mixer.Quiet m m1 ∧ m1.current_source_ = none ∧
      (m.current_source_ ≠ none → m1.current_source_index_ = -1) ∧
      (m.current_source_ = none → m1 = m) ∧ m1.selection_.Sublist m.selection_ := by
  obtain ⟨m1, h1, q1, c1⟩ := Mixer.unsetCurrentSource_quiet m hl
  obtain ⟨m2, h2, -, -, -, -, n2, i2⟩ := Mixer.unsetCurrentSource_ext m hl
  rw [h1] at h2
  cases h2
  refine ⟨m1, h1, q1, c1, i2, n2, ?_⟩
  obtain ⟨a, ha⟩ := Option.isSome_iff_exists.1 hl
  rcases hc : m.current_source_ with _ | c
  · rw [n2 hc]
  · by_cases hsel : m.selection_.length > 1
    · have e : m.unsetCurrentSource = some { m with
          sources := Function.update m.sources c ((m.sources c).setMode SourceMode.SELECTED)
          current_source_ := none, current_source_index_ := -1 } := by
        simp [Mixer.unsetCurrentSource, ha, hc, hsel]
      rw [h1] at e
      cases e
      exact List.Sublist.refl _
    · have e : m.unsetCurrentSource = some { m with
          selection_ := Selection.remove m.selection_ c
          current_source_ := none, current_source_index_ := -1 } := by
        simp [Mixer.unsetCurrentSource, ha, hc, hsel]
      rw [h1] at e
      cases e
      exact List.erase_sublist c m.selection_

theorem Mixer.detach_selection (m : Mixer) (hl : m.session_.isSome) (s : SourcePtr) :
    ∃ m1, m.detach (some s) = some m1 ∧ Mixer.Quiet m m1 ∧ m1.current_source_ = none ∧
      (m.current_source_ ≠ none → m1.current_source_index_ = -1) ∧
      (m.current_source_ = none → m1.current_source_index_ = m.current_source_index_) ∧
      m1.selection_.Sublist m.selection_ ∧ (m.selection_.Nodup → s ∉ m1.selection_) := by
  obtain ⟨m1, h1, q1, c1, i1, n1, s1⟩ := Mixer.unsetCurrentSource_selection m hl
  refine ⟨{ m1 with selection_ := Selection.remove m1.selection_ s }, ?_, ?_, c1, i1, ?_, ?_, ?_⟩
  · simp [Mixer.detach, h1]
  · exact q1.quietTrans (Mixer.Quiet.quietOfFields rfl rfl rfl rfl rfl rfl rfl rfl rfl rfl rfl)
  · intro hc
    rw [n1 hc]
  · exact (List.erase_sublist s m1.selection_).trans s1
  · intro hnd
    exact (hnd.sublist s1).not_mem_erase

/-- On a mixer without current source `Mixer::setView` keeps it so, with the same index, and
takes sources out of the selection at most. -/
theorem Mixer.setView_selection (W : Frame) (m : Mixer) (hl : m.session_.isSome) (v : View)
    (hs : W.transitionSession = none) (hc : m.current_source_ = none) :
    ∃ m1, m.setView W v = some m1 ∧ m1.current_source_ = none ∧
      m1.current_source_index_ = m.current_source_index_ ∧
      m1.selection_.Sublist m.selection_ := by
  obtain ⟨a, ha⟩ := Option.isSome_iff_exists.1 hl
  have hset : (if m.current_view_ = some View.TRANSITION then m.set W.transitionSession else m)
      = m := by
    rw [hs]
    split_ifs <;> rfl
  obtain ⟨m3, h3, q1, q2, q3, -⟩ := Mixer.forEach_rel
    (fun mm sit => if W.canSelect (viewFor v) sit then some mm else mm.deselect sit)
    (fun x y => (x.current_source_ = none → y.current_source_ = none) ∧
      (x.current_source_ = none → y.current_source_index_ = x.current_source_index_) ∧
      y.selection_.Sublist x.selection_ ∧ y.session_ = x.session_)
    (fun x => x.session_.isSome = true ∧ x.current_source_ = none)
    (fun x => ⟨id, fun _ => rfl, List.Sublist.refl _, rfl⟩)
    (fun _ _ _ h1 h2 => ⟨fun h => h2.1 (h1.1 h), fun h => (h2.2.1 (h1.1 h)).trans (h1.2.1 h),
      h2.2.2.1.trans h1.2.2.1, h2.2.2.2.trans h1.2.2.2⟩)
    (fun _ _ h k => ⟨by simpa only [k.2.2.2] using h.1, k.1 h.2⟩)
    (by
      intro mm x hmm
      by_cases hcs : W.canSelect (viewFor v) x = true
      · exact ⟨mm, by simp [hcs], id, fun _ => rfl, List.Sublist.refl _, rfl⟩
      · have hne : mm.current_source_ ≠ some x := by
          rw [hmm.2]
          simp
        refine ⟨{ mm with selection_ := Selection.remove mm.selection_ x }, ?_, id,
          fun _ => rfl, List.erase_sublist x mm.selection_, rfl⟩
        simp [hcs, Mixer.deselect, hne])
    ({ m with current_view_ := some (viewFor v) }.sessions a).sources_
    { m with current_view_ := some (viewFor v) } ⟨hl, hc⟩
  refine ⟨m3, ?_, q1 hc, q2 hc, q3⟩
  rw [← h3]
  simp only [Mixer.setView, hset, ha]

/-- C30: on a mixer with a live session, a selection without repetition and the current index
equal to -1 iff there is no current source, `Mixer::detach(s)` and `Mixer::deleteSource(s)` of a
non-null source `s`, current or not, return with no current source (`currentSource()` null,
current index -1) and with `s` out of the selection, so that the index is again -1 iff there is
no current source. -/
theorem Mixer.detach_unsets_current (W : Frame) (m : Mixer) (s : SourcePtr)
    (hl : m.session_.isSome)
    (hinv : m.current_source_index_ = -1 ↔ m.current_source_ = none)
    (hnd : m.selection_.Nodup) :
    (∃ m1, m.detach (some s) = some m1 ∧ m1.currentSource = some none ∧
      m1.current_source_index_ = -1 ∧ s ∉ m1.selection_ ∧
      (m1.current_source_index_ = -1 ↔ m1.current_source_ = none)) ∧
    (∃ m2, m.deleteSource W (some s) = some m2 ∧ m2.currentSource = some none ∧
      m2.current_source_index_ = -1 ∧ s ∉ m2.selection_ ∧
      (m2.current_source_index_ = -1 ↔ m2.current_source_ = none)) := by
  obtain ⟨m1, h1, q1, c1, i1, j1, s1, n1⟩ := Mixer.detach_selection m hl s
  obtain ⟨a, ha⟩ := Option.isSome_iff_exists.1 hl
  have ha1 : m1.session_ = some a := q1.session_.trans ha
  have hidx : m1.current_source_index_ = -1 := by
    by_cases hc : m.current_source_ = none
    · rw [j1 hc]
      exact hinv.2 hc
    · exact i1 hc
  refine ⟨⟨m1, h1, by simp [Mixer.currentSource, ha1, c1], hidx, n1 hnd,
    ⟨fun _ => c1, fun _ => hidx⟩⟩, ?_⟩
  -- the state after the removal from the session
  obtain ⟨m2, e2, k1, k2, k3, k4⟩ : ∃ m2 : Mixer,
      m.deleteSource W (some s) =
        (if m2.current_view_ = some View.TRANSITION then
          m2.setView { W with transitionSession := none } View.MIXING
        else some m2) ∧ m2.session_ = some a ∧ m2.current_source_ = none ∧
      m2.current_source_index_ = -1 ∧ m2.selection_ = m1.selection_ :=
    ⟨{ m1 with
        sessions := Function.update m1.sessions a ((m1.sessions a).deleteSource s)
        session_ := some a },
      by simp only [Mixer.deleteSource, h1, ha1], rfl, c1, hidx, rfl⟩
  by_cases ht : m2.current_view_ = some View.TRANSITION
  · obtain ⟨m3, h3, c3, i3, s3⟩ := Mixer.setView_selection
      { W with transitionSession := none } m2 (by simp [k1]) View.MIXING rfl k2
    have hs3 : m3.session_.isSome := by
      obtain ⟨m3a, h3a, -, e3, -⟩ := Mixer.setView_ext { W with transitionSession := none } m2
        (by simp [k1]) View.MIXING
      rw [h3] at h3a
      cases h3a
      simp [e3, k1]
    obtain ⟨b, hb⟩ := Option.isSome_iff_exists.1 hs3
    refine ⟨m3, by rw [e2, if_pos ht, h3], by simp [Mixer.currentSource, hb, c3],
      i3.trans k3, fun hm => n1 hnd ?_, ⟨fun _ => c3, fun _ => i3.trans k3⟩⟩
    exact k4 ▸ s3.subset hm
  · exact ⟨m2, by rw [e2, if_neg ht], by simp [Mixer.currentSource, k1, k2], k3,
      by rw [k4]; exact n1 hnd, ⟨fun _ => k2, fun _ => k3⟩⟩

/-- C30 on the mixer whose source 5 is current and alone in the selection: detaching or
deleting the source 6, which is not current, leaves no current source. -/
theorem Mixer.detach_unsets_current_witness :
    (∃ m1, queueMixer.detach (some 6) = some m1 ∧ m1.currentSource = some none ∧
      m1.current_source_index_ = -1 ∧ 6 ∉ m1.selection_) ∧
    (∃ m2, queueMixer.deleteSource {} (some 6) = some m2 ∧ m2.currentSource = some none ∧
      m2.current_source_index_ = -1 ∧ 6 ∉ m2.selection_) := by
  obtain ⟨⟨m1, h1, c1, i1, s1, -⟩, ⟨m2, h2, c2, i2, s2, -⟩⟩ :=
    Mixer.detach_unsets_current {} queueMixer 6 rfl (by decide) (by decide)
  exact ⟨⟨m1, h1, c1, i1, s1⟩, ⟨m2, h2, c2, i2, s2⟩⟩

/-! ## Number of members and the path pointer -/

end Vimix
